import Mathlib

/-!
# final_memory.h : using heap memory like a stack

Shallow embedding of `src/final_memory.h` and theorems about it.

Conventions of the embedding.

* Target: a 64-bit platform.  `size_t` values and pointers are natural numbers
  below `2^64`; every `+`, `-`, `*` of the source on them is taken modulo `2^64`
  (`add64`, `sub64`, `mul64`).  The null pointer is `0`.
  `sizeof(fmemBlockHeader) = 16`, `sizeof(fmemMemoryBlock) = 48`.
* Memory is a record of three typed views: the block headers, the block
  descriptors and the data bytes, each indexed by address.  A C object pointer
  is the address used as index.  Every address can be read (reading a place the
  program never wrote gives whatever the view holds there).  A write of the
  library to an object of one view does not change another view.
* The clear step `FMEM_MEMSET(result, 0, size)` of `fmemPush` is embedded on the
  data bytes (`Memory.memset`); this is its whole effect as long as the cleared
  range holds no header and no descriptor.  `Memory.memsetFlat` is the same call on
  flat memory: it also zeroes what lies in the range of every header and every
  descriptor, and `fmemPush_flat` is `fmemPush` with this clear step.  It is used
  where a cleared range reaches the storage of a header or a descriptor.
* The library reads a header at `base - 80` of every block it traverses, also of a
  block that has none (a temporary, a sub-block, an arena over caller-owned memory):
  what it finds is what the header view holds at that address.  A store by the caller
  into its own memory, at a place the library later reads as a header, is therefore a
  write to the header view (`nestedArena`).
* An assignment `p->field = v` is `Memory.modifyBlock` / `Memory.modifyHeader`
  at `p`; statements are taken in the order of the source, so that two pointers
  that hold the same address behave as in C.
* `FMEM_MALLOC` is a parameter `malloc : Nat → Nat` (requested size to returned
  pointer, `0` for failure); every call is recorded in `Memory.mallocs`, every
  `FMEM_FREE` in `Memory.frees`.
* `while` loops that follow `header->next` take a `fuel` bound and return `none`
  when it runs out.
* `FMEM_ASSERT` is a user-overridable macro that compiles to nothing in release
  builds: the functions are embedded without it, and each asserted condition is
  a separate predicate (`fmemBeginTemporary_assert`, `fmemEndTemporary_asserts`).
-/

namespace FinalMemory

/-! ## Machine arithmetic -/

/-- Addition of `size_t` values (also pointer plus offset). -/
def add64 (a b : Nat) : Nat := (a + b) % 18446744073709551616

/-- Subtraction of `size_t` values (also pointer minus offset). -/
def sub64 (a b : Nat) : Nat :=
  (a + (18446744073709551616 - b % 18446744073709551616)) % 18446744073709551616

/-- Multiplication of `size_t` values. -/
def mul64 (a b : Nat) : Nat := (a * b) % 18446744073709551616

/-! ## Types -/

/-- The enum `fmemPushFlags`: `fmemPushFlags_None = 0`. -/
def fmemPushFlags_None : Nat := 0

/-- The enum `fmemPushFlags`: `fmemPushFlags_Clear = 1 << 0`. -/
def fmemPushFlags_Clear : Nat := 1

/-- The enum `fmemType`; `Growable` is the zero value. -/
inductive fmemType where
  | Growable
  | Fixed
  | Temporary
  deriving DecidableEq, Repr

/-- The struct `fmemBlockHeader`: two pointers to block descriptors. -/
structure fmemBlockHeader where
  prev : Nat
  next : Nat
  deriving DecidableEq, Repr

/-- The struct `fmemMemoryBlock`. -/
structure fmemMemoryBlock where
  source : Nat
  base : Nat
  temporary : Nat
  size : Nat
  used : Nat
  type : fmemType
  deriving DecidableEq, Repr

/-- A descriptor after `FMEM_MEMSET(block, 0, sizeof(*block))`. -/
def zeroBlock : fmemMemoryBlock :=
  { source := 0, base := 0, temporary := 0, size := 0, used := 0, type := fmemType.Growable }

/-- A header after `FMEM_MEMSET(header, 0, sizeof(*header))`. -/
def zeroHeader : fmemBlockHeader := { prev := 0, next := 0 }

/-- The memory the library works on, with the record of the heap calls made. -/
structure Memory where
  header : Nat → fmemBlockHeader
  block : Nat → fmemMemoryBlock
  byte : Nat → Nat
  mallocs : List (Nat × Nat)
  frees : List Nat

/-- Store a header at address `p`. -/
def Memory.setHeader (m : Memory) (p : Nat) (h : fmemBlockHeader) : Memory :=
  { m with header := fun a => if a = p then h else m.header a }

/-- Store a block descriptor at address `p`. -/
def Memory.setBlock (m : Memory) (p : Nat) (b : fmemMemoryBlock) : Memory :=
  { m with block := fun a => if a = p then b else m.block a }

/-- An assignment to fields of the header at address `p`: the header there becomes `f` of what it
was. -/
def Memory.modifyHeader (m : Memory) (p : Nat) (f : fmemBlockHeader → fmemBlockHeader) : Memory :=
  m.setHeader p (f (m.header p))

/-- An assignment to fields of the descriptor at address `p`: the descriptor there becomes `f` of
what it was. -/
def Memory.modifyBlock (m : Memory) (p : Nat) (f : fmemMemoryBlock → fmemMemoryBlock) : Memory :=
  m.setBlock p (f (m.block p))

/-- The call `FMEM_MEMSET(p, v, n)` on the data bytes only: the whole effect of the call when
`[p, p + n)` holds no header and no descriptor.  `Memory.memsetFlat` below is the call on flat
memory. -/
def Memory.memset (m : Memory) (p v n : Nat) : Memory :=
  { m with byte := fun a => if p ≤ a ∧ a < p + n then v else m.byte a }

/-- A 64-bit field stored at address `f` with value `v`, after `FMEM_MEMSET(p, 0, n)` on flat
memory (little-endian target): each of the 8 bytes of the value whose address lies in `[p, p + n)`
becomes 0; a field that the range does not meet keeps its value. -/
def zeroField (v f p n : Nat) : Nat :=
  if f + 8 ≤ p ∨ p + n ≤ f then v
  else [0, 1, 2, 3, 4, 5, 6, 7].foldl
    (fun acc i => acc + (if p ≤ f + i ∧ f + i < p + n then 0 else v / 256 ^ i % 256 * 256 ^ i)) 0

/-- The `type` field (an `int` enum stored at address `f`, values 0 to 2, so only its lowest byte
is ever non-zero) after `FMEM_MEMSET(p, 0, n)` on flat memory: zero, that is Growable, when the
range holds its lowest byte. -/
def zeroType (t : fmemType) (f p n : Nat) : fmemType :=
  if p ≤ f ∧ f < p + n then fmemType.Growable else t

/-- The call `FMEM_MEMSET(p, 0, n)` on flat memory: besides the data bytes it zeroes what lies in
`[p, p + n)` of every header (`prev` at offset 0, `next` at offset 8) and of every descriptor
(`source`, `base`, `temporary`, `size`, `used` at offsets 0, 8, 16, 24, 32 and `type` at offset
40). -/
def Memory.memsetFlat (m : Memory) (p n : Nat) : Memory :=
  { m with
    header := fun a =>
      { prev := zeroField (m.header a).prev a p n,
        next := zeroField (m.header a).next (a + 8) p n },
    block := fun a =>
      { source := zeroField (m.block a).source a p n,
        base := zeroField (m.block a).base (a + 8) p n,
        temporary := zeroField (m.block a).temporary (a + 16) p n,
        size := zeroField (m.block a).size (a + 24) p n,
        used := zeroField (m.block a).used (a + 32) p n,
        type := zeroType (m.block a).type (a + 40) p n },
    byte := fun a => if p ≤ a ∧ a < p + n then 0 else m.byte a }

/-! ## Constants and macros -/

/-- The value of `sizeof(fmemBlockHeader)`: two 8-byte pointers. -/
def sizeof_fmemBlockHeader : Nat := 16

/-- The value of `sizeof(fmemMemoryBlock)`: three pointers, two `size_t`, one `int` enum, padded
to a multiple of 8. -/
def sizeof_fmemMemoryBlock : Nat := 48

/-- The macro `FMEM__HEADER_SPACING`. -/
def FMEM__HEADER_SPACING : Nat := 8

/-- The macro `FMEM__MIN_BLOCKSIZE`. -/
def FMEM__MIN_BLOCKSIZE : Nat := 4096

/-- The macro `FMEM__OFFSET_TO_DATA` where its expansion stands alone or inside parentheses:
`sizeof(fmemBlockHeader) + FMEM__HEADER_SPACING + sizeof(fmemMemoryBlock) + FMEM__HEADER_SPACING`. -/
def FMEM__OFFSET_TO_DATA : Nat :=
  sizeof_fmemBlockHeader + FMEM__HEADER_SPACING + sizeof_fmemMemoryBlock + FMEM__HEADER_SPACING

/-- The macro `FMEM__OFFSET_TO_BLOCK`: `sizeof(fmemBlockHeader) + FMEM__HEADER_SPACING`. -/
def FMEM__OFFSET_TO_BLOCK : Nat := sizeof_fmemBlockHeader + FMEM__HEADER_SPACING

/-- The expression `blockSize - FMEM__OFFSET_TO_DATA` as the preprocessor expands it.  The macro
body has no parentheses, so the text is
`blockSize - sizeof(fmemBlockHeader) + FMEM__HEADER_SPACING + sizeof(fmemMemoryBlock) + FMEM__HEADER_SPACING`,
which C groups from the left. -/
def blockSize_minus_OFFSET_TO_DATA (blockSize : Nat) : Nat :=
  add64 (add64 (add64 (sub64 blockSize sizeof_fmemBlockHeader) FMEM__HEADER_SPACING)
    sizeof_fmemMemoryBlock) FMEM__HEADER_SPACING

/-- The expression `(uint8_t *)p + FMEM__OFFSET_TO_DATA` as the preprocessor expands it (a chain of
additions). -/
def plus_OFFSET_TO_DATA (p : Nat) : Nat :=
  add64 (add64 (add64 (add64 p sizeof_fmemBlockHeader) FMEM__HEADER_SPACING)
    sizeof_fmemMemoryBlock) FMEM__HEADER_SPACING

/-- The macro `FMEM__GETHEADER(block)`: `(uint8_t *)(block)->base - (FMEM__OFFSET_TO_DATA)`. -/
def FMEM__GETHEADER (block : fmemMemoryBlock) : Nat := sub64 block.base FMEM__OFFSET_TO_DATA

/-- The macro `FMEM__GETBLOCK(header)`: `(uint8_t *)(header) + FMEM__OFFSET_TO_BLOCK`, expanded to
`header + sizeof(fmemBlockHeader) + FMEM__HEADER_SPACING`. -/
def FMEM__GETBLOCK (header : Nat) : Nat :=
  add64 (add64 header sizeof_fmemBlockHeader) FMEM__HEADER_SPACING

/-! ## Helpers of the implementation -/

/-- The function `fmem__GetSpaceAvailableFor`. -/
def fmem__GetSpaceAvailableFor (block : fmemMemoryBlock) (size : Nat) : Nat :=
  if block.size > 0 ∧ block.used ≤ block.size then sub64 (sub64 block.size block.used) size else 0

/-- The function `fmem__ComputeBlockSize`; the comparison with `FMEM__OFFSET_TO_DATA` and the
assignment of it take the macro as a whole (`+` binds tighter than `<` and `=`). -/
def fmem__ComputeBlockSize (size : Nat) : Nat :=
  let size := if size < FMEM__OFFSET_TO_DATA then FMEM__OFFSET_TO_DATA else size
  let count := add64 (size / FMEM__MIN_BLOCKSIZE) 1
  mul64 count FMEM__MIN_BLOCKSIZE

/-- The function `fmem__AllocateBlock`: returns the header pointer (null on failure) and the
memory afterwards. -/
def fmem__AllocateBlock (m : Memory) (malloc : Nat → Nat) (size additionalSize : Nat) :
    Nat × Memory :=
  let blockSize := add64 size additionalSize
  let base := malloc blockSize
  let m := { m with mallocs := m.mallocs ++ [(blockSize, base)] }
  if base = 0 then (0, m)
  else
    let header := base
    let m := m.setHeader header zeroHeader
    let nextBlock := FMEM__GETBLOCK header
    let m := m.setBlock nextBlock zeroBlock
    (header, m)

/-- The function `fmem__FreeBlock`. -/
def fmem__FreeBlock (m : Memory) (header : Nat) : Memory :=
  { m with frees := m.frees ++ [header] }

/-! ## Introspection -/

/-- The loop of `fmemGetRemainingSize`. -/
def fmemGetRemainingSize_loop (m : Memory) : Nat → Nat → Nat → Option Nat
  | 0, _, _ => none
  | fuel + 1, testBlock, result =>
    if testBlock = 0 then some result
    else if (m.block testBlock).base = 0 ∨ (m.block testBlock).size = 0 then some result
    else
      fmemGetRemainingSize_loop m fuel (m.header (FMEM__GETHEADER (m.block testBlock))).next
        (add64 result (fmem__GetSpaceAvailableFor (m.block testBlock) 0))

/-- The function `fmemGetRemainingSize`. -/
def fmemGetRemainingSize (fuel : Nat) (m : Memory) (block : Nat) : Option Nat :=
  if block = 0 then some 0 else fmemGetRemainingSize_loop m fuel block 0

/-- The loop of `fmemGetTotalSize`. -/
def fmemGetTotalSize_loop (m : Memory) : Nat → Nat → Nat → Option Nat
  | 0, _, _ => none
  | fuel + 1, testBlock, result =>
    if testBlock = 0 then some result
    else if (m.block testBlock).base = 0 ∨ (m.block testBlock).size = 0 then some result
    else
      fmemGetTotalSize_loop m fuel (m.header (FMEM__GETHEADER (m.block testBlock))).next
        (add64 result (m.block testBlock).size)

/-- The function `fmemGetTotalSize`. -/
def fmemGetTotalSize (fuel : Nat) (m : Memory) (block : Nat) : Option Nat :=
  if block = 0 then some 0 else fmemGetTotalSize_loop m fuel block 0

/-! ## Initialisation and release -/

/-- The function `fmemInit`: returns the result and the memory afterwards. -/
def fmemInit (m : Memory) (malloc : Nat → Nat) (block : Nat) (type : fmemType) (size : Nat) :
    Bool × Memory :=
  if block = 0 then (false, m)
  else if type = fmemType.Fixed ∧ size = 0 then (false, m)
  else
    let m := m.setBlock block zeroBlock
    let m := m.modifyBlock block fun b => { b with type := type }
    if size > 0 then
      let r := fmem__AllocateBlock m malloc size FMEM__OFFSET_TO_DATA
      let header := r.1
      let m := r.2
      if header = 0 then (false, m)
      else
        let m := m.modifyBlock block fun b => { b with base := plus_OFFSET_TO_DATA header }
        let m := m.modifyBlock block fun b => { b with size := size }
        (true, m)
    else (true, m)

/-- The function `fmemInitFromSource`. -/
def fmemInitFromSource (m : Memory) (block sourceMemory sourceSize : Nat) : Bool × Memory :=
  if block = 0 ∨ sourceSize = 0 then (false, m)
  else if sourceMemory = 0 ∨ sourceSize = 0 then (false, m)
  else
    let m := m.setBlock block zeroBlock
    let m := m.modifyBlock block fun b => { b with type := fmemType.Fixed }
    let m := m.modifyBlock block fun b => { b with base := sourceMemory }
    let m := m.modifyBlock block fun b => { b with size := sourceSize }
    let m := m.modifyBlock block fun b => { b with source := sourceMemory }
    (true, m)

/-- The loop of `fmemFree`. -/
def fmemFree_loop : Nat → Memory → Nat → Option Memory
  | 0, _, _ => none
  | fuel + 1, m, freeBlock =>
    if freeBlock = 0 then some m
    else if (m.block freeBlock).base = 0 ∨ (m.block freeBlock).size = 0
        ∨ (m.block freeBlock).source ≠ 0 then some m
    else
      let header := FMEM__GETHEADER (m.block freeBlock)
      let next := (m.header header).next
      let m := fmem__FreeBlock m header
      fmemFree_loop fuel m next

/-- The function `fmemFree`. -/
def fmemFree (fuel : Nat) (m : Memory) (block : Nat) : Option Memory :=
  if block ≠ 0 ∧ (m.block block).temporary = 0 then
    match fmemFree_loop fuel m block with
    | none => none
    | some m => some (m.setBlock block zeroBlock)
  else some m

/-! ## Push -/

/-- The first loop of `fmemPush`: the search for the best fitting block. -/
def fmemPush_search (m : Memory) (size : Nat) : Nat → Nat → Nat → Option Nat
  | 0, _, _ => none
  | fuel + 1, searchBlock, bestBlock =>
    if searchBlock = 0 then some bestBlock
    else if (m.block searchBlock).base = 0 ∨ (m.block searchBlock).size = 0 then some bestBlock
    else
      let bestBlock :=
        if add64 (m.block searchBlock).used size ≤ (m.block searchBlock).size then
          if bestBlock = 0 ∨ fmem__GetSpaceAvailableFor (m.block searchBlock) size
              > fmem__GetSpaceAvailableFor (m.block bestBlock) size then searchBlock
          else bestBlock
        else bestBlock
      let header := FMEM__GETHEADER (m.block searchBlock)
      if (m.block searchBlock).type ≠ fmemType.Growable then some bestBlock
      else fmemPush_search m size fuel (m.header header).next bestBlock

/-- The second loop of `fmemPush`: the search for the tail block, started at a non-null block. -/
def fmemPush_tail (m : Memory) : Nat → Nat → Option Nat
  | 0, _ => none
  | fuel + 1, tailBlock =>
    if tailBlock = 0 then some tailBlock
    else
      let thisHeader := FMEM__GETHEADER (m.block tailBlock)
      if (m.header thisHeader).next = 0 then some tailBlock
      else fmemPush_tail m fuel (m.header thisHeader).next

/-- The code of `fmemPush` after the label `done`. -/
def fmemPush_done (m : Memory) (result size flags : Nat) : Nat × Memory :=
  if result ≠ 0 then
    if flags &&& fmemPushFlags_Clear ≠ 0 then (result, m.memset result 0 size)
    else (result, m)
  else (result, m)

/-- The function `fmemPush`: returns the result pointer (null on failure) and the memory
afterwards. -/
def fmemPush (fuel : Nat) (m : Memory) (malloc : Nat → Nat) (block size flags : Nat) :
    Option (Nat × Memory) :=
  if block = 0 ∨ size = 0 then some (0, m)
  else if (m.block block).temporary ≠ 0 then some (0, m)
  else
    match fmemPush_search m size fuel block 0 with
    | none => none
    | some bestBlock =>
      if bestBlock ≠ 0 then
        let result := add64 (m.block bestBlock).base (m.block bestBlock).used
        let m := m.modifyBlock bestBlock fun b => { b with used := add64 b.used size }
        some (fmemPush_done m result size flags)
      else if (m.block block).type ≠ fmemType.Growable then some (fmemPush_done m 0 size flags)
      else
        match (if (m.block block).base ≠ 0 then fmemPush_tail m fuel block else some 0) with
        | none => none
        | some tailBlock =>
          let blockSize := fmem__ComputeBlockSize size
          let r := fmem__AllocateBlock m malloc blockSize 0
          let newHeader := r.1
          let m := r.2
          if newHeader = 0 then some (fmemPush_done m 0 size flags)
          else if tailBlock = 0 then
            let m := m.modifyBlock block fun b =>
              { b with size := blockSize_minus_OFFSET_TO_DATA blockSize }
            let m := m.modifyBlock block fun b => { b with base := plus_OFFSET_TO_DATA newHeader }
            let m := m.modifyBlock block fun b => { b with used := size }
            let m := m.modifyBlock block fun b => { b with source := 0 }
            some (fmemPush_done m (m.block block).base size flags)
          else
            let newBlock := FMEM__GETBLOCK newHeader
            let m := m.modifyBlock newBlock fun b =>
              { b with base := plus_OFFSET_TO_DATA newHeader }
            let m := m.modifyBlock newBlock fun b =>
              { b with size := blockSize_minus_OFFSET_TO_DATA blockSize }
            let m := m.modifyBlock newBlock fun b => { b with type := (m.block tailBlock).type }
            let m := m.modifyBlock newBlock fun b => { b with source := 0 }
            let m := m.modifyBlock newBlock fun b => { b with used := size }
            let m := m.modifyHeader newHeader fun h => { h with prev := tailBlock }
            let tailHeader := FMEM__GETHEADER (m.block tailBlock)
            let m := m.modifyHeader tailHeader fun h => { h with next := newBlock }
            some (fmemPush_done m (m.block newBlock).base size flags)

/-- The code of `fmemPush` after the label `done`, with the clear step on flat memory. -/
def fmemPush_done_flat (m : Memory) (result size flags : Nat) : Nat × Memory :=
  if result ≠ 0 then
    if flags &&& fmemPushFlags_Clear ≠ 0 then (result, m.memsetFlat result size)
    else (result, m)
  else (result, m)

/-- The function `fmemPush` with the clear step on flat memory.  `flags` is read only in the code
after `done`, so this is the function without the clear flag followed by that code. -/
def fmemPush_flat (fuel : Nat) (m : Memory) (malloc : Nat → Nat) (block size flags : Nat) :
    Option (Nat × Memory) :=
  (fmemPush fuel m malloc block size fmemPushFlags_None).map fun r =>
    fmemPush_done_flat r.2 r.1 size flags

/-- The function `fmemPushAligned`: it returns null and does nothing else. -/
def fmemPushAligned (m : Memory) (_block _size _alignment _flags : Nat) : Nat × Memory :=
  (0, m)

/-- The function `fmemPushBlock`. -/
def fmemPushBlock (fuel : Nat) (m : Memory) (malloc : Nat → Nat) (src dst size flags : Nat) :
    Option (Bool × Memory) :=
  if src = 0 ∨ dst = 0 ∨ size = 0 then some (false, m)
  else
    match fmemPush fuel m malloc src size flags with
    | none => none
    | some r =>
      let base := r.1
      let m := r.2
      if base = 0 then some (false, m)
      else
        let m := m.modifyBlock dst fun b => { b with base := base }
        let m := m.modifyBlock dst fun b => { b with size := size }
        let m := m.modifyBlock dst fun b => { b with used := 0 }
        let m := m.modifyBlock dst fun b => { b with source := src }
        let m := m.modifyBlock dst fun b => { b with type := fmemType.Fixed }
        some (true, m)

/-- The function `fmemReset`. -/
def fmemReset (m : Memory) (block : Nat) : Memory :=
  if block ≠ 0 ∧ (m.block block).temporary = 0 then
    m.modifyBlock block fun b => { b with used := 0 }
  else m

/-! ## Temporary memory -/

/-- The function `fmemBeginTemporary`, without its final assertion. -/
def fmemBeginTemporary (fuel : Nat) (m : Memory) (source temporary : Nat) :
    Option (Bool × Memory) :=
  if source = 0 ∨ temporary = 0 then some (false, m)
  else if (m.block source).base = 0 ∨ (m.block source).size = 0 then some (false, m)
  else
    match fmemGetRemainingSize fuel m source with
    | none => none
    | some remainingSize =>
      if remainingSize = 0 then some (false, m)
      else
        let m := m.setBlock temporary zeroBlock
        let m := m.modifyBlock temporary fun b =>
          { b with base := add64 (m.block source).base (m.block source).used }
        let m := m.modifyBlock temporary fun b => { b with size := remainingSize }
        let m := m.modifyBlock temporary fun b => { b with used := 0 }
        let m := m.modifyBlock temporary fun b => { b with source := source }
        let m := m.modifyBlock temporary fun b => { b with type := fmemType.Temporary }
        let m := m.modifyBlock temporary fun b => { b with temporary := 0 }
        let m := m.modifyBlock source fun b => { b with used := add64 b.used remainingSize }
        let m := m.modifyBlock source fun b => { b with temporary := temporary }
        some (true, m)

/-- The condition of the `FMEM_ASSERT` at the end of `fmemBeginTemporary`, on the memory the
function returns. -/
def fmemBeginTemporary_assert (m : Memory) (source : Nat) : Prop :=
  (m.block source).used = (m.block source).size

/-- The function `fmemEndTemporary`, without its assertions. -/
def fmemEndTemporary (m : Memory) (temporary : Nat) : Memory :=
  if temporary = 0 then m
  else if (m.block temporary).type ≠ fmemType.Temporary ∨ (m.block temporary).source = 0
      ∨ (m.block temporary).size = 0 then m
  else
    let sourceBlock := (m.block temporary).source
    let m := m.modifyBlock sourceBlock fun b => { b with temporary := 0 }
    let m := m.modifyBlock sourceBlock fun b =>
      { b with used := sub64 b.used (m.block temporary).size }
    m.setBlock temporary zeroBlock

/-- The conditions of the three `FMEM_ASSERT`s of `fmemEndTemporary`, on the memory the function
is called with (they are reached when the guards before them pass). -/
def fmemEndTemporary_asserts (m : Memory) (temporary : Nat) : Prop :=
  (m.block (m.block temporary).source).temporary = temporary
    ∧ (m.block (m.block temporary).source).used = (m.block (m.block temporary).source).size
    ∧ (m.block temporary).size ≤ (m.block (m.block temporary).source).size

instance (m : Memory) (source : Nat) : Decidable (fmemBeginTemporary_assert m source) := by
  unfold fmemBeginTemporary_assert; infer_instance

instance (m : Memory) (temporary : Nat) : Decidable (fmemEndTemporary_asserts m temporary) := by
  unfold fmemEndTemporary_asserts; infer_instance

/-! ## Vocabulary of the statements -/

/-- A block is materialized when it has storage: `base != null` and `size != 0` (the negation of
the loop exit test `base == fmem_null || size == 0`). -/
def Materialized (b : fmemMemoryBlock) : Prop := b.base ≠ 0 ∧ b.size ≠ 0

instance (b : fmemMemoryBlock) : Decidable (Materialized b) := by
  unfold Materialized; infer_instance

/-- The block that `FMEM__GETHEADER(a)->next` points to. -/
def nextOf (m : Memory) (a : Nat) : Nat := (m.header (FMEM__GETHEADER (m.block a))).next

/-- The blocks a traversal visits: `Walk m p l` says that starting at the descriptor address `p` and
following `header->next`, the materialized blocks met are exactly `l`, in this order, up to the
first null pointer or non-materialized block. -/
def Walk (m : Memory) : Nat → List Nat → Prop
  | p, [] => p = 0 ∨ ¬ Materialized (m.block p)
  | p, a :: l => p = a ∧ a ≠ 0 ∧ Materialized (m.block a) ∧ Walk m (nextOf m a) l

/-- A complete chain: `Chain m p l` says that starting at the descriptor address `p` and following
`header->next`, the blocks met are exactly `l`, all materialized, and the last one has a null
`next`. -/
def Chain (m : Memory) : Nat → List Nat → Prop
  | p, [] => p = 0
  | p, a :: l => p = a ∧ a ≠ 0 ∧ Materialized (m.block a) ∧ Chain m (nextOf m a) l

/-- The body of the search loop of `fmemPush` as a function of the best block so far and the block
looked at. -/
def searchStep (m : Memory) (size : Nat) (bestBlock searchBlock : Nat) : Nat :=
  if add64 (m.block searchBlock).used size ≤ (m.block searchBlock).size then
    if bestBlock = 0 ∨ fmem__GetSpaceAvailableFor (m.block searchBlock) size
        > fmem__GetSpaceAvailableFor (m.block bestBlock) size then searchBlock
    else bestBlock
  else bestBlock

/-- A run of `fmemPush` calls, each given as (block, heap behaviour, size, flags); returns the
pointers the calls returned and the memory after the last one. -/
def pushAll (fuel : Nat) : Memory → List (Nat × (Nat → Nat) × Nat × Nat) →
    Option (List Nat × Memory)
  | m, [] => some ([], m)
  | m, p :: ps =>
    match fmemPush fuel m p.2.1 p.1 p.2.2.1 p.2.2.2 with
    | none => none
    | some r =>
      match pushAll fuel r.2 ps with
      | none => none
      | some rs => some (r.1 :: rs.1, rs.2)

/-- A memory in which nothing was written yet. -/
def emptyMemory : Memory :=
  { header := fun _ => zeroHeader, block := fun _ => zeroBlock, byte := fun _ => 0,
    mallocs := [], frees := [] }

/-- Example: the arena `fmemInit(&arena, fmemType_Fixed, 100)` with the descriptor at address 64
and the heap allocation at address 4096. -/
def fixedArena100 : Memory := (fmemInit emptyMemory (fun _ => 4096) 64 fmemType.Fixed 100).2

/-- Example: the arena `fmemInit(&arena, fmemType_Growable, 16)` with the descriptor at address 64
and the heap allocation at address 4096. -/
def growableArena16 : Memory :=
  (fmemInit emptyMemory (fun _ => 4096) 64 fmemType.Growable 16).2

/-- Example: `growableArena16` after `fmemPush(&arena, 3000, fmemPushFlags_None)`, which appends a
second block (heap allocation at address 8192, descriptor at 8216, data at 8272). -/
def twoBlockArena : Memory :=
  ((fmemPush 2 growableArena16 (fun _ => 8192) 64 3000 fmemPushFlags_None).getD
    (0, growableArena16)).2

/-- Example: `growableArena16` after `fmemPush(&arena, 3000, fmemPushFlags_None)` with a heap that
places the second allocation right after the first one: the first allocation is the 96 bytes at
4096, the second one starts at 4208 (header at 4208, descriptor at 4232, data at 4288). -/
def adjacentArena : Memory :=
  ((fmemPush 2 growableArena16 (fun _ => 4208) 64 3000 fmemPushFlags_None).getD
    (0, growableArena16)).2

/-- Example: `fixedArena100` with every data byte holding 255. -/
def dirtyArena100 : Memory := { fixedArena100 with byte := fun _ => 255 }

/-- Example: `dirtyArena100` after `fmemPush(&arena, 10, fmemPushFlags_Clear)`. -/
def clearedArena100 : Memory :=
  ((fmemPush 1 dirtyArena100 (fun _ => 0) 64 10 fmemPushFlags_Clear).getD (0, dirtyArena100)).2

/-- Example: `fixedArena100` after `fmemBeginTemporary(&arena, &temp)` with the temporary
descriptor at address 128. -/
def temporaryArena100 : Memory :=
  ((fmemBeginTemporary 2 fixedArena100 64 128).getD (false, fixedArena100)).2

/-- Example: the arena `fmemInitFromSource(&arena, buffer, 256)` with the descriptor at address 64
and the caller's buffer at address 20000. -/
def externalArena256 : Memory := (fmemInitFromSource emptyMemory 64 20000 256).2

/-- Example: `fixedArena100` next to a descriptor at address 128 that a caller left with stale
content (`temporary` holds 77). -/
def staleDescriptorArena : Memory :=
  fixedArena100.setBlock 128
    { source := 0, base := 0, temporary := 77, size := 0, used := 0, type := fmemType.Growable }

/-- Example: `fixedArena100` after `fmemPush(&arena, 10, fmemPushFlags_None)`. -/
def fixedArena100Used10 : Memory :=
  ((fmemPush 1 fixedArena100 (fun _ => 0) 64 10 fmemPushFlags_None).getD (0, fixedArena100)).2

/-- Example heap for the usage example of the header: the three requests made there (16 MB plus
the data offset, and the block sizes computed for 64 MB and 9 MB) get memory at addresses 4096,
32 MiB and 128 MiB, which do not overlap. -/
def usageHeap (s : Nat) : Nat :=
  if s = 16777296 then 4096
  else if s = 67112960 then 33554432
  else if s = 9441280 then 134217728
  else 0

/-- Example heap for the scenario of three pushes of 3,000,000, 64,000,000 and 5,000,000 bytes:
the block sizes computed for them get memory at addresses 4096, 4 MiB and 128 MiB, which do not
overlap. -/
def scenarioHeap (s : Nat) : Nat :=
  if s = 3002368 then 4096
  else if s = 64004096 then 4194304
  else if s = 5001216 then 134217728
  else 0

/-- Example: the arena `fmemInit(&myMem, fmemType_Growable, FMEM_MEGABYTES(16))` of the usage
example of the header, with the descriptor at address 64. -/
def usageArena : Memory := (fmemInit emptyMemory usageHeap 64 fmemType.Growable 16777216).2

/-- Example: the arena `fmemInit(&arena, fmemType_Growable, 0)` with the descriptor at address
64. -/
def scenarioArena : Memory := (fmemInit emptyMemory scenarioHeap 64 fmemType.Growable 0).2

/-- Example for nested temporaries: the fixed example arena `A` (descriptor 64, data at 4176) next
to a second fixed arena `B` of 50 bytes (descriptor 256, heap allocation at 8192), after
`p = fmemPush(&A, 88, fmemPushFlags_None)` (so `p` is 4176) and after the caller has stored the
pointer `&B` in the memory it got, at `p + 16`.  A temporary of `A` begins at `p + 88`, and
`FMEM__GETHEADER` of it is `p + 88 - 80 = p + 8` (address 4184): what the library reads as
`header->next` of the temporary are the bytes at `p + 16`.  The views of the embedding are typed,
so the store is a write to the `next` field of the header view at address 4184. -/
def nestedArena : Memory :=
  (((fmemPush 1 (fmemInit fixedArena100 (fun _ => 8192) 256 fmemType.Fixed 50).2 (fun _ => 0) 64
      88 fmemPushFlags_None).getD (0, fixedArena100)).2).modifyHeader 4184
    fun h => { h with next := 256 }

/-! ## Lemmas -/

@[simp] theorem setBlock_block_same (m : Memory) (p : Nat) (b : fmemMemoryBlock) :
    (m.setBlock p b).block p = b := by simp [Memory.setBlock]

theorem setBlock_block_other (m : Memory) (p q : Nat) (b : fmemMemoryBlock) (h : q ≠ p) :
    (m.setBlock p b).block q = m.block q := by simp [Memory.setBlock, h]

theorem setBlock_block (m : Memory) (p q : Nat) (b : fmemMemoryBlock) :
    (m.setBlock p b).block q = if q = p then b else m.block q := rfl

@[simp] theorem setBlock_header (m : Memory) (p : Nat) (b : fmemMemoryBlock) :
    (m.setBlock p b).header = m.header := rfl

@[simp] theorem setBlock_byte (m : Memory) (p : Nat) (b : fmemMemoryBlock) :
    (m.setBlock p b).byte = m.byte := rfl

@[simp] theorem setBlock_mallocs (m : Memory) (p : Nat) (b : fmemMemoryBlock) :
    (m.setBlock p b).mallocs = m.mallocs := rfl

@[simp] theorem setBlock_frees (m : Memory) (p : Nat) (b : fmemMemoryBlock) :
    (m.setBlock p b).frees = m.frees := rfl

@[simp] theorem setBlock_setBlock_same (m : Memory) (p : Nat) (b1 b2 : fmemMemoryBlock) :
    (m.setBlock p b1).setBlock p b2 = m.setBlock p b2 := by
  unfold Memory.setBlock
  simp only [Memory.mk.injEq, and_true, true_and]
  funext a
  by_cases h : a = p <;> simp [h]

theorem modifyBlock_eq (m : Memory) (p : Nat) (f : fmemMemoryBlock → fmemMemoryBlock) :
    m.modifyBlock p f = m.setBlock p (f (m.block p)) := rfl

@[simp] theorem modifyBlock_block_same (m : Memory) (p : Nat)
    (f : fmemMemoryBlock → fmemMemoryBlock) : (m.modifyBlock p f).block p = f (m.block p) := by
  simp [Memory.modifyBlock]

theorem modifyBlock_block_other (m : Memory) (p q : Nat) (f : fmemMemoryBlock → fmemMemoryBlock)
    (h : q ≠ p) : (m.modifyBlock p f).block q = m.block q := by
  simp [Memory.modifyBlock, setBlock_block_other _ _ _ _ h]

@[simp] theorem modifyBlock_header (m : Memory) (p : Nat)
    (f : fmemMemoryBlock → fmemMemoryBlock) : (m.modifyBlock p f).header = m.header := rfl

@[simp] theorem modifyBlock_byte (m : Memory) (p : Nat)
    (f : fmemMemoryBlock → fmemMemoryBlock) : (m.modifyBlock p f).byte = m.byte := rfl

@[simp] theorem modifyBlock_mallocs (m : Memory) (p : Nat)
    (f : fmemMemoryBlock → fmemMemoryBlock) : (m.modifyBlock p f).mallocs = m.mallocs := rfl

@[simp] theorem modifyBlock_frees (m : Memory) (p : Nat)
    (f : fmemMemoryBlock → fmemMemoryBlock) : (m.modifyBlock p f).frees = m.frees := rfl

@[simp] theorem setBlock_modifyBlock_same (m : Memory) (p : Nat) (b : fmemMemoryBlock)
    (f : fmemMemoryBlock → fmemMemoryBlock) :
    (m.setBlock p b).modifyBlock p f = m.setBlock p (f b) := by
  simp [Memory.modifyBlock]

@[simp] theorem modifyBlock_modifyBlock_same (m : Memory) (p : Nat)
    (f g : fmemMemoryBlock → fmemMemoryBlock) :
    (m.modifyBlock p f).modifyBlock p g = m.modifyBlock p (fun b => g (f b)) := by
  simp [Memory.modifyBlock]

@[simp] theorem setHeader_block (m : Memory) (p : Nat) (h : fmemBlockHeader) :
    (m.setHeader p h).block = m.block := rfl

@[simp] theorem setHeader_byte (m : Memory) (p : Nat) (h : fmemBlockHeader) :
    (m.setHeader p h).byte = m.byte := rfl

@[simp] theorem setHeader_header_same (m : Memory) (p : Nat) (h : fmemBlockHeader) :
    (m.setHeader p h).header p = h := by simp [Memory.setHeader]

theorem setHeader_header_other (m : Memory) (p q : Nat) (h : fmemBlockHeader) (hq : q ≠ p) :
    (m.setHeader p h).header q = m.header q := by simp [Memory.setHeader, hq]

@[simp] theorem setHeader_mallocs (m : Memory) (p : Nat) (h : fmemBlockHeader) :
    (m.setHeader p h).mallocs = m.mallocs := rfl

@[simp] theorem setHeader_frees (m : Memory) (p : Nat) (h : fmemBlockHeader) :
    (m.setHeader p h).frees = m.frees := rfl

theorem modifyHeader_eq (m : Memory) (p : Nat) (f : fmemBlockHeader → fmemBlockHeader) :
    m.modifyHeader p f = m.setHeader p (f (m.header p)) := rfl

@[simp] theorem modifyHeader_block (m : Memory) (p : Nat)
    (f : fmemBlockHeader → fmemBlockHeader) : (m.modifyHeader p f).block = m.block := rfl

@[simp] theorem modifyHeader_byte (m : Memory) (p : Nat)
    (f : fmemBlockHeader → fmemBlockHeader) : (m.modifyHeader p f).byte = m.byte := rfl

@[simp] theorem modifyHeader_mallocs (m : Memory) (p : Nat)
    (f : fmemBlockHeader → fmemBlockHeader) : (m.modifyHeader p f).mallocs = m.mallocs := rfl

@[simp] theorem modifyHeader_frees (m : Memory) (p : Nat)
    (f : fmemBlockHeader → fmemBlockHeader) : (m.modifyHeader p f).frees = m.frees := rfl

@[simp] theorem modifyHeader_header_same (m : Memory) (p : Nat)
    (f : fmemBlockHeader → fmemBlockHeader) : (m.modifyHeader p f).header p = f (m.header p) := by
  simp [Memory.modifyHeader]

theorem modifyHeader_header_other (m : Memory) (p q : Nat) (f : fmemBlockHeader → fmemBlockHeader)
    (h : q ≠ p) : (m.modifyHeader p f).header q = m.header q := by
  simp [Memory.modifyHeader, setHeader_header_other _ _ _ _ h]

@[simp] theorem memset_block (m : Memory) (p v n : Nat) : (m.memset p v n).block = m.block := rfl

@[simp] theorem memset_header (m : Memory) (p v n : Nat) : (m.memset p v n).header = m.header := rfl

@[simp] theorem memset_mallocs (m : Memory) (p v n : Nat) :
    (m.memset p v n).mallocs = m.mallocs := rfl

@[simp] theorem memset_frees (m : Memory) (p v n : Nat) : (m.memset p v n).frees = m.frees := rfl

theorem add64_eq (a b : Nat) (h : a + b < 18446744073709551616) : add64 a b = a + b := by
  unfold add64; omega

theorem sub64_eq (a b : Nat) (h : b ≤ a) (ha : a < 18446744073709551616) : sub64 a b = a - b := by
  unfold sub64; omega

theorem sub64_add64 (a b : Nat) (ha : a < 18446744073709551616) : sub64 (add64 a b) b = a := by
  unfold sub64 add64; omega

theorem add64_lt (a b : Nat) : add64 a b < 18446744073709551616 := by
  unfold add64; omega

/-! ### The code after `done` -/

theorem fmemPush_done_fst (m : Memory) (r size flags : Nat) :
    (fmemPush_done m r size flags).1 = r := by
  unfold fmemPush_done
  split
  · split <;> rfl
  · rfl

theorem fmemPush_done_zero (m : Memory) (size flags : Nat) :
    fmemPush_done m 0 size flags = (0, m) := by
  simp [fmemPush_done]

theorem fmemPush_done_byte (m : Memory) (r size flags : Nat) :
    (fmemPush_done m r size flags).2.byte =
      if r ≠ 0 ∧ flags &&& fmemPushFlags_Clear ≠ 0 then
        fun a => if r ≤ a ∧ a < r + size then 0 else m.byte a
      else m.byte := by
  unfold fmemPush_done
  by_cases hr : r = 0
  · simp [hr]
  · by_cases hf : flags &&& fmemPushFlags_Clear = 0
    · simp [hr, hf]
    · simp [hr, hf, Memory.memset]

theorem fmemPush_done_block (m : Memory) (r size flags : Nat) :
    (fmemPush_done m r size flags).2.block = m.block := by
  unfold fmemPush_done
  split
  · split <;> rfl
  · rfl

theorem fmemPush_done_header (m : Memory) (r size flags : Nat) :
    (fmemPush_done m r size flags).2.header = m.header := by
  unfold fmemPush_done
  split
  · split <;> rfl
  · rfl

theorem fmemPush_done_mallocs (m : Memory) (r size flags : Nat) :
    (fmemPush_done m r size flags).2.mallocs = m.mallocs := by
  unfold fmemPush_done
  split
  · split <;> rfl
  · rfl

theorem fmemPush_done_frees (m : Memory) (r size flags : Nat) :
    (fmemPush_done m r size flags).2.frees = m.frees := by
  unfold fmemPush_done
  split
  · split <;> rfl
  · rfl

@[simp] theorem AllocateBlock_byte (m : Memory) (malloc : Nat → Nat) (s a : Nat) :
    (fmem__AllocateBlock m malloc s a).2.byte = m.byte := by
  unfold fmem__AllocateBlock
  simp only []
  split <;> simp

theorem fmemPush_done_elim (mx : Memory) (rx size flags r : Nat) (m' : Memory) (m : Memory)
    (hb : mx.byte = m.byte)
    (h : some (fmemPush_done mx rx size flags) = some (r, m')) :
    m'.byte = (fmemPush_done m r size flags).2.byte := by
  have h1 : fmemPush_done mx rx size flags = (r, m') := Option.some.inj h
  have hr : rx = r := by rw [← fmemPush_done_fst mx rx size flags, h1]
  have hm : m' = (fmemPush_done mx rx size flags).2 := by rw [h1]
  rw [hm, fmemPush_done_byte, fmemPush_done_byte, hb, hr]

/-- Data bytes after any `fmemPush`: only the code after `done` touches them. -/
theorem fmemPush_byte (fuel : Nat) (m : Memory) (malloc : Nat → Nat) (block size flags r : Nat)
    (m' : Memory) (h : fmemPush fuel m malloc block size flags = some (r, m')) :
    m'.byte = (fmemPush_done m r size flags).2.byte := by
  unfold fmemPush at h
  split at h
  · simp at h; obtain ⟨rfl, rfl⟩ := h; simp [fmemPush_done]
  · split at h
    · simp at h; obtain ⟨rfl, rfl⟩ := h; simp [fmemPush_done]
    · split at h
      · simp at h
      · simp only [] at h
        split at h
        · exact fmemPush_done_elim _ _ _ _ _ _ _ (by simp) h
        · split at h
          · exact fmemPush_done_elim _ _ _ _ _ _ _ (by simp) h
          · split at h
            · simp at h
            · split at h
              · exact fmemPush_done_elim _ _ _ _ _ _ _ (by simp) h
              · split at h
                · exact fmemPush_done_elim _ _ _ _ _ _ _ (by simp) h
                · exact fmemPush_done_elim _ _ _ _ _ _ _ (by simp) h

/-! ### Push on a block that is not growable -/

/-- On a block whose type is not Growable the search looks at this block only. -/
theorem fmemPush_search_single (m : Memory) (size fuel block : Nat) (hb : block ≠ 0)
    (ht : (m.block block).type ≠ fmemType.Growable) :
    fmemPush_search m size (fuel + 1) block 0 =
      some (if Materialized (m.block block)
              ∧ add64 (m.block block).used size ≤ (m.block block).size then block else 0) := by
  unfold fmemPush_search Materialized
  by_cases hm : (m.block block).base = 0 ∨ (m.block block).size = 0
  · have : ¬ ((m.block block).base ≠ 0 ∧ (m.block block).size ≠ 0) := by tauto
    simp [hb, hm, this]
  · have hm2 : (m.block block).base ≠ 0 ∧ (m.block block).size ≠ 0 := by tauto
    simp [hb, hm2, ht]

/-- Push on a non-null, unlocked block that is not Growable, with a non-zero size: it succeeds
exactly when the block is materialized and `used + size <= size` holds in `size_t` arithmetic, and
then only bumps `used`; otherwise it returns null and changes nothing. -/
theorem fmemPush_single (m : Memory) (malloc : Nat → Nat) (fuel block size flags : Nat)
    (hb : block ≠ 0) (hs : size ≠ 0) (hl : (m.block block).temporary = 0)
    (ht : (m.block block).type ≠ fmemType.Growable) :
    fmemPush (fuel + 1) m malloc block size flags =
      if Materialized (m.block block) ∧ add64 (m.block block).used size ≤ (m.block block).size then
        some (fmemPush_done
          (m.setBlock block { m.block block with used := add64 (m.block block).used size })
          (add64 (m.block block).base (m.block block).used) size flags)
      else some (0, m) := by
  unfold fmemPush
  rw [fmemPush_search_single m size fuel block hb ht]
  by_cases hfit : Materialized (m.block block)
      ∧ add64 (m.block block).used size ≤ (m.block block).size
  · simp [hb, hs, hl, hfit, modifyBlock_eq]
  · simp [hb, hs, hl, hfit, ht, fmemPush_done_zero]

/-! ### Traversals -/

/-- The value `fmemGetRemainingSize` accumulates over the visited blocks `l`. -/
theorem fmemGetRemainingSize_loop_walk (m : Memory) (l : List Nat) :
    ∀ (fuel p acc : Nat), Walk m p l → l.length < fuel →
      fmemGetRemainingSize_loop m fuel p acc =
        some (l.foldl (fun r a => add64 r (fmem__GetSpaceAvailableFor (m.block a) 0)) acc) := by
  induction l with
  | nil =>
    intro fuel p acc hw hf
    cases fuel with
    | zero => simp at hf
    | succ fuel =>
      unfold fmemGetRemainingSize_loop
      simp only [Walk, Materialized] at hw
      by_cases hp : p = 0
      · simp [hp]
      · have : (m.block p).base = 0 ∨ (m.block p).size = 0 := by
          rcases hw with h | h
          · exact absurd h hp
          · by_contra hc
            exact h ⟨fun h1 => hc (Or.inl h1), fun h2 => hc (Or.inr h2)⟩
        simp [hp, this]
  | cons a l ih =>
    intro fuel p acc hw hf
    cases fuel with
    | zero => simp at hf
    | succ fuel =>
      obtain ⟨rfl, ha, hmat, hnext⟩ := hw
      unfold fmemGetRemainingSize_loop
      have hm : ¬ ((m.block p).base = 0 ∨ (m.block p).size = 0) := by
        rintro (h | h)
        · exact hmat.1 h
        · exact hmat.2 h
      simp only [ha, hm, if_false, List.foldl_cons]
      exact ih fuel _ _ hnext (by simpa using hf)

/-- Two memories with the same headers, and with the same `base`, `size` and `used` in every
visited block, have the same traversal, provided a block that stops the traversal in the first
memory still stops it in the second. -/
theorem Walk_congr (m m' : Memory) (hh : m'.header = m.header)
    (hstop : ∀ a, ¬ Materialized (m.block a) → ¬ Materialized (m'.block a)) (l : List Nat) :
    ∀ p, Walk m p l →
      (∀ a ∈ l, (m'.block a).base = (m.block a).base ∧ (m'.block a).size = (m.block a).size) →
      Walk m' p l := by
  induction l with
  | nil =>
    intro p hw _
    rcases hw with h | h
    · exact Or.inl h
    · exact Or.inr (hstop p h)
  | cons a l ih =>
    intro p hw hb
    obtain ⟨rfl, ha, hmat, hnext⟩ := hw
    have hpb := hb p (List.mem_cons_self _ _)
    refine ⟨rfl, ha, ?_, ?_⟩
    · unfold Materialized at *
      rw [hpb.1, hpb.2]; exact hmat
    · have : nextOf m' p = nextOf m p := by
        unfold nextOf FMEM__GETHEADER
        rw [hh, hpb.1]
      rw [this]
      exact ih _ hnext (fun a ha => hb a (List.mem_cons_of_mem _ ha))

/-! ### Temporary memory -/

/-- What a successful `fmemBeginTemporary` on two distinct descriptors does. -/
theorem fmemBeginTemporary_true (fuel : Nat) (m : Memory) (source temporary : Nat) (m' : Memory)
    (hne : source ≠ temporary)
    (h : fmemBeginTemporary fuel m source temporary = some (true, m')) :
    source ≠ 0 ∧ temporary ≠ 0 ∧ Materialized (m.block source) ∧
    ∃ r, fmemGetRemainingSize fuel m source = some r ∧ r ≠ 0 ∧
      m' = (m.setBlock temporary
              { source := source, base := add64 (m.block source).base (m.block source).used,
                temporary := 0, size := r, used := 0, type := fmemType.Temporary }).setBlock source
              { m.block source with used := add64 (m.block source).used r,
                                    temporary := temporary } := by
  unfold fmemBeginTemporary at h
  split at h
  · simp at h
  · rename_i h0
    split at h
    · simp at h
    · rename_i h1
      split at h
      · simp at h
      · rename_i r hr
        split at h
        · simp at h
        · rename_i h2
          simp only [not_or] at h0 h1
          refine ⟨h0.1, h0.2, ⟨h1.1, h1.2⟩, r, hr, h2, ?_⟩
          simp only [Option.some.injEq, Prod.mk.injEq, true_and] at h
          rw [← h]
          simp [setBlock_block_other _ _ _ _ hne, zeroBlock, modifyBlock_eq]

/-- What `fmemEndTemporary` does on an active temporary whose source is another descriptor. -/
theorem fmemEndTemporary_active (m : Memory) (temporary : Nat) (ht0 : temporary ≠ 0)
    (htype : (m.block temporary).type = fmemType.Temporary)
    (hsrc : (m.block temporary).source ≠ 0) (hsize : (m.block temporary).size ≠ 0)
    (hne : (m.block temporary).source ≠ temporary) :
    fmemEndTemporary m temporary =
      (m.setBlock (m.block temporary).source
        { m.block (m.block temporary).source with
            temporary := 0,
            used := sub64 (m.block (m.block temporary).source).used
              (m.block temporary).size }).setBlock temporary zeroBlock := by
  unfold fmemEndTemporary
  simp [ht0, htype, hsrc, hsize, modifyBlock_eq, setBlock_block_other _ _ _ _ hne.symm]

/-- A successful `fmemGetRemainingSize` on a non-null block used some fuel. -/
theorem fuel_ne_zero_of_remaining (fuel : Nat) (m : Memory) (block r : Nat) (hb : block ≠ 0)
    (h : fmemGetRemainingSize fuel m block = some r) : fuel ≠ 0 := by
  rintro rfl
  simp [fmemGetRemainingSize, hb, fmemGetRemainingSize_loop] at h

/-- One `fmemPush` while a temporary `t` of source `s` is outstanding, on `s` or on `t`: a push on
`s` returns null and changes nothing, a push on `t` changes at most `t.used` and data bytes. -/
theorem fmemPush_during_temporary (fuel : Nat) (hf : fuel ≠ 0) (s t : Nat) (hne : s ≠ t)
    (ht0 : t ≠ 0) (m1 : Memory) (malloc : Nat → Nat) (target size flags : Nat)
    (htarget : target = s ∨ target = t)
    (hlock : (m1.block s).temporary ≠ 0)
    (htype : (m1.block t).type = fmemType.Temporary)
    (htemp : (m1.block t).temporary = 0) :
    ∃ r m2, fmemPush fuel m1 malloc target size flags = some (r, m2)
      ∧ (target = s → r = 0 ∧ m2 = m1)
      ∧ m2.header = m1.header ∧ (∀ a, a ≠ t → m2.block a = m1.block a)
      ∧ (m2.block t).type = (m1.block t).type ∧ (m2.block t).source = (m1.block t).source
      ∧ (m2.block t).size = (m1.block t).size ∧ (m2.block t).temporary = (m1.block t).temporary
      ∧ (m2.block t).base = (m1.block t).base
      ∧ m2.mallocs = m1.mallocs ∧ m2.frees = m1.frees := by
  rcases htarget with rfl | rfl
  · refine ⟨0, m1, ?_, fun _ => ⟨rfl, rfl⟩, rfl, fun _ _ => rfl, rfl, rfl, rfl, rfl, rfl, rfl, rfl⟩
    unfold fmemPush
    by_cases h0 : target = 0 ∨ size = 0
    · simp [h0]
    · simp [h0, hlock]
  · obtain ⟨fuel, rfl⟩ := Nat.exists_eq_succ_of_ne_zero hf
    by_cases hs : size = 0
    · refine ⟨0, m1, ?_, fun _ => ⟨rfl, rfl⟩, rfl, fun _ _ => rfl, rfl, rfl, rfl, rfl, rfl, rfl,
        rfl⟩
      simp [fmemPush, hs]
    · have hty : (m1.block target).type ≠ fmemType.Growable := by rw [htype]; decide
      rw [fmemPush_single m1 malloc fuel target size flags ht0 hs htemp hty]
      by_cases hfit : Materialized (m1.block target)
          ∧ add64 (m1.block target).used size ≤ (m1.block target).size
      · rw [if_pos hfit]
        generalize hd : fmemPush_done
          (m1.setBlock target { m1.block target with used := add64 (m1.block target).used size })
          (add64 (m1.block target).base (m1.block target).used) size flags = d
        refine ⟨d.1, d.2, rfl, fun h => absurd h.symm hne, ?_, ?_, ?_, ?_, ?_, ?_, ?_, ?_, ?_⟩
        · rw [← hd, fmemPush_done_header]; rfl
        · intro a ha
          rw [← hd, fmemPush_done_block, setBlock_block_other _ _ _ _ ha]
        all_goals
          rw [← hd]
          simp [fmemPush_done_block, fmemPush_done_mallocs, fmemPush_done_frees]
      · rw [if_neg hfit]
        exact ⟨0, m1, rfl, fun _ => ⟨rfl, rfl⟩, rfl, fun _ _ => rfl, rfl, rfl, rfl, rfl, rfl, rfl,
          rfl⟩

/-- A run of pushes on `s` and `t` while the temporary `t` of `s` is outstanding. -/
theorem pushAll_during_temporary (fuel : Nat) (hf : fuel ≠ 0) (s t : Nat) (hne : s ≠ t)
    (ht0 : t ≠ 0) (ops : List (Nat × (Nat → Nat) × Nat × Nat)) :
    ∀ (m1 : Memory), (∀ op ∈ ops, op.1 = s ∨ op.1 = t) →
      (m1.block s).temporary ≠ 0 → (m1.block t).type = fmemType.Temporary →
      (m1.block t).temporary = 0 →
      ∃ rs m2, pushAll fuel m1 ops = some (rs, m2)
        ∧ List.Forall₂ (fun op r => op.1 = s → r = 0) ops rs
        ∧ m2.header = m1.header ∧ (∀ a, a ≠ t → m2.block a = m1.block a)
        ∧ (m2.block t).type = (m1.block t).type ∧ (m2.block t).source = (m1.block t).source
        ∧ (m2.block t).size = (m1.block t).size
        ∧ (m2.block t).temporary = (m1.block t).temporary
        ∧ (m2.block t).base = (m1.block t).base
        ∧ m2.mallocs = m1.mallocs ∧ m2.frees = m1.frees := by
  induction ops with
  | nil =>
    intro m1 _ _ _ _
    exact ⟨[], m1, rfl, List.Forall₂.nil, rfl, fun _ _ => rfl, rfl, rfl, rfl, rfl, rfl, rfl, rfl⟩
  | cons op ops ih =>
    intro m1 hops hlock htype htemp
    obtain ⟨r, m2, hpush, hr0, hh, hb, h1, h2, h3, h4, h5, h6, h7⟩ :=
      fmemPush_during_temporary fuel hf s t hne ht0 m1 op.2.1 op.1 op.2.2.1 op.2.2.2
        (hops op (List.mem_cons_self _ _)) hlock htype htemp
    have hlock2 : (m2.block s).temporary ≠ 0 := by rw [hb s hne]; exact hlock
    obtain ⟨rs, m3, hrest, hall, hh', hb', h1', h2', h3', h4', h5', h6', h7'⟩ :=
      ih m2 (fun o ho => hops o (List.mem_cons_of_mem _ ho)) hlock2 (h1.trans htype)
        (h4.trans htemp)
    refine ⟨r :: rs, m3, ?_, List.Forall₂.cons (fun h => (hr0 h).1) hall, hh'.trans hh,
      fun a ha => (hb' a ha).trans (hb a ha),
      h1'.trans h1, h2'.trans h2, h3'.trans h3, h4'.trans h4, h5'.trans h5, h6'.trans h6,
      h7'.trans h7⟩
    simp [pushAll, hpush, hrest]

/-! ### The search for the best fitting block -/

/-- On a traversal of Growable blocks the search loop folds its body over the visited blocks. -/
theorem fmemPush_search_walk (m : Memory) (size : Nat) (l : List Nat) :
    ∀ (fuel p best : Nat), Walk m p l → (∀ a ∈ l, (m.block a).type = fmemType.Growable) →
      l.length < fuel →
      fmemPush_search m size fuel p best = some (l.foldl (searchStep m size) best) := by
  induction l with
  | nil =>
    intro fuel p best hw _ hf
    cases fuel with
    | zero => simp at hf
    | succ fuel =>
      unfold fmemPush_search
      simp only [Walk, Materialized] at hw
      by_cases hp : p = 0
      · simp [hp]
      · have : (m.block p).base = 0 ∨ (m.block p).size = 0 := by
          rcases hw with h | h
          · exact absurd h hp
          · by_contra hc
            exact h ⟨fun h1 => hc (Or.inl h1), fun h2 => hc (Or.inr h2)⟩
        simp [hp, this]
  | cons a l ih =>
    intro fuel p best hw hg hf
    cases fuel with
    | zero => simp at hf
    | succ fuel =>
      obtain ⟨rfl, ha, hmat, hnext⟩ := hw
      unfold fmemPush_search
      have hm : ¬ ((m.block p).base = 0 ∨ (m.block p).size = 0) := by
        rintro (h | h)
        · exact hmat.1 h
        · exact hmat.2 h
      have hty : (m.block p).type = fmemType.Growable := hg p (List.mem_cons_self _ _)
      simp only [ha, hm, if_false, List.foldl_cons, hty, ne_eq, not_true_eq_false]
      exact ih fuel _ _ hnext (fun b hb => hg b (List.mem_cons_of_mem _ hb)) (by simpa using hf)

/-- What the fold of the search body selects, in the terms of the code: either it keeps the
initial block, and then no looked-at block that passes the fit test has more space available; or it
selects a looked-at block that passes the fit test, has more space available than the initial block
and than every block before it that passes the test, and at least as much as every block after
it. -/
theorem searchFold_spec (m : Memory) (size : Nat) (l : List Nat) :
    ∀ best, (∀ a ∈ l, a ≠ 0) →
      (l.foldl (searchStep m size) best = best
        ∧ (best = 0 → ∀ b ∈ l, ¬ add64 (m.block b).used size ≤ (m.block b).size)
        ∧ (best ≠ 0 → ∀ b ∈ l, add64 (m.block b).used size ≤ (m.block b).size →
            fmem__GetSpaceAvailableFor (m.block b) size
              ≤ fmem__GetSpaceAvailableFor (m.block best) size))
      ∨ (∃ pre a post, l = pre ++ a :: post ∧ l.foldl (searchStep m size) best = a
        ∧ add64 (m.block a).used size ≤ (m.block a).size
        ∧ (best ≠ 0 → fmem__GetSpaceAvailableFor (m.block best) size
              < fmem__GetSpaceAvailableFor (m.block a) size)
        ∧ (∀ b ∈ pre, add64 (m.block b).used size ≤ (m.block b).size →
            fmem__GetSpaceAvailableFor (m.block b) size
              < fmem__GetSpaceAvailableFor (m.block a) size)
        ∧ (∀ b ∈ post, add64 (m.block b).used size ≤ (m.block b).size →
            fmem__GetSpaceAvailableFor (m.block b) size
              ≤ fmem__GetSpaceAvailableFor (m.block a) size)) := by
  induction l with
  | nil =>
    intro best _
    exact Or.inl ⟨rfl, fun _ b hb => absurd hb (List.not_mem_nil b),
      fun _ b hb => absurd hb (List.not_mem_nil b)⟩
  | cons x l ih =>
    intro best hnz
    have hx0 : x ≠ 0 := hnz x (List.mem_cons_self _ _)
    have hnz' : ∀ a ∈ l, a ≠ 0 := fun a ha => hnz a (List.mem_cons_of_mem _ ha)
    rw [List.foldl_cons]
    by_cases hsel : add64 (m.block x).used size ≤ (m.block x).size
        ∧ (best = 0 ∨ fmem__GetSpaceAvailableFor (m.block x) size
            > fmem__GetSpaceAvailableFor (m.block best) size)
    · -- the loop body selects `x`
      have hstep : searchStep m size best x = x := by
        unfold searchStep; rw [if_pos hsel.1, if_pos hsel.2]
      rw [hstep]
      have hbx : best ≠ 0 → fmem__GetSpaceAvailableFor (m.block best) size
          < fmem__GetSpaceAvailableFor (m.block x) size := by
        intro hb
        rcases hsel.2 with h | h
        · exact absurd h hb
        · exact h
      rcases ih x hnz' with ⟨hres, _, hle⟩ | ⟨pre, a, post, hl, hres, hfa, hlt, hpre, hpost⟩
      · exact Or.inr ⟨[], x, l, rfl, hres, hsel.1, hbx,
          fun b hb => absurd hb (List.not_mem_nil b), hle hx0⟩
      · refine Or.inr ⟨x :: pre, a, post, by rw [hl]; rfl, hres, hfa, ?_, ?_, hpost⟩
        · intro hb
          exact lt_trans (hbx hb) (hlt hx0)
        · intro b hb hfb
          rcases List.mem_cons.mp hb with rfl | hb'
          · exact hlt hx0
          · exact hpre b hb' hfb
    · -- the loop body keeps `best`
      have hstep : searchStep m size best x = best := by
        unfold searchStep
        by_cases hfx : add64 (m.block x).used size ≤ (m.block x).size
        · rw [if_pos hfx, if_neg (fun h => hsel ⟨hfx, h⟩)]
        · rw [if_neg hfx]
      rw [hstep]
      have hx1 : best = 0 → ¬ add64 (m.block x).used size ≤ (m.block x).size :=
        fun hb hfx => hsel ⟨hfx, Or.inl hb⟩
      have hx2 : add64 (m.block x).used size ≤ (m.block x).size →
          fmem__GetSpaceAvailableFor (m.block x) size
            ≤ fmem__GetSpaceAvailableFor (m.block best) size := by
        intro hfx
        by_contra hc
        exact hsel ⟨hfx, Or.inr (not_le.mp hc)⟩
      rcases ih best hnz' with ⟨hres, hnone, hle⟩ | ⟨pre, a, post, hl, hres, hfa, hlt, hpre, hpost⟩
      · refine Or.inl ⟨hres, ?_, ?_⟩
        · intro hb b hbm
          rcases List.mem_cons.mp hbm with rfl | hb'
          · exact hx1 hb
          · exact hnone hb b hb'
        · intro hb b hbm hfb
          rcases List.mem_cons.mp hbm with rfl | hb'
          · exact hx2 hfb
          · exact hle hb b hb' hfb
      · refine Or.inr ⟨x :: pre, a, post, by rw [hl]; rfl, hres, hfa, hlt, ?_, hpost⟩
        intro b hb hfb
        rcases List.mem_cons.mp hb with rfl | hb'
        · have hb0 : best ≠ 0 := fun h => hx1 h hfb
          exact lt_of_le_of_lt (hx2 hfb) (hlt hb0)
        · exact hpre b hb' hfb

/-- The visited blocks are non-null. -/
theorem Walk_ne_zero (m : Memory) (l : List Nat) : ∀ p, Walk m p l → ∀ a ∈ l, a ≠ 0 := by
  induction l with
  | nil => intro p _ a ha; exact absurd ha (List.not_mem_nil a)
  | cons x l ih =>
    intro p hw a ha
    obtain ⟨_, hx, _, hnext⟩ := hw
    rcases List.mem_cons.mp ha with rfl | ha'
    · exact hx
    · exact ih _ hnext a ha'

/-- The visited blocks are materialized. -/
theorem Walk_materialized (m : Memory) (l : List Nat) :
    ∀ p, Walk m p l → ∀ a ∈ l, Materialized (m.block a) := by
  induction l with
  | nil => intro p _ a ha; exact absurd ha (List.not_mem_nil a)
  | cons x l ih =>
    intro p hw a ha
    obtain ⟨_, _, hx, hnext⟩ := hw
    rcases List.mem_cons.mp ha with rfl | ha'
    · exact hx
    · exact ih _ hnext a ha'

/-- A term of a sum of naturals is at most the sum. -/
theorem le_sum_of_mem (f : Nat → Nat) (l : List Nat) : ∀ b ∈ l, f b ≤ (l.map f).sum := by
  induction l with
  | nil => intro b hb; exact absurd hb (List.not_mem_nil b)
  | cons x l ih =>
    intro b hb
    rw [List.map_cons, List.sum_cons]
    rcases List.mem_cons.mp hb with rfl | hb'
    · exact Nat.le_add_right _ _
    · exact le_trans (ih b hb') (Nat.le_add_left _ _)

/-- Two terms of a sum of naturals, at different elements, are together at most the sum. -/
theorem add_le_sum_of_mem (f : Nat → Nat) (l : List Nat) :
    ∀ b ∈ l, ∀ c ∈ l, b ≠ c → f b + f c ≤ (l.map f).sum := by
  induction l with
  | nil => intro b hb; exact absurd hb (List.not_mem_nil b)
  | cons x l ih =>
    intro b hb c hc hbc
    rw [List.map_cons, List.sum_cons]
    rcases List.mem_cons.mp hb with rfl | hb'
    · rcases List.mem_cons.mp hc with rfl | hc'
      · exact absurd rfl hbc
      · have := le_sum_of_mem f l c hc'
        omega
    · rcases List.mem_cons.mp hc with rfl | hc'
      · have := le_sum_of_mem f l b hb'
        omega
      · have := ih b hb' c hc' hbc
        omega

/-- The space available after a request that fits without wrap-around is the exact leftover. -/
theorem fmem__GetSpaceAvailableFor_eq (b : fmemMemoryBlock) (size : Nat)
    (hsz : b.size < 18446744073709551616) (hfit : b.used + size ≤ b.size) (hpos : b.size ≠ 0) :
    fmem__GetSpaceAvailableFor b size = b.size - b.used - size := by
  unfold fmem__GetSpaceAvailableFor
  have h1 : b.size > 0 ∧ b.used ≤ b.size := ⟨Nat.pos_of_ne_zero hpos, by omega⟩
  rw [if_pos h1, sub64_eq b.size b.used (by omega) hsz, sub64_eq _ size (by omega) (by omega)]

/-! ### What holds of a single block when the fit test does not wrap around -/

/-- Without wrap-around in the fit test, a request larger than the size of a block that is not
Growable is refused and nothing changes. -/
theorem fmemPush_single_too_large (m : Memory) (malloc : Nat → Nat) (fuel block size flags : Nat)
    (ht : (m.block block).type ≠ fmemType.Growable)
    (hlarge : (m.block block).size < size)
    (hnowrap : (m.block block).used + size < 18446744073709551616) :
    fmemPush (fuel + 1) m malloc block size flags = some (0, m) := by
  by_cases hb : block = 0
  · simp [fmemPush, hb]
  · by_cases hl : (m.block block).temporary = 0
    · have hs : size ≠ 0 := by omega
      rw [fmemPush_single m malloc fuel block size flags hb hs hl ht, if_neg]
      rw [add64_eq _ _ hnowrap]
      intro h
      omega
    · have hs : size ≠ 0 := by omega
      simp [fmemPush, hb, hs, hl]

/-- Without wrap-around, a run of pushes of non-zero sizes `sizes` on an unlocked, materialized
block that is not Growable, whose free space holds them all, succeeds every time: the pointers are
`base + used + (the sizes before)` and `used` grows by the sum of the sizes. -/
theorem pushAll_single_stack (fuel block : Nat) (hb : block ≠ 0) (sizes : List (Nat × Nat)) :
    ∀ (m : Memory) (malloc : Nat → Nat),
      (m.block block).type ≠ fmemType.Growable → (m.block block).temporary = 0 →
      Materialized (m.block block) → (∀ s ∈ sizes, s.1 ≠ 0) →
      (m.block block).used + (sizes.map Prod.fst).sum ≤ (m.block block).size →
      (m.block block).size < 18446744073709551616 →
      ∃ rs m', pushAll (fuel + 1) m (sizes.map fun s => (block, malloc, s.1, s.2)) = some (rs, m')
        ∧ (m'.block block).used = (m.block block).used + (sizes.map Prod.fst).sum
        ∧ (m'.block block).base = (m.block block).base
        ∧ (m'.block block).size = (m.block block).size
        ∧ rs.length = sizes.length
        ∧ ∀ i, i < sizes.length →
            rs[i]? = some (add64 (m.block block).base
              ((m.block block).used + ((sizes.take i).map Prod.fst).sum)) := by
  induction sizes with
  | nil =>
    intro m malloc _ _ _ _ _ _
    exact ⟨[], m, rfl, by simp, rfl, rfl, rfl, fun i hi => absurd hi (by simp)⟩
  | cons s sizes ih =>
    intro m malloc ht hl hmat hpos hsum hsz
    simp only [List.map_cons, List.sum_cons] at hsum
    have hs0 : s.1 ≠ 0 := hpos s (List.mem_cons_self _ _)
    have hfit : Materialized (m.block block)
        ∧ add64 (m.block block).used s.1 ≤ (m.block block).size := by
      refine ⟨hmat, ?_⟩
      rw [add64_eq _ _ (by omega)]
      omega
    have hpush := fmemPush_single m malloc fuel block s.1 s.2 hb hs0 hl ht
    rw [if_pos hfit, add64_eq _ _ (by omega)] at hpush
    generalize hd : fmemPush_done
      (m.setBlock block { m.block block with used := (m.block block).used + s.1 })
      (add64 (m.block block).base (m.block block).used) s.1 s.2 = d at hpush
    have hd1 : d.1 = add64 (m.block block).base (m.block block).used := by
      rw [← hd, fmemPush_done_fst]
    have hdb : d.2.block block
        = { m.block block with used := (m.block block).used + s.1 } := by
      rw [← hd, fmemPush_done_block, setBlock_block_same]
    obtain ⟨rs, m', hrun, hu, hbase, hsize, hlen, hptr⟩ := ih d.2 malloc
      (by rw [hdb]; exact ht) (by rw [hdb]; exact hl)
      (by rw [hdb]; exact hmat) (fun x hx => hpos x (List.mem_cons_of_mem _ hx))
      (by rw [hdb]; simp only; omega) (by rw [hdb]; exact hsz)
    rw [hdb] at hu hbase hsize hptr
    simp only at hu hbase hsize hptr
    refine ⟨d.1 :: rs, m', ?_, ?_, hbase, hsize, by simp [hlen], ?_⟩
    · simp [pushAll, hpush, hrun]
    · rw [hu]; simp only [List.map_cons, List.sum_cons]; omega
    · intro i hi
      cases i with
      | zero => simp [hd1]
      | succ i =>
        have := hptr i (by simpa using hi)
        simp only [List.getElem?_cons_succ, List.take_succ_cons, List.map_cons, List.sum_cons]
        rw [this, Nat.add_assoc]

/-- On a source that is a single block (no materialized block follows it) with
`used <= size`, a successful `fmemBeginTemporary` leaves the source full: the condition of the
assertion at the end of `fmemBeginTemporary` holds. -/
theorem fmemBeginTemporary_single_full (fuel : Nat) (m : Memory) (source temporary : Nat)
    (m' : Memory) (hne : source ≠ temporary) (hwalk : Walk m source [source])
    (hfuel : 1 < fuel) (hused : (m.block source).used ≤ (m.block source).size)
    (hsize : (m.block source).size < 18446744073709551616)
    (hbegin : fmemBeginTemporary fuel m source temporary = some (true, m')) :
    fmemBeginTemporary_assert m' source
      ∧ (m'.block temporary).size = (m.block source).size - (m.block source).used := by
  obtain ⟨hs0, _, hmat, r, hr, _, rfl⟩ :=
    fmemBeginTemporary_true fuel m source temporary m' hne hbegin
  have hloop := fmemGetRemainingSize_loop_walk m [source] fuel source 0 hwalk (by simpa using hfuel)
  unfold fmemGetRemainingSize at hr
  rw [if_neg hs0, hloop] at hr
  have hr' : r = (m.block source).size - (m.block source).used := by
    have := Option.some.inj hr
    rw [← this]
    simp only [List.foldl_cons, List.foldl_nil]
    unfold fmem__GetSpaceAvailableFor
    rw [if_pos ⟨Nat.pos_of_ne_zero hmat.2, hused⟩]
    unfold add64 sub64
    omega
  constructor
  · unfold fmemBeginTemporary_assert
    rw [setBlock_block_same]
    simp only []
    rw [hr']
    unfold add64
    omega
  · rw [setBlock_block_other _ _ _ _ hne.symm, setBlock_block_same]
    exact hr'

/-- With enough fuel for the chain, `fmemBeginTemporary` on a non-null materialized source with a
non-zero remaining size and a non-null temporary descriptor returns true. -/
theorem fmemBeginTemporary_succeeds (fuel : Nat) (m : Memory) (source temporary : Nat)
    (l : List Nat) (hs : source ≠ 0) (ht : temporary ≠ 0) (hwalk : Walk m source l)
    (hfuel : l.length < fuel) (hmat : Materialized (m.block source))
    (hrem : l.foldl (fun r a => add64 r (fmem__GetSpaceAvailableFor (m.block a) 0)) 0 ≠ 0) :
    ∃ m', fmemBeginTemporary fuel m source temporary = some (true, m') := by
  have hloop := fmemGetRemainingSize_loop_walk m l fuel source 0 hwalk hfuel
  have hr : fmemGetRemainingSize fuel m source
      = some (l.foldl (fun r a => add64 r (fmem__GetSpaceAvailableFor (m.block a) 0)) 0) := by
    unfold fmemGetRemainingSize
    rw [if_neg hs, hloop]
  have h0 : ¬ (source = 0 ∨ temporary = 0) := by
    rintro (h | h)
    · exact hs h
    · exact ht h
  have h1 : ¬ ((m.block source).base = 0 ∨ (m.block source).size = 0) := by
    rintro (h | h)
    · exact hmat.1 h
    · exact hmat.2 h
  unfold fmemBeginTemporary
  rw [if_neg h0, if_neg h1, hr]
  simp only [hrem, if_false]
  exact ⟨_, rfl⟩

/-! ### Growth -/

/-- The block size computed for a request below `2^64 - 4096` is a multiple of the granularity
that exceeds the request, without wrap-around. -/
theorem fmem__ComputeBlockSize_gt (size : Nat) (h : size < 18446744073709547520) :
    size < fmem__ComputeBlockSize size
      ∧ fmem__ComputeBlockSize size ≤ 18446744073709547520
      ∧ fmem__ComputeBlockSize size % 4096 = 0 ∧ 4096 ≤ fmem__ComputeBlockSize size := by
  unfold fmem__ComputeBlockSize add64 mul64 FMEM__OFFSET_TO_DATA FMEM__MIN_BLOCKSIZE
    sizeof_fmemBlockHeader sizeof_fmemMemoryBlock FMEM__HEADER_SPACING
  simp only []
  split <;> omega

/-- The size recorded for a new block of `blockSize` bytes is `blockSize + 48`: the macro
`FMEM__OFFSET_TO_DATA` is not parenthesised, so only `sizeof(fmemBlockHeader)` is subtracted and
the rest is added. -/
theorem blockSize_minus_OFFSET_TO_DATA_eq (blockSize : Nat) (h1 : 16 ≤ blockSize)
    (h2 : blockSize + 48 < 18446744073709551616) :
    blockSize_minus_OFFSET_TO_DATA blockSize = blockSize + 48 := by
  unfold blockSize_minus_OFFSET_TO_DATA add64 sub64 sizeof_fmemBlockHeader sizeof_fmemMemoryBlock
    FMEM__HEADER_SPACING
  omega

/-- The size recorded for a new block is never 0. -/
theorem blockSize_minus_OFFSET_TO_DATA_ne_zero (size : Nat) :
    blockSize_minus_OFFSET_TO_DATA (fmem__ComputeBlockSize size) ≠ 0 := by
  unfold blockSize_minus_OFFSET_TO_DATA fmem__ComputeBlockSize add64 sub64 mul64
    sizeof_fmemBlockHeader sizeof_fmemMemoryBlock FMEM__HEADER_SPACING FMEM__MIN_BLOCKSIZE
  simp only []
  omega

theorem plus_OFFSET_TO_DATA_eq (p : Nat) (h : p + 80 < 18446744073709551616) :
    plus_OFFSET_TO_DATA p = p + 80 := by
  unfold plus_OFFSET_TO_DATA add64 sizeof_fmemBlockHeader sizeof_fmemMemoryBlock
    FMEM__HEADER_SPACING
  omega

theorem FMEM__GETBLOCK_eq (p : Nat) (h : p + 24 < 18446744073709551616) :
    FMEM__GETBLOCK p = p + 24 := by
  unfold FMEM__GETBLOCK add64 sizeof_fmemBlockHeader FMEM__HEADER_SPACING
  omega

/-- A complete chain is a traversal. -/
theorem Chain_walk (m : Memory) (l : List Nat) : ∀ p, Chain m p l → Walk m p l := by
  induction l with
  | nil => intro p h; exact Or.inl h
  | cons a l ih =>
    intro p h
    obtain ⟨h1, h2, h3, h4⟩ := h
    exact ⟨h1, h2, h3, ih _ h4⟩

/-- The tail search ends at the last block of a complete chain. -/
theorem fmemPush_tail_chain (m : Memory) (l : List Nat) (t : Nat) :
    ∀ (fuel p : Nat), Chain m p (l ++ [t]) → l.length < fuel →
      fmemPush_tail m fuel p = some t := by
  induction l with
  | nil =>
    intro fuel p hc hf
    obtain ⟨rfl, hp, _, hn⟩ := hc
    cases fuel with
    | zero => simp at hf
    | succ fuel =>
      unfold fmemPush_tail
      have hn0 : (m.header (FMEM__GETHEADER (m.block p))).next = 0 := hn
      simp [hp, hn0]
  | cons a l ih =>
    intro fuel p hc hf
    obtain ⟨rfl, hp, _, hn⟩ := hc
    cases fuel with
    | zero => simp at hf
    | succ fuel =>
      unfold fmemPush_tail
      have hnext : (m.header (FMEM__GETHEADER (m.block p))).next ≠ 0 := by
        cases l with
        | nil => obtain ⟨h1, h2, _⟩ := hn; unfold nextOf at h1; rw [h1]; exact h2
        | cons b l => obtain ⟨h1, h2, _⟩ := hn; unfold nextOf at h1; rw [h1]; exact h2
      simp only [hp, hnext, if_false]
      exact ih fuel _ hn (by simpa using hf)

/-- In a complete chain only the last block has a null `next`. -/
theorem Chain_next_ne_zero (m : Memory) (l : List Nat) (t : Nat) :
    ∀ p, Chain m p (l ++ [t]) → (∀ a ∈ l, nextOf m a ≠ 0) ∧ nextOf m t = 0 := by
  induction l with
  | nil =>
    intro p hc
    obtain ⟨_, _, _, hn⟩ := hc
    exact ⟨fun a ha => absurd ha (List.not_mem_nil a), hn⟩
  | cons x l ih =>
    intro p hc
    obtain ⟨_, _, _, hn⟩ := hc
    obtain ⟨h1, h2⟩ := ih _ hn
    refine ⟨?_, h2⟩
    intro a ha
    rcases List.mem_cons.mp ha with rfl | ha'
    · cases l with
      | nil => obtain ⟨e1, e2, _⟩ := hn; rw [e1]; exact e2
      | cons b l => obtain ⟨e1, e2, _⟩ := hn; rw [e1]; exact e2
    · exact h1 a ha'

/-- A chain is kept, and extended after its last block, by a memory change that leaves its
descriptors and the `next` of all but the last block alone. -/
theorem Chain_extend (m m' : Memory) (t : Nat) (rest : List Nat) (l : List Nat) :
    ∀ p, Chain m p (l ++ [t]) →
      (∀ a ∈ l ++ [t], m'.block a = m.block a) →
      (∀ a ∈ l, nextOf m' a = nextOf m a) →
      Chain m' (nextOf m' t) rest →
      Chain m' p (l ++ [t] ++ rest) := by
  induction l with
  | nil =>
    intro p hc hb _ hrest
    obtain ⟨rfl, hp, hmat, _⟩ := hc
    refine ⟨rfl, hp, ?_, hrest⟩
    rw [hb p (by simp)]; exact hmat
  | cons x l ih =>
    intro p hc hb hn hrest
    obtain ⟨rfl, hp, hmat, hnext⟩ := hc
    refine ⟨rfl, hp, ?_, ?_⟩
    · rw [hb p (by simp)]; exact hmat
    · rw [hn p (List.mem_cons_self _ _)]
      exact ih _ hnext (fun a ha => hb a (by simp at ha ⊢; tauto))
        (fun a ha => hn a (List.mem_cons_of_mem _ ha)) hrest

/-- The search selects no block when no visited block passes the fit test. -/
theorem searchFold_none (m : Memory) (size : Nat) (l : List Nat) (hnz : ∀ a ∈ l, a ≠ 0)
    (hnofit : ∀ a ∈ l, ¬ add64 (m.block a).used size ≤ (m.block a).size) :
    l.foldl (searchStep m size) 0 = 0 := by
  rcases searchFold_spec m size l 0 hnz with ⟨h, _⟩ | ⟨pre, a, post, hl, _, hfa, _⟩
  · exact h
  · exact absurd hfa (hnofit a (by rw [hl]; simp))


/-- The growth path of `fmemPush` on a materialized head: when the search has selected no block
and the tail search has found `t`, a successful allocation at `p` is set up as a new block after
`t`.  The memory afterwards is given view by view. -/
theorem fmemPush_append_path (fuel : Nat) (m : Memory) (malloc : Nat → Nat)
    (block size flags t : Nat)
    (hb : block ≠ 0) (hs : size ≠ 0) (hl : (m.block block).temporary = 0)
    (hty : (m.block block).type = fmemType.Growable)
    (hbase : (m.block block).base ≠ 0)
    (hsearch : fmemPush_search m size fuel block 0 = some 0)
    (htail : fmemPush_tail m fuel block = some t) (ht0 : t ≠ 0)
    (hmalloc : malloc (fmem__ComputeBlockSize size) ≠ 0)
    (hfreshT : t ≠ FMEM__GETBLOCK (malloc (fmem__ComputeBlockSize size)))
    (hfreshH : FMEM__GETHEADER (m.block t) ≠ malloc (fmem__ComputeBlockSize size)) :
    ∃ m', fmemPush fuel m malloc block size flags
        = some (fmemPush_done m'
            (plus_OFFSET_TO_DATA (malloc (fmem__ComputeBlockSize size))) size flags)
      ∧ (∀ a, m'.block a =
          if a = FMEM__GETBLOCK (malloc (fmem__ComputeBlockSize size)) then
            { source := 0, base := plus_OFFSET_TO_DATA (malloc (fmem__ComputeBlockSize size)),
              temporary := 0,
              size := blockSize_minus_OFFSET_TO_DATA (fmem__ComputeBlockSize size),
              used := size, type := (m.block t).type }
          else m.block a)
      ∧ (∀ a, m'.header a =
          if a = FMEM__GETHEADER (m.block t) then
            { m.header (FMEM__GETHEADER (m.block t)) with
                next := FMEM__GETBLOCK (malloc (fmem__ComputeBlockSize size)) }
          else if a = malloc (fmem__ComputeBlockSize size) then { prev := t, next := 0 }
          else m.header a)
      ∧ m'.byte = m.byte
      ∧ m'.mallocs = m.mallocs
          ++ [(fmem__ComputeBlockSize size, malloc (fmem__ComputeBlockSize size))]
      ∧ m'.frees = m.frees := by
  have hg : ¬ (block = 0 ∨ size = 0) := by
    rintro (h | h)
    · exact hb h
    · exact hs h
  have halloc : fmem__AllocateBlock m malloc (fmem__ComputeBlockSize size) 0
      = (malloc (fmem__ComputeBlockSize size),
          (({ m with mallocs := m.mallocs
              ++ [(fmem__ComputeBlockSize size, malloc (fmem__ComputeBlockSize size))] }
            : Memory).setHeader
            (malloc (fmem__ComputeBlockSize size)) zeroHeader).setBlock
            (FMEM__GETBLOCK (malloc (fmem__ComputeBlockSize size))) zeroBlock) := by
    unfold fmem__AllocateBlock
    have e : add64 (fmem__ComputeBlockSize size) 0 = fmem__ComputeBlockSize size := by
      unfold add64 fmem__ComputeBlockSize mul64
      simp only []
      omega
    simp only [e, hmalloc, if_false]
  unfold fmemPush
  simp only [hg, hl, hsearch, hty, hbase, htail, halloc, hmalloc, ht0, ne_eq, not_true_eq_false,
    if_false, not_false_eq_true, if_true]
  simp only [modifyHeader_block, modifyBlock_block_same, setBlock_block_same,
    modifyBlock_block_other _ _ _ _ hfreshT, setBlock_block_other _ _ _ _ hfreshT,
    setHeader_block]
  refine ⟨_, rfl, ?_, ?_, ?_, ?_, ?_⟩
  · intro a
    by_cases ha : a = FMEM__GETBLOCK (malloc (fmem__ComputeBlockSize size))
    · rw [if_pos ha, ha]
      simp [zeroBlock]
    · rw [if_neg ha]
      simp [modifyBlock_block_other _ _ _ _ ha, setBlock_block_other _ _ _ _ ha]
  · intro a
    by_cases ha : a = FMEM__GETHEADER (m.block t)
    · rw [if_pos ha, ha, modifyHeader_header_same,
        modifyHeader_header_other _ _ _ _ hfreshH]
      simp [setHeader_header_other _ _ _ _ hfreshH]
    · rw [if_neg ha, modifyHeader_header_other _ _ _ _ ha]
      by_cases hap : a = malloc (fmem__ComputeBlockSize size)
      · rw [if_pos hap, hap]
        simp [zeroHeader]
      · rw [if_neg hap, modifyHeader_header_other _ _ _ _ hap]
        simp [setHeader_header_other _ _ _ _ hap]
  · simp
  · simp
  · simp

/-- The size recorded for a new block holds the request, for every request below
`2^64 - 4096`. -/
theorem recorded_size_ge (size : Nat) (h : size < 18446744073709547520) :
    size ≤ blockSize_minus_OFFSET_TO_DATA (fmem__ComputeBlockSize size) := by
  obtain ⟨h1, h2, _, h4⟩ := fmem__ComputeBlockSize_gt size h
  rw [blockSize_minus_OFFSET_TO_DATA_eq _ (by omega) (by omega)]
  omega

/-- Growth on a head without storage (`base == null`): on a non-null, unlocked Growable block,
a push of a non-zero size calls the heap once, for `fmem__ComputeBlockSize(size)` bytes, and when
the heap returns `p` the storage is installed in the head itself: `base = p + 80`, `used = size`,
`source = null`, and the result is the new base.  No other descriptor changes, except the
descriptor slot inside the new allocation. -/
theorem fmemPush_materializes_head (fuel : Nat) (m : Memory) (malloc : Nat → Nat)
    (block size flags p : Nat) (hb : block ≠ 0) (hs : size ≠ 0)
    (hl : (m.block block).temporary = 0) (hty : (m.block block).type = fmemType.Growable)
    (hbase : (m.block block).base = 0)
    (hp : malloc (fmem__ComputeBlockSize size) = p) (hp0 : p ≠ 0)
    (hpr : p + 80 < 18446744073709551616) :
    ∃ m', fmemPush (fuel + 1) m malloc block size flags
        = some (fmemPush_done m' (p + 80) size flags)
      ∧ m'.block block =
          { source := 0, base := p + 80, temporary := 0,
            size := blockSize_minus_OFFSET_TO_DATA (fmem__ComputeBlockSize size),
            used := size, type := fmemType.Growable }
      ∧ (∀ a, a ≠ block → a ≠ p + 24 → m'.block a = m.block a)
      ∧ (∀ a, a ≠ p → m'.header a = m.header a)
      ∧ m'.mallocs = m.mallocs ++ [(fmem__ComputeBlockSize size, p)]
      ∧ m'.frees = m.frees := by
  have hg : ¬ (block = 0 ∨ size = 0) := by
    rintro (h | h)
    · exact hb h
    · exact hs h
  have hsearch : fmemPush_search m size (fuel + 1) block 0 = some 0 := by
    unfold fmemPush_search
    simp [hb, hbase]
  have hmalloc : malloc (fmem__ComputeBlockSize size) ≠ 0 := by rw [hp]; exact hp0
  have halloc : fmem__AllocateBlock m malloc (fmem__ComputeBlockSize size) 0
      = (p, (({ m with mallocs := m.mallocs ++ [(fmem__ComputeBlockSize size, p)] }
            : Memory).setHeader p zeroHeader).setBlock (p + 24) zeroBlock) := by
    unfold fmem__AllocateBlock
    have e : add64 (fmem__ComputeBlockSize size) 0 = fmem__ComputeBlockSize size := by
      unfold add64 fmem__ComputeBlockSize mul64
      simp only []
      omega
    simp only [e, hp, hp0, if_false, FMEM__GETBLOCK_eq p (by omega)]
  unfold fmemPush
  simp only [hg, hl, hsearch, hty, hbase, halloc, hp0, ne_eq, not_true_eq_false,
    if_false, not_false_eq_true, if_true, modifyBlock_block_same,
    plus_OFFSET_TO_DATA_eq p hpr]
  refine ⟨_, rfl, ?_, ?_, ?_, ?_, ?_⟩
  · by_cases hal : block = p + 24
    · simp [hal, zeroBlock]
    · simp [setBlock_block_other _ _ _ _ hal, hl, hty]
  · intro a ha hap
    simp [modifyBlock_block_other _ _ _ _ ha, setBlock_block_other _ _ _ _ hap]
  · intro a ha
    simp [setHeader_header_other _ _ _ _ ha]
  · simp
  · simp

/-- Growth on a materialized chain: when no block of the complete chain `l ++ [t]` of Growable
blocks passes the fit test, a push of a non-zero size on the unlocked head calls the heap once,
for `fmem__ComputeBlockSize(size)` bytes, and when the heap returns fresh memory `p` exactly one
block is added, after the tail `t`: its descriptor is at `p + 24`, with `base = p + 80`,
`used = size` and the type of the chain; the blocks of the chain are unchanged and the result is
the new base. -/
theorem fmemPush_appends_block (fuel : Nat) (m : Memory) (malloc : Nat → Nat)
    (block size flags p t : Nat) (l : List Nat)
    (hchain : Chain m block (l ++ [t])) (hfuel : l.length + 1 < fuel)
    (hgrow : ∀ a ∈ l ++ [t], (m.block a).type = fmemType.Growable)
    (hl : (m.block block).temporary = 0) (hs : size ≠ 0)
    (hnofit : ∀ a ∈ l ++ [t], ¬ add64 (m.block a).used size ≤ (m.block a).size)
    (hp : malloc (fmem__ComputeBlockSize size) = p) (hp0 : p ≠ 0)
    (hpr : p + 80 < 18446744073709551616)
    (hfreshB : ∀ a ∈ l ++ [t], a ≠ p + 24)
    (hfreshH : ∀ a ∈ l ++ [t], FMEM__GETHEADER (m.block a) ≠ p) :
    ∃ m', fmemPush fuel m malloc block size flags
        = some (fmemPush_done m' (p + 80) size flags)
      ∧ Chain m' block (l ++ [t] ++ [p + 24])
      ∧ (∀ a, a ≠ p + 24 → m'.block a = m.block a)
      ∧ m'.block (p + 24) =
          { source := 0, base := p + 80, temporary := 0,
            size := blockSize_minus_OFFSET_TO_DATA (fmem__ComputeBlockSize size),
            used := size, type := fmemType.Growable }
      ∧ m'.mallocs = m.mallocs ++ [(fmem__ComputeBlockSize size, p)]
      ∧ m'.frees = m.frees := by
  have hwalk := Chain_walk m _ block hchain
  have hnz := Walk_ne_zero m _ block hwalk
  have hmat := Walk_materialized m _ block hwalk
  have htl : t ∈ l ++ [t] := by simp
  have hblock : block ∈ l ++ [t] := by
    cases l with
    | nil => obtain ⟨rfl, _⟩ := hchain; simp
    | cons x l => obtain ⟨rfl, _⟩ := hchain; simp
  have hsearch : fmemPush_search m size fuel block 0 = some 0 := by
    rw [fmemPush_search_walk m size _ fuel block 0 hwalk hgrow (by simpa using hfuel),
      searchFold_none m size _ hnz hnofit]
  have htail : fmemPush_tail m fuel block = some t :=
    fmemPush_tail_chain m l t fuel block hchain (by omega)
  have hnb : FMEM__GETBLOCK p = p + 24 := FMEM__GETBLOCK_eq p (by omega)
  obtain ⟨m', hpush, hblk, hhdr, _, hmal, hfr⟩ :=
    fmemPush_append_path fuel m malloc block size flags t (hnz block hblock) hs hl
      (hgrow block hblock) (hmat block hblock).1 hsearch htail (hnz t htl)
      (by rw [hp]; exact hp0) (by rw [hp, hnb]; exact hfreshB t htl)
      (by rw [hp]; exact hfreshH t htl)
  simp only [hp, hnb, plus_OFFSET_TO_DATA_eq p hpr] at hpush hblk hhdr hmal
  have hother : ∀ a, a ≠ p + 24 → m'.block a = m.block a := by
    intro a ha
    rw [hblk a, if_neg ha]
  have hnew : m'.block (p + 24) =
      { source := 0, base := p + 80, temporary := 0,
        size := blockSize_minus_OFFSET_TO_DATA (fmem__ComputeBlockSize size),
        used := size, type := fmemType.Growable } := by
    rw [hblk (p + 24), if_pos rfl, hgrow t htl]
  obtain ⟨hnext, hlast⟩ := Chain_next_ne_zero m l t block hchain
  have hnextT : nextOf m' t = p + 24 := by
    unfold nextOf
    rw [hother t (hfreshB t htl), hhdr, if_pos rfl]
  have hnextNew : nextOf m' (p + 24) = 0 := by
    unfold nextOf
    rw [hnew]
    have e : FMEM__GETHEADER
        { source := 0, base := p + 80, temporary := 0,
          size := blockSize_minus_OFFSET_TO_DATA (fmem__ComputeBlockSize size),
          used := size, type := fmemType.Growable } = p := by
      unfold FMEM__GETHEADER sub64 FMEM__OFFSET_TO_DATA sizeof_fmemBlockHeader
        sizeof_fmemMemoryBlock FMEM__HEADER_SPACING
      simp only []
      omega
    rw [e, hhdr, if_neg (fun h => hfreshH t htl h.symm), if_pos rfl]
  refine ⟨m', hpush, ?_, hother, hnew, hmal, hfr⟩
  refine Chain_extend m m' t [p + 24] l block hchain
    (fun a ha => hother a (hfreshB a ha)) ?_ ?_
  · intro a ha
    have hal : a ∈ l ++ [t] := by simp [ha]
    unfold nextOf
    rw [hother a (hfreshB a hal), hhdr]
    have h1 : FMEM__GETHEADER (m.block a) ≠ FMEM__GETHEADER (m.block t) := by
      intro h
      have := hnext a ha
      unfold nextOf at this hlast
      rw [h] at this
      exact this hlast
    rw [if_neg h1, if_neg (hfreshH a hal)]
  · rw [hnextT]
    refine ⟨rfl, by omega, ?_, ?_⟩
    · rw [hnew]
      exact ⟨by simp only; omega, blockSize_minus_OFFSET_TO_DATA_ne_zero size⟩
    · rw [hnextNew]
      rfl

/-! ### Release -/

/-- The loop of `fmemFree` changes only the record of the heap calls, and every header it hands to
the deallocator is the header of a non-null, materialized block whose `source` is null. -/
theorem fmemFree_loop_spec (fuel : Nat) :
    ∀ (m : Memory) (p : Nat) (m' : Memory), fmemFree_loop fuel m p = some m' →
      m'.block = m.block ∧ m'.header = m.header ∧ m'.byte = m.byte ∧ m'.mallocs = m.mallocs
        ∧ ∃ freed, m'.frees = m.frees ++ freed
          ∧ ∀ h ∈ freed, ∃ a, a ≠ 0 ∧ Materialized (m.block a) ∧ (m.block a).source = 0
              ∧ h = FMEM__GETHEADER (m.block a) := by
  induction fuel with
  | zero => intro m p m' h; simp [fmemFree_loop] at h
  | succ fuel ih =>
    intro m p m' h
    unfold fmemFree_loop at h
    split at h
    · obtain rfl := Option.some.inj h
      exact ⟨rfl, rfl, rfl, rfl, [], by simp, fun h hh => absurd hh (List.not_mem_nil h)⟩
    · rename_i hp
      split at h
      · obtain rfl := Option.some.inj h
        exact ⟨rfl, rfl, rfl, rfl, [], by simp, fun h hh => absurd hh (List.not_mem_nil h)⟩
      · rename_i hc
        simp only [not_or, ne_eq, not_not] at hc
        obtain ⟨h1, h2, h3, h4, freed, h5, h6⟩ := ih _ _ _ h
        refine ⟨h1, h2, h3, h4, FMEM__GETHEADER (m.block p) :: freed, ?_, ?_⟩
        · rw [h5]; simp [fmem__FreeBlock]
        · intro x hx
          rcases List.mem_cons.mp hx with hx1 | hx'
          · exact ⟨p, hp, ⟨hc.1, hc.2.1⟩, hc.2.2, hx1⟩
          · exact h6 x hx'

/-! ### Initialisation -/

/-- The pointer `fmem__AllocateBlock` returns is the pointer the heap returned. -/
theorem fmem__AllocateBlock_fst (m : Memory) (malloc : Nat → Nat) (s a : Nat) :
    (fmem__AllocateBlock m malloc s a).1 = malloc (add64 s a) := by
  unfold fmem__AllocateBlock
  simp only []
  split
  · rename_i h; exact h.symm
  · rfl

/-- A failed `fmem__AllocateBlock` changes only the record of the heap calls. -/
theorem fmem__AllocateBlock_null (m : Memory) (malloc : Nat → Nat) (s a : Nat)
    (h : malloc (add64 s a) = 0) :
    fmem__AllocateBlock m malloc s a
      = (0, { m with mallocs := m.mallocs ++ [(add64 s a, 0)] }) := by
  unfold fmem__AllocateBlock
  simp only [h, if_true]

/-- A successful `fmem__AllocateBlock` stores a zeroed header and a zeroed descriptor in the new
memory. -/
theorem fmem__AllocateBlock_ok (m : Memory) (malloc : Nat → Nat) (s a : Nat)
    (h : malloc (add64 s a) ≠ 0) :
    fmem__AllocateBlock m malloc s a
      = (malloc (add64 s a),
          (({ m with mallocs := m.mallocs ++ [(add64 s a, malloc (add64 s a))] }
            : Memory).setHeader (malloc (add64 s a)) zeroHeader).setBlock
            (FMEM__GETBLOCK (malloc (add64 s a))) zeroBlock) := by
  unfold fmem__AllocateBlock
  simp only [h, if_false]

/-! ### Results of a push -/

theorem plus_OFFSET_TO_DATA_lt (p : Nat) : plus_OFFSET_TO_DATA p < 18446744073709551616 := by
  unfold plus_OFFSET_TO_DATA
  exact add64_lt _ _

theorem fmemPush_done_result (mx : Memory) (rx size flags r : Nat) (m' : Memory)
    (h : some (fmemPush_done mx rx size flags) = some (r, m')) : r = rx := by
  have h1 : fmemPush_done mx rx size flags = (r, m') := Option.some.inj h
  rw [← fmemPush_done_fst mx rx size flags, h1]

/-- The pointer a push returns is a 64-bit value. -/
theorem fmemPush_result_lt (fuel : Nat) (m : Memory) (malloc : Nat → Nat)
    (block size flags r : Nat) (m' : Memory)
    (h : fmemPush fuel m malloc block size flags = some (r, m')) :
    r < 18446744073709551616 := by
  unfold fmemPush at h
  split at h
  · simp at h; omega
  · split at h
    · simp at h; omega
    · split at h
      · simp at h
      · simp only [] at h
        split at h
        · rw [fmemPush_done_result _ _ _ _ _ _ h]; exact add64_lt _ _
        · split at h
          · rw [fmemPush_done_result _ _ _ _ _ _ h]; omega
          · split at h
            · simp at h
            · split at h
              · rw [fmemPush_done_result _ _ _ _ _ _ h]; omega
              · split at h
                · rw [fmemPush_done_result _ _ _ _ _ _ h]
                  simp only [modifyBlock_block_same]
                  exact plus_OFFSET_TO_DATA_lt _
                · rw [fmemPush_done_result _ _ _ _ _ _ h]
                  simp only [modifyBlock_block_same, modifyHeader_block]
                  exact plus_OFFSET_TO_DATA_lt _

/-- Push on a non-null block that is not Growable, when `used + size` does not wrap around:
the call returns, makes no heap call and changes no header and no other descriptor; when the
size is non-zero, the block unlocked and materialized and `used + size <= size`, the result is
`base + used` and only `used` changes, to `used + size`; otherwise the result is null and the
memory is unchanged. -/
theorem fmemPush_single_nowrap (m : Memory) (malloc : Nat → Nat) (fuel block size flags : Nat)
    (hb : block ≠ 0) (ht : (m.block block).type ≠ fmemType.Growable)
    (hnowrap : (m.block block).used + size < 18446744073709551616) :
    ∃ r m', fmemPush (fuel + 1) m malloc block size flags = some (r, m')
      ∧ m'.mallocs = m.mallocs ∧ m'.frees = m.frees ∧ m'.header = m.header
      ∧ (∀ a, a ≠ block → m'.block a = m.block a)
      ∧ ((size ≠ 0 ∧ (m.block block).temporary = 0 ∧ Materialized (m.block block)
            ∧ (m.block block).used + size ≤ (m.block block).size) →
          r = add64 (m.block block).base (m.block block).used
            ∧ m'.block block = { m.block block with used := (m.block block).used + size })
      ∧ (¬ (size ≠ 0 ∧ (m.block block).temporary = 0 ∧ Materialized (m.block block)
            ∧ (m.block block).used + size ≤ (m.block block).size) →
          r = 0 ∧ m' = m) := by
  by_cases hc : size ≠ 0 ∧ (m.block block).temporary = 0 ∧ Materialized (m.block block)
      ∧ (m.block block).used + size ≤ (m.block block).size
  · obtain ⟨hs, hl, hmat, hfit⟩ := hc
    have hpush := fmemPush_single m malloc fuel block size flags hb hs hl ht
    rw [if_pos ⟨hmat, by rw [add64_eq _ _ hnowrap]; exact hfit⟩, add64_eq _ _ hnowrap] at hpush
    generalize hd : fmemPush_done
      (m.setBlock block { m.block block with used := (m.block block).used + size })
      (add64 (m.block block).base (m.block block).used) size flags = d at hpush
    refine ⟨d.1, d.2, hpush, ?_, ?_, ?_, ?_, ?_, ?_⟩
    · rw [← hd, fmemPush_done_mallocs]; rfl
    · rw [← hd, fmemPush_done_frees]; rfl
    · rw [← hd, fmemPush_done_header]; rfl
    · intro a ha
      rw [← hd, fmemPush_done_block, setBlock_block_other _ _ _ _ ha]
    · intro _
      rw [← hd, fmemPush_done_fst, fmemPush_done_block, setBlock_block_same]
      exact ⟨rfl, rfl⟩
    · intro hn
      exact absurd ⟨hs, hl, hmat, hfit⟩ hn
  · have hpush : fmemPush (fuel + 1) m malloc block size flags = some (0, m) := by
      by_cases hs : size = 0
      · simp [fmemPush, hs]
      · by_cases hl : (m.block block).temporary = 0
        · rw [fmemPush_single m malloc fuel block size flags hb hs hl ht, if_neg]
          rintro ⟨hmat, hfit⟩
          rw [add64_eq _ _ hnowrap] at hfit
          exact hc ⟨hs, hl, hmat, hfit⟩
        · simp [fmemPush, hb, hs, hl]
    exact ⟨0, m, hpush, rfl, rfl, rfl, fun _ _ => rfl, fun h => absurd h hc,
      fun _ => ⟨rfl, rfl⟩⟩

/-- What a successful `fmemPushBlock` did: the push on `src` returned a non-null pointer and the
`dst` descriptor was set up over it. -/
theorem fmemPushBlock_true (fuel : Nat) (m : Memory) (malloc : Nat → Nat)
    (src dst size flags : Nat) (m' : Memory)
    (hpb : fmemPushBlock fuel m malloc src dst size flags = some (true, m')) :
    src ≠ 0 ∧ dst ≠ 0 ∧ size ≠ 0 ∧ ∃ r m1, fmemPush fuel m malloc src size flags = some (r, m1)
      ∧ r ≠ 0
      ∧ m' = m1.setBlock dst
          { source := src, base := r, temporary := (m1.block dst).temporary,
            size := size, used := 0, type := fmemType.Fixed } := by
  unfold fmemPushBlock at hpb
  split at hpb
  · simp at hpb
  · rename_i hg
    simp only [not_or] at hg
    split at hpb
    · simp at hpb
    · rename_i rm hpush
      simp only [] at hpb
      split at hpb
      · simp at hpb
      · rename_i hr
        simp only [Option.some.injEq, Prod.mk.injEq, true_and] at hpb
        refine ⟨hg.1, hg.2.1, hg.2.2, rm.1, rm.2, hpush, hr, ?_⟩
        rw [← hpb]
        simp [modifyBlock_eq]

/-- When `fmemPushBlock` succeeds and the `temporary` field of `dst` is null, every push of `k`
bytes with `0 < k <= size` on the sub-block succeeds and returns the base of the sub-block. -/
theorem fmemPushBlock_then_push (fuel fuel2 : Nat) (m : Memory) (malloc malloc2 : Nat → Nat)
    (src dst size flags flags2 k : Nat) (m' : Memory)
    (hpb : fmemPushBlock fuel m malloc src dst size flags = some (true, m'))
    (htemp : (m'.block dst).temporary = 0) (hk : 0 < k) (hk2 : k ≤ size)
    (hsz : size < 18446744073709551616) :
    (m'.block dst).base ≠ 0
      ∧ ∃ m2, fmemPush (fuel2 + 1) m' malloc2 dst k flags2 = some ((m'.block dst).base, m2)
        ∧ (m2.block dst).used = k := by
  obtain ⟨_, hd0, _, r, m1, hpush, hr, hm'⟩ :=
    fmemPushBlock_true fuel m malloc src dst size flags m' hpb
  have hrlt := fmemPush_result_lt fuel m malloc src size flags r m1 hpush
  have hdst : m'.block dst =
      { source := src, base := r, temporary := (m1.block dst).temporary,
        size := size, used := 0, type := fmemType.Fixed } := by
    rw [hm']; simp
  have hty : (m'.block dst).type ≠ fmemType.Growable := by
    rw [hdst]
    simp
  have hps := fmemPush_single m' malloc2 fuel2 dst k flags2 hd0 (by omega) htemp hty
  have hfit : Materialized (m'.block dst)
      ∧ add64 (m'.block dst).used k ≤ (m'.block dst).size := by
    rw [hdst]
    refine ⟨⟨hr, by simp only; omega⟩, ?_⟩
    simp only
    unfold add64
    omega
  rw [if_pos hfit] at hps
  generalize hd : fmemPush_done
    (m'.setBlock dst { m'.block dst with used := add64 (m'.block dst).used k })
    (add64 (m'.block dst).base (m'.block dst).used) k flags2 = d at hps
  have hd1 : d.1 = (m'.block dst).base := by
    rw [← hd, fmemPush_done_fst, hdst]
    simp only
    unfold add64
    omega
  have hd2 : (d.2.block dst).used = k := by
    rw [← hd, fmemPush_done_block, setBlock_block_same, hdst]
    simp only
    unfold add64
    omega
  refine ⟨by rw [hdst]; exact hr, d.2, ?_, hd2⟩
  rw [hps, ← hd1]

/-! ### Sums over a traversal -/

/-- Accumulating with `size_t` additions from an accumulator below `2^64` gives the sum modulo
`2^64`. -/
theorem foldl_add64 (f : Nat → Nat) (l : List Nat) :
    ∀ acc, acc < 18446744073709551616 →
      l.foldl (fun r a => add64 r (f a)) acc = (acc + (l.map f).sum) % 18446744073709551616 := by
  induction l with
  | nil => intro acc h; simp [Nat.mod_eq_of_lt h]
  | cons x l ih =>
    intro acc _
    rw [List.foldl_cons, ih _ (add64_lt _ _), List.map_cons, List.sum_cons]
    unfold add64
    omega

/-- The space available for a request of 0 bytes is the difference `size - used`, cut off at 0 and
reduced modulo `2^64`. -/
theorem fmem__GetSpaceAvailableFor_zero (b : fmemMemoryBlock) :
    fmem__GetSpaceAvailableFor b 0 = (b.size - b.used) % 18446744073709551616 := by
  unfold fmem__GetSpaceAvailableFor sub64
  split
  · omega
  · omega

/-- Reducing every term modulo `2^64` does not change a sum modulo `2^64`. -/
theorem sum_map_mod (f : Nat → Nat) (l : List Nat) :
    (l.map fun a => f a % 18446744073709551616).sum % 18446744073709551616
      = (l.map f).sum % 18446744073709551616 := by
  induction l with
  | nil => rfl
  | cons x l ih =>
    simp only [List.map_cons, List.sum_cons]
    omega

/-- The value `fmemGetTotalSize` accumulates over the visited blocks `l`. -/
theorem fmemGetTotalSize_loop_walk (m : Memory) (l : List Nat) :
    ∀ (fuel p acc : Nat), Walk m p l → l.length < fuel →
      fmemGetTotalSize_loop m fuel p acc =
        some (l.foldl (fun r a => add64 r (m.block a).size) acc) := by
  induction l with
  | nil =>
    intro fuel p acc hw hf
    cases fuel with
    | zero => simp at hf
    | succ fuel =>
      unfold fmemGetTotalSize_loop
      simp only [Walk, Materialized] at hw
      by_cases hp : p = 0
      · simp [hp]
      · have : (m.block p).base = 0 ∨ (m.block p).size = 0 := by
          rcases hw with h | h
          · exact absurd h hp
          · by_contra hc
            exact h ⟨fun h1 => hc (Or.inl h1), fun h2 => hc (Or.inr h2)⟩
        simp [hp, this]
  | cons a l ih =>
    intro fuel p acc hw hf
    cases fuel with
    | zero => simp at hf
    | succ fuel =>
      obtain ⟨rfl, ha, hmat, hnext⟩ := hw
      unfold fmemGetTotalSize_loop
      have hm : ¬ ((m.block p).base = 0 ∨ (m.block p).size = 0) := by
        rintro (h | h)
        · exact hmat.1 h
        · exact hmat.2 h
      simp only [ha, hm, if_false, List.foldl_cons]
      exact ih fuel _ _ hnext (by simpa using hf)

/-- The remaining size of a traversal, modulo `2^64`. -/
theorem fmemGetRemainingSize_walk (fuel : Nat) (m : Memory) (block : Nat) (l : List Nat)
    (hwalk : Walk m block l) (hfuel : l.length < fuel) :
    fmemGetRemainingSize fuel m block =
      some ((l.map fun a => (m.block a).size - (m.block a).used).sum % 18446744073709551616) := by
  have hloop := fmemGetRemainingSize_loop_walk m l fuel block 0 hwalk hfuel
  rw [foldl_add64 (fun a => fmem__GetSpaceAvailableFor (m.block a) 0) l 0 (by omega)] at hloop
  have hmap : (l.map fun a => fmem__GetSpaceAvailableFor (m.block a) 0)
      = l.map fun a => ((m.block a).size - (m.block a).used) % 18446744073709551616 := by
    apply List.map_congr_left
    intro a _
    exact fmem__GetSpaceAvailableFor_zero _
  rw [hmap, Nat.zero_add,
    sum_map_mod (fun a => (m.block a).size - (m.block a).used) l] at hloop
  unfold fmemGetRemainingSize
  by_cases hb : block = 0
  · rw [if_pos hb]
    subst hb
    cases l with
    | nil => simp
    | cons a l => exact absurd hwalk.1.symm hwalk.2.1
  · rw [if_neg hb, hloop]

/-- The total size of a traversal, modulo `2^64`. -/
theorem fmemGetTotalSize_walk (fuel : Nat) (m : Memory) (block : Nat) (l : List Nat)
    (hwalk : Walk m block l) (hfuel : l.length < fuel) :
    fmemGetTotalSize fuel m block =
      some ((l.map fun a => (m.block a).size).sum % 18446744073709551616) := by
  have hloop := fmemGetTotalSize_loop_walk m l fuel block 0 hwalk hfuel
  rw [foldl_add64 (fun a => (m.block a).size) l 0 (by omega), Nat.zero_add] at hloop
  unfold fmemGetTotalSize
  by_cases hb : block = 0
  · rw [if_pos hb]
    subst hb
    cases l with
    | nil => simp
    | cons a l => exact absurd hwalk.1.symm hwalk.2.1
  · rw [if_neg hb, hloop]

/-- A sum of sizes splits into what remains and what is used, when no block is over-used. -/
theorem sum_size_eq (f g : Nat → Nat) (l : List Nat) (h : ∀ a ∈ l, g a ≤ f a) :
    (l.map f).sum = (l.map fun a => f a - g a).sum + (l.map g).sum := by
  induction l with
  | nil => rfl
  | cons x l ih =>
    have hx := h x (List.mem_cons_self _ _)
    have := ih fun a ha => h a (List.mem_cons_of_mem _ ha)
    simp only [List.map_cons, List.sum_cons]
    omega

/-- When no visited block has room left (`size <= used` in each), `fmemBeginTemporary` fails and
changes nothing. -/
theorem fmemBeginTemporary_full_fails (fuel : Nat) (m : Memory) (source temporary : Nat)
    (l : List Nat) (hwalk : Walk m source l) (hfuel : l.length < fuel)
    (hfull : ∀ a ∈ l, (m.block a).size ≤ (m.block a).used) :
    fmemBeginTemporary fuel m source temporary = some (false, m) := by
  have hr := fmemGetRemainingSize_walk fuel m source l hwalk hfuel
  have hz : (l.map fun a => (m.block a).size - (m.block a).used) = l.map fun _ => 0 :=
    List.map_congr_left fun a ha => Nat.sub_eq_zero_of_le (hfull a ha)
  rw [hz] at hr
  have hs : (l.map fun _ => 0).sum = 0 := by simp
  rw [hs] at hr
  unfold fmemBeginTemporary
  by_cases h0 : source = 0 ∨ temporary = 0
  · rw [if_pos h0]
  · rw [if_neg h0]
    by_cases hnm : (m.block source).base = 0 ∨ (m.block source).size = 0
    · rw [if_pos hnm]
    · rw [if_neg hnm, hr]
      simp

/-- A successful `fmemBeginTemporary` on a source with `used <= size` that leaves the source full
(`used == size`, the condition asserted at its end) gives a temporary that is not larger than the
source: the state then meets every condition `fmemEndTemporary` asserts. -/
theorem fmemBeginTemporary_size_le (fuel : Nat) (m : Memory) (source temporary : Nat)
    (l : List Nat) (m' : Memory) (hne : source ≠ temporary) (hwalk : Walk m source l)
    (hfuel : l.length < fuel) (hinv : (m.block source).used ≤ (m.block source).size)
    (hbound : (m.block source).size < 18446744073709551616)
    (hbegin : fmemBeginTemporary fuel m source temporary = some (true, m'))
    (hfull : fmemBeginTemporary_assert m' source) :
    fmemEndTemporary_asserts m' temporary := by
  obtain ⟨_, _, _, r, hr, _, rfl⟩ :=
    fmemBeginTemporary_true fuel m source temporary m' hne hbegin
  rw [fmemGetRemainingSize_walk fuel m source l hwalk hfuel] at hr
  have hr' := Option.some.inj hr
  unfold fmemBeginTemporary_assert at hfull
  rw [setBlock_block_same] at hfull
  simp only [] at hfull
  unfold fmemEndTemporary_asserts
  simp only [setBlock_block_other _ _ _ _ hne.symm, setBlock_block_same]
  refine ⟨trivial, hfull, ?_⟩
  unfold add64 at hfull
  omega

/-! ### Release of a chain -/

/-- The traversal does not depend on the record of the heap calls. -/
theorem Walk_frees (m : Memory) (fr : List Nat) (l : List Nat) (p : Nat) (h : Walk m p l) :
    Walk { m with frees := fr } p l :=
  Walk_congr m { m with frees := fr } rfl (fun _ h => h) l p h (fun _ _ => ⟨rfl, rfl⟩)

/-- The loop of `fmemFree` returns on every traversal that ends. -/
theorem fmemFree_loop_returns (l : List Nat) :
    ∀ (fuel : Nat) (m : Memory) (p : Nat), Walk m p l → l.length < fuel →
      ∃ m', fmemFree_loop fuel m p = some m' := by
  induction l with
  | nil =>
    intro fuel m p hw hf
    cases fuel with
    | zero => simp at hf
    | succ fuel =>
      unfold fmemFree_loop
      by_cases hp : p = 0
      · exact ⟨m, by rw [if_pos hp]⟩
      · have hstop : (m.block p).base = 0 ∨ (m.block p).size = 0 ∨ (m.block p).source ≠ 0 := by
          rcases hw with h | h
          · exact absurd h hp
          · by_contra hc
            exact h ⟨fun h1 => hc (Or.inl h1), fun h2 => hc (Or.inr (Or.inl h2))⟩
        exact ⟨m, by rw [if_neg hp, if_pos hstop]⟩
  | cons a l ih =>
    intro fuel m p hw hf
    cases fuel with
    | zero => simp at hf
    | succ fuel =>
      obtain ⟨hpa, ha, _, hnext⟩ := hw
      have hp : p ≠ 0 := by rw [hpa]; exact ha
      unfold fmemFree_loop
      rw [if_neg hp]
      by_cases hstop : (m.block p).base = 0 ∨ (m.block p).size = 0 ∨ (m.block p).source ≠ 0
      · exact ⟨m, by rw [if_pos hstop]⟩
      · rw [if_neg hstop]
        have hn : Walk (fmem__FreeBlock m (FMEM__GETHEADER (m.block p)))
            ((m.header (FMEM__GETHEADER (m.block p))).next) l := by
          have := Walk_frees m (m.frees ++ [FMEM__GETHEADER (m.block p)]) l _ hnext
          rw [← hpa] at this
          exact this
        exact ih fuel _ _ hn (by simpa using hf)

/-- On a traversal of blocks whose `source` is null the loop of `fmemFree` hands the header of each
visited block to the deallocator, in the order of the traversal, and nothing else. -/
theorem fmemFree_loop_walk (l : List Nat) :
    ∀ (fuel : Nat) (m : Memory) (p : Nat), Walk m p l → (∀ a ∈ l, (m.block a).source = 0) →
      l.length < fuel →
      ∃ m', fmemFree_loop fuel m p = some m'
        ∧ m'.frees = m.frees ++ l.map (fun a => FMEM__GETHEADER (m.block a))
        ∧ m'.block = m.block ∧ m'.header = m.header ∧ m'.byte = m.byte
        ∧ m'.mallocs = m.mallocs := by
  induction l with
  | nil =>
    intro fuel m p hw _ hf
    cases fuel with
    | zero => simp at hf
    | succ fuel =>
      unfold fmemFree_loop
      by_cases hp : p = 0
      · exact ⟨m, by rw [if_pos hp], by simp, rfl, rfl, rfl, rfl⟩
      · have hstop : (m.block p).base = 0 ∨ (m.block p).size = 0 ∨ (m.block p).source ≠ 0 := by
          rcases hw with h | h
          · exact absurd h hp
          · by_contra hc
            exact h ⟨fun h1 => hc (Or.inl h1), fun h2 => hc (Or.inr (Or.inl h2))⟩
        exact ⟨m, by rw [if_neg hp, if_pos hstop], by simp, rfl, rfl, rfl, rfl⟩
  | cons a l ih =>
    intro fuel m p hw hown hf
    cases fuel with
    | zero => simp at hf
    | succ fuel =>
      obtain ⟨hpa, ha, hmat, hnext⟩ := hw
      have hp : p ≠ 0 := by rw [hpa]; exact ha
      have hsrc : (m.block p).source = 0 := by
        rw [hpa]; exact hown a (List.mem_cons_self _ _)
      have hstop : ¬ ((m.block p).base = 0 ∨ (m.block p).size = 0 ∨ (m.block p).source ≠ 0) := by
        rw [hpa] at hsrc ⊢
        rintro (h | h | h)
        · exact hmat.1 h
        · exact hmat.2 h
        · exact h hsrc
      unfold fmemFree_loop
      rw [if_neg hp, if_neg hstop]
      have hn : Walk (fmem__FreeBlock m (FMEM__GETHEADER (m.block p)))
          ((m.header (FMEM__GETHEADER (m.block p))).next) l := by
        have := Walk_frees m (m.frees ++ [FMEM__GETHEADER (m.block p)]) l _ hnext
        rw [← hpa] at this
        exact this
      obtain ⟨m', h1, h2, h3, h4, h5, h6⟩ :=
        ih fuel _ _ hn (fun b hb => hown b (List.mem_cons_of_mem _ hb)) (by simpa using hf)
      refine ⟨m', h1, ?_, h3, h4, h5, h6⟩
      rw [h2, hpa]
      simp [fmem__FreeBlock]

/-- A traversal is determined by its start. -/
theorem Walk_unique (m : Memory) (l1 : List Nat) :
    ∀ (l2 : List Nat) (p : Nat), Walk m p l1 → Walk m p l2 → l1 = l2 := by
  induction l1 with
  | nil =>
    intro l2 p h1 h2
    cases l2 with
    | nil => rfl
    | cons b l2 =>
      obtain ⟨hpb, hb, hmat, _⟩ := h2
      rcases h1 with h | h
      · rw [hpb] at h; exact absurd h hb
      · rw [hpb] at h; exact absurd hmat h
  | cons a l1 ih =>
    intro l2 p h1 h2
    obtain ⟨hpa, ha, hmat, hnext⟩ := h1
    cases l2 with
    | nil =>
      rcases h2 with h | h
      · rw [hpa] at h; exact absurd h ha
      · rw [hpa] at h; exact absurd hmat h
    | cons b l2 =>
      obtain ⟨hpb, _, _, hnext2⟩ := h2
      have hab : a = b := hpa.symm.trans hpb
      rw [← hab] at hnext2
      rw [← hab, ih l2 _ hnext hnext2]

/-- From every visited block the traversal goes on with a strictly shorter list. -/
theorem Walk_from_mem (m : Memory) (l : List Nat) :
    ∀ p, Walk m p l → ∀ b ∈ l, ∃ l2, Walk m (nextOf m b) l2 ∧ l2.length < l.length := by
  induction l with
  | nil => intro p _ b hb; exact absurd hb (List.not_mem_nil b)
  | cons a l ih =>
    intro p hw b hb
    obtain ⟨_, _, _, hnext⟩ := hw
    rcases List.mem_cons.mp hb with hba | hb'
    · refine ⟨l, ?_, by simp⟩
      rw [hba]; exact hnext
    · obtain ⟨l2, h2, hlen⟩ := ih _ hnext b hb'
      exact ⟨l2, h2, by simp; omega⟩

/-- The visited blocks have pairwise different headers: no allocation is met twice. -/
theorem Walk_headers_nodup (m : Memory) (l : List Nat) :
    ∀ p, Walk m p l → (l.map fun a => FMEM__GETHEADER (m.block a)).Nodup := by
  induction l with
  | nil => intro p _; exact List.nodup_nil
  | cons a l ih =>
    intro p hw
    obtain ⟨_, _, _, hnext⟩ := hw
    rw [List.map_cons, List.nodup_cons]
    refine ⟨?_, ih _ hnext⟩
    intro hmem
    obtain ⟨b, hb, hhdr⟩ := List.mem_map.mp hmem
    obtain ⟨l2, h2, hlen⟩ := Walk_from_mem m l _ hnext b hb
    have hnb : nextOf m b = nextOf m a := by
      unfold nextOf
      rw [hhdr]
    rw [hnb] at h2
    have := Walk_unique m l l2 _ hnext h2
    rw [this] at hlen
    exact absurd hlen (lt_irrefl _)

/-! ### Growth from a zeroed descriptor, and failure of the heap -/

/-- The call `fmemInit(block, fmemType_Growable, 0)` zeroes the descriptor and does nothing
else. -/
theorem fmemInit_growable_zero (m : Memory) (malloc : Nat → Nat) (block : Nat) (hb : block ≠ 0) :
    fmemInit m malloc block fmemType.Growable 0 = (true, m.setBlock block zeroBlock) := by
  unfold fmemInit
  simp [hb, zeroBlock, modifyBlock_eq]

/-- Growth on a head without storage, with the headers: the header of the new allocation is all
zero and no other header changes; the data bytes are unchanged before the code after `done`. -/
theorem fmemPush_materializes_head_header (fuel : Nat) (m : Memory) (malloc : Nat → Nat)
    (block size flags p : Nat) (hb : block ≠ 0) (hs : size ≠ 0)
    (hl : (m.block block).temporary = 0) (hty : (m.block block).type = fmemType.Growable)
    (hbase : (m.block block).base = 0)
    (hp : malloc (fmem__ComputeBlockSize size) = p) (hp0 : p ≠ 0)
    (hpr : p + 80 < 18446744073709551616) :
    ∃ m', fmemPush (fuel + 1) m malloc block size flags
        = some (fmemPush_done m' (p + 80) size flags)
      ∧ m'.block block =
          { source := 0, base := p + 80, temporary := 0,
            size := blockSize_minus_OFFSET_TO_DATA (fmem__ComputeBlockSize size),
            used := size, type := fmemType.Growable }
      ∧ (∀ a, a ≠ block → a ≠ p + 24 → m'.block a = m.block a)
      ∧ (∀ a, a ≠ p → m'.header a = m.header a)
      ∧ m'.header p = zeroHeader
      ∧ m'.byte = m.byte
      ∧ m'.mallocs = m.mallocs ++ [(fmem__ComputeBlockSize size, p)]
      ∧ m'.frees = m.frees := by
  have hg : ¬ (block = 0 ∨ size = 0) := by
    rintro (h | h)
    · exact hb h
    · exact hs h
  have hsearch : fmemPush_search m size (fuel + 1) block 0 = some 0 := by
    unfold fmemPush_search
    simp [hb, hbase]
  have halloc : fmem__AllocateBlock m malloc (fmem__ComputeBlockSize size) 0
      = (p, (({ m with mallocs := m.mallocs ++ [(fmem__ComputeBlockSize size, p)] }
            : Memory).setHeader p zeroHeader).setBlock (p + 24) zeroBlock) := by
    unfold fmem__AllocateBlock
    have e : add64 (fmem__ComputeBlockSize size) 0 = fmem__ComputeBlockSize size := by
      unfold add64 fmem__ComputeBlockSize mul64
      simp only []
      omega
    simp only [e, hp, hp0, if_false, FMEM__GETBLOCK_eq p (by omega)]
  unfold fmemPush
  simp only [hg, hl, hsearch, hty, hbase, halloc, hp0, ne_eq, not_true_eq_false,
    if_false, not_false_eq_true, if_true, modifyBlock_block_same,
    plus_OFFSET_TO_DATA_eq p hpr]
  refine ⟨_, rfl, ?_, ?_, ?_, ?_, ?_, ?_, ?_⟩
  · by_cases hal : block = p + 24
    · simp [hal, zeroBlock]
    · simp [setBlock_block_other _ _ _ _ hal, hl, hty]
  · intro a ha hap
    simp [modifyBlock_block_other _ _ _ _ ha, setBlock_block_other _ _ _ _ hap]
  · intro a ha
    simp [setHeader_header_other _ _ _ _ ha]
  · simp
  · simp
  · simp
  · simp

/-- After growth on a head without storage the head is a complete chain of one block. -/
theorem fmemPush_materializes_head_chain (fuel : Nat) (m : Memory) (malloc : Nat → Nat)
    (block size flags p : Nat) (hb : block ≠ 0) (hs : size ≠ 0)
    (hl : (m.block block).temporary = 0) (hty : (m.block block).type = fmemType.Growable)
    (hbase : (m.block block).base = 0)
    (hp : malloc (fmem__ComputeBlockSize size) = p) (hp0 : p ≠ 0)
    (hpr : p + 80 < 18446744073709551616) :
    ∃ m', fmemPush (fuel + 1) m malloc block size flags
        = some (fmemPush_done m' (p + 80) size flags)
      ∧ m'.block block =
          { source := 0, base := p + 80, temporary := 0,
            size := blockSize_minus_OFFSET_TO_DATA (fmem__ComputeBlockSize size),
            used := size, type := fmemType.Growable }
      ∧ Chain m' block [block]
      ∧ (∀ a, a ≠ block → a ≠ p + 24 → m'.block a = m.block a)
      ∧ (∀ a, a ≠ p → m'.header a = m.header a)
      ∧ m'.mallocs = m.mallocs ++ [(fmem__ComputeBlockSize size, p)]
      ∧ m'.frees = m.frees := by
  obtain ⟨m', h1, h2, h3, h4, h5, _, h7, h8⟩ :=
    fmemPush_materializes_head_header fuel m malloc block size flags p hb hs hl hty hbase hp hp0
      hpr
  refine ⟨m', h1, h2, ?_, h3, h4, h7, h8⟩
  have hnext : nextOf m' block = 0 := by
    unfold nextOf FMEM__GETHEADER
    rw [h2]
    have e : sub64 (p + 80) FMEM__OFFSET_TO_DATA = p := by
      unfold sub64 FMEM__OFFSET_TO_DATA sizeof_fmemBlockHeader sizeof_fmemMemoryBlock
        FMEM__HEADER_SPACING
      omega
    simp only [e, h5]
    rfl
  have hmat : Materialized (m'.block block) := by
    rw [h2]
    exact ⟨by simp, blockSize_minus_OFFSET_TO_DATA_ne_zero size⟩
  exact ⟨rfl, hb, hmat, hnext⟩

/-- A complete chain depends on the descriptors and the headers only. -/
theorem Chain_of_views (m m' : Memory) (hb : m'.block = m.block) (hh : m'.header = m.header)
    (l : List Nat) : ∀ p, Chain m p l → Chain m' p l := by
  induction l with
  | nil => intro p h; exact h
  | cons a l ih =>
    intro p h
    obtain ⟨h1, h2, h3, h4⟩ := h
    refine ⟨h1, h2, ?_, ?_⟩
    · rw [hb]; exact h3
    · have : nextOf m' a = nextOf m a := by
        unfold nextOf
        rw [hb, hh]
      rw [this]
      exact ih _ h4

/-- The header of a block whose data starts 80 bytes after the allocation `p`. -/
theorem FMEM__GETHEADER_eq (b : fmemMemoryBlock) (p : Nat) (hbase : b.base = p + 80)
    (hp : p + 80 < 18446744073709551616) : FMEM__GETHEADER b = p := by
  unfold FMEM__GETHEADER sub64 FMEM__OFFSET_TO_DATA sizeof_fmemBlockHeader
    sizeof_fmemMemoryBlock FMEM__HEADER_SPACING
  rw [hbase]
  omega

/-- A push whose result and memory come from the code after `done`: the descriptors, headers and
heap record are those of the memory before `done`. -/
theorem fmemPush_done_split (fuel : Nat) (m : Memory) (malloc : Nat → Nat)
    (block size flags r : Nat) (m' : Memory)
    (h : fmemPush fuel m malloc block size flags = some (fmemPush_done m' r size flags)) :
    ∃ mf, fmemPush fuel m malloc block size flags = some (r, mf)
      ∧ mf.block = m'.block ∧ mf.header = m'.header ∧ mf.mallocs = m'.mallocs
      ∧ mf.frees = m'.frees := by
  refine ⟨(fmemPush_done m' r size flags).2, ?_, fmemPush_done_block _ _ _ _,
    fmemPush_done_header _ _ _ _, fmemPush_done_mallocs _ _ _ _, fmemPush_done_frees _ _ _ _⟩
  rw [h]
  congr 1
  exact Prod.ext (fmemPush_done_fst _ _ _ _) rfl

/-- The failure path of `fmemPush`: when the search has selected no block of an unlocked Growable
arena, the tail search has ended, and the heap returns null for the new block, the push returns
null and only the record of the heap calls has changed. -/
theorem fmemPush_alloc_fail_path (fuel : Nat) (m : Memory) (malloc : Nat → Nat)
    (block size flags : Nat)
    (hb : block ≠ 0) (hs : size ≠ 0) (hl : (m.block block).temporary = 0)
    (hty : (m.block block).type = fmemType.Growable)
    (hsearch : fmemPush_search m size fuel block 0 = some 0)
    (htail : (m.block block).base ≠ 0 → ∃ t, fmemPush_tail m fuel block = some t)
    (hmalloc : malloc (fmem__ComputeBlockSize size) = 0) :
    fmemPush fuel m malloc block size flags
      = some (0, { m with mallocs := m.mallocs ++ [(fmem__ComputeBlockSize size, 0)] }) := by
  have hg : ¬ (block = 0 ∨ size = 0) := by
    rintro (h | h)
    · exact hb h
    · exact hs h
  have e : add64 (fmem__ComputeBlockSize size) 0 = fmem__ComputeBlockSize size := by
    unfold add64 fmem__ComputeBlockSize mul64
    simp only []
    omega
  have halloc : fmem__AllocateBlock m malloc (fmem__ComputeBlockSize size) 0
      = (0, { m with mallocs := m.mallocs ++ [(fmem__ComputeBlockSize size, 0)] }) := by
    rw [fmem__AllocateBlock_null m malloc _ 0 (by rw [e]; exact hmalloc), e]
  unfold fmemPush
  by_cases hbase : (m.block block).base = 0
  · simp only [hg, hl, hsearch, hty, hbase, halloc, ne_eq, not_true_eq_false,
      if_false, not_false_eq_true, if_true, fmemPush_done_zero]
  · obtain ⟨t, ht⟩ := htail hbase
    simp only [hg, hl, hsearch, hty, hbase, ht, halloc, ne_eq, not_true_eq_false,
      if_false, not_false_eq_true, if_true, fmemPush_done_zero]

/-! ### Block sizes -/

/-- Without overflow the computed block size is the least multiple of the granularity that is
strictly greater than the request (taken as at least the data offset); the data offset is not
added. -/
theorem fmem__ComputeBlockSize_eq (size : Nat) (h : size < 18446744073709547520) :
    fmem__ComputeBlockSize size = (max size 80 / 4096 + 1) * 4096 := by
  unfold fmem__ComputeBlockSize add64 mul64 FMEM__OFFSET_TO_DATA FMEM__MIN_BLOCKSIZE
    sizeof_fmemBlockHeader sizeof_fmemMemoryBlock FMEM__HEADER_SPACING
  simp only []
  split <;> omega

/-- Without overflow the computed block size holds the request plus the data offset exactly when
the request leaves at least 80 bytes in its last granule. -/
theorem fmem__ComputeBlockSize_holds_overhead_iff (size : Nat)
    (h : size < 18446744073709547520) :
    size + FMEM__OFFSET_TO_DATA ≤ fmem__ComputeBlockSize size ↔ size % 4096 ≤ 4016 := by
  rw [fmem__ComputeBlockSize_eq size h]
  unfold FMEM__OFFSET_TO_DATA sizeof_fmemBlockHeader sizeof_fmemMemoryBlock FMEM__HEADER_SPACING
  omega

/-- For every request the size recorded for a new block, plus the data offset, exceeds the number
of bytes asked from the heap for it. -/
theorem recorded_size_exceeds_request (size : Nat) :
    fmem__ComputeBlockSize size
      < FMEM__OFFSET_TO_DATA + blockSize_minus_OFFSET_TO_DATA (fmem__ComputeBlockSize size) := by
  unfold blockSize_minus_OFFSET_TO_DATA fmem__ComputeBlockSize add64 sub64 mul64
    FMEM__OFFSET_TO_DATA sizeof_fmemBlockHeader sizeof_fmemMemoryBlock FMEM__HEADER_SPACING
    FMEM__MIN_BLOCKSIZE
  simp only []
  omega

/-! ### Nested temporaries -/

/-- Nested temporaries when the traversal from the first temporary ends at once.  `A` is a single
block with free space, `T1` a temporary of `A` after a run of pushes into it that leaves it free
space, and the traversal from `T1` visits `T1` only: what the library reads as the header of `T1`
(at `T1.base - 80`, inside the memory of `A`) has a `next` that is null or not materialized.  Then
`fmemBeginTemporary(T1, T2)` succeeds with `T2.base = T1.base + T1.used` and
`T2.size = T1.size - T1.used`, `T1` is locked and every push into it returns null and changes
nothing; `fmemEndTemporary(T2)` restores `T1.used` and unlocks `T1`, and then
`fmemEndTemporary(T1)` restores `A.used` and unlocks `A`. -/
theorem nested_temporaries_single (fuel : Nat) (m m1 m2 : Memory) (A T1 T2 : Nat)
    (ops : List (Nat × (Nat → Nat) × Nat × Nat)) (rs : List Nat)
    (hAT1 : A ≠ T1) (hAT2 : A ≠ T2) (hT12 : T1 ≠ T2) (hT2 : T2 ≠ 0)
    (hwalk : Walk m A [A]) (hfuel : 1 < fuel)
    (hfree : (m.block A).used < (m.block A).size)
    (hsize : (m.block A).size < 18446744073709551616)
    (hbegin : fmemBeginTemporary fuel m A T1 = some (true, m1))
    (hops : ∀ op ∈ ops, op.1 = T1)
    (hrun : pushAll fuel m1 ops = some (rs, m2))
    (hfree1 : (m2.block T1).used < (m2.block T1).size)
    (hwalk1 : Walk m2 T1 [T1]) :
    ∃ m3, fmemBeginTemporary fuel m2 T1 T2 = some (true, m3)
      ∧ (m3.block T2).base = add64 (m2.block T1).base (m2.block T1).used
      ∧ (m3.block T2).size = (m2.block T1).size - (m2.block T1).used
      ∧ (m3.block T1).temporary = T2
      ∧ (∀ (malloc : Nat → Nat) (size flags : Nat),
          fmemPush fuel m3 malloc T1 size flags = some (0, m3))
      ∧ ((fmemEndTemporary m3 T2).block T1).used = (m2.block T1).used
      ∧ ((fmemEndTemporary m3 T2).block T1).temporary = 0
      ∧ ((fmemEndTemporary (fmemEndTemporary m3 T2) T1).block A).used = (m.block A).used
      ∧ ((fmemEndTemporary (fmemEndTemporary m3 T2) T1).block A).temporary = 0 := by
  have hf : fuel ≠ 0 := by omega
  -- the first Begin
  obtain ⟨hA0, hT1, _, r1, hr1, hr10, hm1⟩ :=
    fmemBeginTemporary_true fuel m A T1 m1 hAT1 hbegin
  have hr1' : r1 = (m.block A).size - (m.block A).used := by
    rw [fmemGetRemainingSize_walk fuel m A [A] hwalk (by simpa using hfuel)] at hr1
    have := Option.some.inj hr1
    simp only [List.map_cons, List.map_nil, List.sum_cons, List.sum_nil, Nat.add_zero] at this
    omega
  have hA1 : m1.block A = { m.block A with used := add64 (m.block A).used r1, temporary := T1 } := by
    rw [hm1, setBlock_block_same]
  have hT1b : m1.block T1 =
      { source := A, base := add64 (m.block A).base (m.block A).used, temporary := 0,
        size := r1, used := 0, type := fmemType.Temporary } := by
    rw [hm1, setBlock_block_other _ _ _ _ hAT1.symm, setBlock_block_same]
  -- the pushes into the first temporary
  obtain ⟨rs', m2', hrun', _, _, hother, hty, hsrc, hsz, htmp, _, _, _⟩ :=
    pushAll_during_temporary fuel hf A T1 hAT1 hT1 ops m1 (fun op hop => Or.inr (hops op hop))
      (by rw [hA1]; exact hT1) (by rw [hT1b]) (by rw [hT1b])
  rw [hrun] at hrun'
  obtain ⟨-, rfl⟩ := Prod.mk.inj (Option.some.inj hrun')
  rw [hT1b] at hty hsrc hsz htmp
  simp only [] at hty hsrc hsz htmp
  have hA2 : m2.block A = { m.block A with used := add64 (m.block A).used r1, temporary := T1 } := by
    rw [hother A hAT1, hA1]
  -- the second Begin
  have hrem : fmemGetRemainingSize fuel m2 T1
      = some ((m2.block T1).size - (m2.block T1).used) := by
    rw [fmemGetRemainingSize_walk fuel m2 T1 [T1] hwalk1 (by simpa using hfuel)]
    simp only [List.map_cons, List.map_nil, List.sum_cons, List.sum_nil, Nat.add_zero]
    rw [Nat.mod_eq_of_lt (by omega)]
  have hmat1 : Materialized (m2.block T1) := hwalk1.2.2.1
  have h0 : ¬ (T1 = 0 ∨ T2 = 0) := by
    rintro (h | h)
    · exact hT1 h
    · exact hT2 h
  have hg1 : ¬ ((m2.block T1).base = 0 ∨ (m2.block T1).size = 0) := by
    rintro (h | h)
    · exact hmat1.1 h
    · exact hmat1.2 h
  have hr2 : (m2.block T1).size - (m2.block T1).used ≠ 0 := by omega
  have hbegin2 : ∃ m3, fmemBeginTemporary fuel m2 T1 T2 = some (true, m3) := by
    unfold fmemBeginTemporary
    rw [if_neg h0, if_neg hg1, hrem]
    simp only [hr2, if_false]
    exact ⟨_, rfl⟩
  obtain ⟨m3, hb2⟩ := hbegin2
  obtain ⟨_, _, _, r2, hr2a, _, hm3⟩ := fmemBeginTemporary_true fuel m2 T1 T2 m3 hT12 hb2
  rw [hrem] at hr2a
  have hr2b : r2 = (m2.block T1).size - (m2.block T1).used := (Option.some.inj hr2a).symm
  have hT2b : m3.block T2 =
      { source := T1, base := add64 (m2.block T1).base (m2.block T1).used, temporary := 0,
        size := r2, used := 0, type := fmemType.Temporary } := by
    rw [hm3, setBlock_block_other _ _ _ _ hT12.symm, setBlock_block_same]
  have hT1c : m3.block T1
      = { m2.block T1 with used := add64 (m2.block T1).used r2, temporary := T2 } := by
    rw [hm3, setBlock_block_same]
  have hA3 : m3.block A = m2.block A := by
    rw [hm3, setBlock_block_other _ _ _ _ hAT1, setBlock_block_other _ _ _ _ hAT2]
  -- the first End
  have hE2 := fmemEndTemporary_active m3 T2 hT2 (by rw [hT2b]) (by rw [hT2b]; exact hT1)
    (by rw [hT2b]; simp only; omega) (by rw [hT2b]; exact hT12)
  rw [hT2b] at hE2
  simp only [] at hE2
  have hT1d : (fmemEndTemporary m3 T2).block T1
      = { m3.block T1 with temporary := 0, used := sub64 (m3.block T1).used r2 } := by
    rw [hE2, setBlock_block_other _ _ _ _ hT12, setBlock_block_same]
  have hA4 : (fmemEndTemporary m3 T2).block A = m2.block A := by
    rw [hE2, setBlock_block_other _ _ _ _ hAT2, setBlock_block_other _ _ _ _ hAT1, hA3]
  -- the second End
  have hE1 := fmemEndTemporary_active (fmemEndTemporary m3 T2) T1 hT1
    (by rw [hT1d, hT1c]; exact hty) (by rw [hT1d, hT1c]; simp only; rw [hsrc]; exact hA0)
    (by rw [hT1d, hT1c]; simp only; rw [hsz]; exact hr10)
    (by rw [hT1d, hT1c]; simp only; rw [hsrc]; exact hAT1)
  have hsrc4 : ((fmemEndTemporary m3 T2).block T1).source = A := by
    rw [hT1d, hT1c]; exact hsrc
  have hsz4 : ((fmemEndTemporary m3 T2).block T1).size = r1 := by
    rw [hT1d, hT1c]; exact hsz
  rw [hsrc4, hsz4, hA4, hA2] at hE1
  have hused2 : (m2.block T1).used < 18446744073709551616 := by omega
  refine ⟨m3, hb2, ?_, ?_, ?_, ?_, ?_, ?_, ?_, ?_⟩
  · rw [hT2b]
  · rw [hT2b]; exact hr2b
  · rw [hT1c]
  · intro malloc size flags
    unfold fmemPush
    by_cases hz : T1 = 0 ∨ size = 0
    · rw [if_pos hz]
    · have hlk : (m3.block T1).temporary ≠ 0 := by rw [hT1c]; exact hT2
      rw [if_neg hz, if_pos hlk]
  · rw [hT1d, hT1c]
    exact sub64_add64 _ _ hused2
  · rw [hT1d]
  · rw [hE1, setBlock_block_other _ _ _ _ hAT1, setBlock_block_same]
    exact sub64_add64 _ _ (by omega)
  · rw [hE1, setBlock_block_other _ _ _ _ hAT1, setBlock_block_same]

/-! ### Runs of pushes without the clear flag -/

/-- Without the clear flag the code after `done` returns the result and the memory as they are. -/
theorem fmemPush_done_no_clear (m : Memory) (r size flags : Nat)
    (h : flags &&& fmemPushFlags_Clear = 0) : fmemPush_done m r size flags = (r, m) := by
  unfold fmemPush_done
  by_cases hr : r = 0
  · simp [hr]
  · simp [hr, h]

/-- Without the clear flag `fmemPush_flat` is `fmemPush`: the two differ in the clear step only. -/
theorem fmemPush_flat_no_clear (fuel : Nat) (m : Memory) (malloc : Nat → Nat)
    (block size flags : Nat) (h : flags &&& fmemPushFlags_Clear = 0) :
    fmemPush_flat fuel m malloc block size flags = fmemPush fuel m malloc block size flags := by
  have h0 : fmemPushFlags_None &&& fmemPushFlags_Clear = 0 := by decide
  have hd : ∀ (r : Nat × Memory), fmemPush_done_flat r.2 r.1 size flags = r := by
    intro r
    unfold fmemPush_done_flat
    by_cases hr : r.1 = 0
    · rw [if_neg (fun hc => hc hr)]
    · rw [if_pos hr, if_neg (fun hc => hc h)]
  have e : fmemPush fuel m malloc block size fmemPushFlags_None
      = fmemPush fuel m malloc block size flags := by
    unfold fmemPush
    simp only [fmemPush_done_no_clear _ _ _ _ h, fmemPush_done_no_clear _ _ _ _ h0]
  unfold fmemPush_flat
  rw [e]
  cases fmemPush fuel m malloc block size flags with
  | none => rfl
  | some r => simp [hd r]

/-- A run of pushes none of which has the clear flag changes no data byte. -/
theorem pushAll_byte_no_clear (fuel : Nat) (ops : List (Nat × (Nat → Nat) × Nat × Nat)) :
    ∀ (m : Memory) (rs : List Nat) (m2 : Memory),
      (∀ op ∈ ops, op.2.2.2 &&& fmemPushFlags_Clear = 0) →
      pushAll fuel m ops = some (rs, m2) → m2.byte = m.byte := by
  induction ops with
  | nil =>
    intro m rs m2 _ h
    simp only [pushAll, Option.some.injEq, Prod.mk.injEq] at h
    rw [← h.2]
  | cons op ops ih =>
    intro m rs m2 hno h
    unfold pushAll at h
    split at h
    · simp at h
    · rename_i r hpush
      split at h
      · simp at h
      · rename_i rest hrest
        simp only [Option.some.injEq, Prod.mk.injEq] at h
        have h1 := fmemPush_byte fuel m op.2.1 op.1 op.2.2.1 op.2.2.2 r.1 r.2 hpush
        rw [fmemPush_done_byte] at h1
        have hflag := hno op (List.mem_cons_self _ _)
        have hc : ¬ (r.1 ≠ 0 ∧ op.2.2.2 &&& fmemPushFlags_Clear ≠ 0) := fun hc => hc.2 hflag
        rw [if_neg hc] at h1
        have h2 := ih r.2 rest.1 rest.2 (fun o ho => hno o (List.mem_cons_of_mem _ ho)) hrest
        rw [← h.2, h2, h1]

/-- Temporary round trip without clearing pushes: when `fmemBeginTemporary(A, T)` succeeds (`T` is
not one of the blocks of the chain of `A`, and `A.used` is a `size_t` value), then after every run
of pushes on `T` none of which has the clear flag (the library then writes no data byte) and
`fmemEndTemporary(T)`, `fmemGetRemainingSize(A)` returns the value it returned before the Begin,
`A.used` is its value before the Begin, and `A.temporary` is null. -/
theorem temporary_round_trip_no_clear (fuel : Nat) (m : Memory) (source temporary : Nat) (l : List Nat)
    (m1 : Memory) (ops : List (Nat × (Nat → Nat) × Nat × Nat))
    (hwalk : Walk m source l) (hfuel : l.length < fuel) (hnot : temporary ∉ l)
    (hused : (m.block source).used < 18446744073709551616)
    (hbegin : fmemBeginTemporary fuel m source temporary = some (true, m1))
    (hops : ∀ op ∈ ops, op.1 = temporary)
    (hnoclear : ∀ op ∈ ops, op.2.2.2 &&& fmemPushFlags_Clear = 0) :
    ∃ rs m2 r, pushAll fuel m1 ops = some (rs, m2)
      ∧ fmemGetRemainingSize fuel m source = some r
      ∧ fmemGetRemainingSize fuel (fmemEndTemporary m2 temporary) source = some r
      ∧ ((fmemEndTemporary m2 temporary).block source).used = (m.block source).used
      ∧ ((fmemEndTemporary m2 temporary).block source).temporary = 0
      ∧ m2.byte = m1.byte := by
  -- the source is the first visited block, so it differs from the temporary
  have hne : source ≠ temporary := by
    cases l with
    | nil =>
      exfalso
      unfold fmemBeginTemporary at hbegin
      rcases hwalk with h | h
      · simp [h] at hbegin
      · have : (m.block source).base = 0 ∨ (m.block source).size = 0 := by
          unfold Materialized at h
          by_contra hc
          exact h ⟨fun h1 => hc (Or.inl h1), fun h2 => hc (Or.inr h2)⟩
        simp [this] at hbegin
    | cons a l =>
      obtain ⟨rfl, _⟩ := hwalk
      intro h
      exact hnot (h ▸ List.mem_cons_self _ _)
  obtain ⟨hs0, ht0, _, r, hr, hr0, hm1⟩ :=
    fmemBeginTemporary_true fuel m source temporary m1 hne hbegin
  have hf : fuel ≠ 0 := fuel_ne_zero_of_remaining fuel m source r hs0 hr
  have hS : m1.block source =
      { m.block source with used := add64 (m.block source).used r, temporary := temporary } := by
    rw [hm1]; simp
  have hT : m1.block temporary =
      { source := source, base := add64 (m.block source).base (m.block source).used,
        temporary := 0, size := r, used := 0, type := fmemType.Temporary } := by
    rw [hm1, setBlock_block_other _ _ _ _ hne.symm]; simp
  have hO : ∀ a, a ≠ source → a ≠ temporary → m1.block a = m.block a := by
    intro a ha hat
    rw [hm1, setBlock_block_other _ _ _ _ ha, setBlock_block_other _ _ _ _ hat]
  have hH : m1.header = m.header := by rw [hm1]; rfl
  obtain ⟨rs, m2, hrun, _, hh, hb, h1, h2, h3, _, _, _, _⟩ :=
    pushAll_during_temporary fuel hf source temporary hne ht0 ops m1
      (fun op hop => Or.inr (hops op hop))
      (by rw [hS]; exact ht0) (by rw [hT]) (by rw [hT])
  have e2 : (m2.block temporary).source = source := by rw [h2, hT]
  have e3 : (m2.block temporary).size = r := by rw [h3, hT]
  have e1 : (m2.block temporary).type = fmemType.Temporary := by rw [h1, hT]
  have hend := fmemEndTemporary_active m2 temporary ht0 e1 (by rw [e2]; exact hs0)
      (by rw [e3]; exact hr0) (by rw [e2]; exact hne)
  rw [e2, e3, hb source hne, hS] at hend
  simp only [sub64_add64 _ _ hused] at hend
  -- the blocks after End
  have hEs : (fmemEndTemporary m2 temporary).block source
      = { m.block source with temporary := 0 } := by
    rw [hend, setBlock_block_other _ _ _ _ hne]; simp
  have hEt : (fmemEndTemporary m2 temporary).block temporary = zeroBlock := by
    rw [hend]; simp
  have hEo : ∀ a, a ≠ source → a ≠ temporary →
      (fmemEndTemporary m2 temporary).block a = m.block a := by
    intro a ha hat
    rw [hend, setBlock_block_other _ _ _ _ hat, setBlock_block_other _ _ _ _ ha, hb a hat,
      hO a ha hat]
  have hEh : (fmemEndTemporary m2 temporary).header = m.header := by
    rw [hend]; simp [hh, hH]
  have hfields : ∀ a, a ≠ temporary →
      ((fmemEndTemporary m2 temporary).block a).base = (m.block a).base
      ∧ ((fmemEndTemporary m2 temporary).block a).size = (m.block a).size
      ∧ ((fmemEndTemporary m2 temporary).block a).used = (m.block a).used := by
    intro a hat
    by_cases ha : a = source
    · subst ha; rw [hEs]; exact ⟨rfl, rfl, rfl⟩
    · rw [hEo a ha hat]; exact ⟨rfl, rfl, rfl⟩
  have hwalk2 : Walk (fmemEndTemporary m2 temporary) source l := by
    refine Walk_congr m _ hEh ?_ l source hwalk ?_
    · intro a hmat
      by_cases hat : a = temporary
      · subst hat; rw [hEt]; simp [Materialized, zeroBlock]
      · unfold Materialized at *
        rw [(hfields a hat).1, (hfields a hat).2.1]; exact hmat
    · intro a ha
      have hat : a ≠ temporary := fun h => hnot (h ▸ ha)
      exact ⟨(hfields a hat).1, (hfields a hat).2.1⟩
  refine ⟨rs, m2, r, hrun, hr, ?_, ?_, ?_, pushAll_byte_no_clear fuel ops m1 rs m2 hnoclear hrun⟩
  · have hbefore := fmemGetRemainingSize_loop_walk m l fuel source 0 hwalk hfuel
    have hafter := fmemGetRemainingSize_loop_walk _ l fuel source 0 hwalk2 hfuel
    unfold fmemGetRemainingSize at hr ⊢
    rw [if_neg hs0] at hr ⊢
    rw [hafter, ← hr, hbefore]
    congr 1
    apply List.foldl_ext
    intro acc a ha
    have hat : a ≠ temporary := fun h => hnot (h ▸ ha)
    unfold fmem__GetSpaceAvailableFor
    rw [(hfields a hat).2.1, (hfields a hat).2.2]
  · rw [hEs]
  · rw [hEs]

/-- The guard of `fmemPushBlock` on `dst`: with a null `dst` the function returns false and
changes nothing, without calling `fmemPush`. -/
theorem fmemPushBlock_null_dst (fuel : Nat) (m : Memory) (malloc : Nat → Nat)
    (src size flags : Nat) :
    fmemPushBlock fuel m malloc src 0 size flags = some (false, m) := by
  unfold fmemPushBlock
  rw [if_pos (Or.inr (Or.inl rfl))]

/-! ## The claims -/

/-- C1, evaluated at a failing input.  On the fixed arena of 100 bytes with `used = 0`, the pushes
of sizes 5 and `2^64 - 1` both succeed and land in the one block (results `base` and `base + 5`),
and afterwards `used` is 4, not the sum `5 + (2^64 - 1)` of the sizes: the fit test
`used + size <= size` wraps around. -/
theorem stack_discipline_wraps :
    (pushAll 1 fixedArena100
        [(64, fun _ => 0, 5, fmemPushFlags_None),
         (64, fun _ => 0, 18446744073709551615, fmemPushFlags_None)]).map
      (fun r => (r.1, (r.2.block 64).base, (r.2.block 64).size, (r.2.block 64).used))
      = some ([4176, 4181], 4176, 100, 4) := by
  decide

/-- C2. Best-fit selection.  Let `l` be the blocks the search visits from `block`: all
materialized, all Growable, each with `used <= size`, their sizes together below `2^64` (as in
every chain that fits a 64-bit address space), the head unlocked.  For every request `size > 0`
that fits at least one of them, `fmemPush` serves the request from a block `a` of `l` that fits
(result `a.base + a.used`, `a.used` bumped by `size`, nothing else changed before the clear step);
the leftover `a.size - a.used - size` is maximal among the fitting blocks and strictly larger than
the leftover of every fitting block earlier in the chain.  For a chain of two blocks that both fit,
the block with the larger remaining capacity is chosen. -/
theorem fmemPush_best_fit (fuel : Nat) (m : Memory) (malloc : Nat → Nat)
    (block size flags : Nat) (l : List Nat)
    (hwalk : Walk m block l) (hfuel : l.length < fuel)
    (hgrow : ∀ a ∈ l, (m.block a).type = fmemType.Growable)
    (hunlocked : (m.block block).temporary = 0)
    (hused : ∀ a ∈ l, (m.block a).used ≤ (m.block a).size)
    (htotal : (l.map (fun a => (m.block a).size)).sum < 18446744073709551616)
    (hsize : 0 < size)
    (hfit : ∃ a ∈ l, (m.block a).used + size ≤ (m.block a).size) :
    ∃ pre a post, l = pre ++ a :: post
      ∧ (m.block a).used + size ≤ (m.block a).size
      ∧ (∀ b ∈ l, (m.block b).used + size ≤ (m.block b).size →
          (m.block b).size - (m.block b).used - size ≤ (m.block a).size - (m.block a).used - size)
      ∧ (∀ b ∈ pre, (m.block b).used + size ≤ (m.block b).size →
          (m.block b).size - (m.block b).used - size < (m.block a).size - (m.block a).used - size)
      ∧ fmemPush fuel m malloc block size flags =
          some (fmemPush_done
            (m.setBlock a { m.block a with used := (m.block a).used + size })
            (add64 (m.block a).base (m.block a).used) size flags)
      ∧ (∀ b c, l = [b, c] → (m.block b).used + size ≤ (m.block b).size →
          (m.block c).used + size ≤ (m.block c).size →
          ((m.block b).size - (m.block b).used < (m.block c).size - (m.block c).used → a = c)
          ∧ ((m.block c).size - (m.block c).used < (m.block b).size - (m.block b).used → a = b))
    := by
  have hnz := Walk_ne_zero m l block hwalk
  have hmat := Walk_materialized m l block hwalk
  obtain ⟨c, hcl, hcfit⟩ := hfit
  -- sizes are `size_t` values and the fit test does not wrap around
  have hszlt : ∀ b ∈ l, (m.block b).size < 18446744073709551616 := fun b hb =>
    lt_of_le_of_lt (le_sum_of_mem (fun a => (m.block a).size) l b hb) htotal
  have hnowrap : ∀ b ∈ l, (m.block b).used + size < 18446744073709551616 := by
    intro b hb
    by_cases hbc : b = c
    · subst hbc; have := hszlt b hb; omega
    · have h2 := add_le_sum_of_mem (fun a => (m.block a).size) l b hb c hcl hbc
      have h3 := hused b hb
      simp only at h2
      omega
  have hfit_iff : ∀ b ∈ l, (add64 (m.block b).used size ≤ (m.block b).size
      ↔ (m.block b).used + size ≤ (m.block b).size) := by
    intro b hb
    rw [add64_eq _ _ (hnowrap b hb)]
  have hsc : ∀ b ∈ l, (m.block b).used + size ≤ (m.block b).size →
      fmem__GetSpaceAvailableFor (m.block b) size
        = (m.block b).size - (m.block b).used - size := fun b hb hf =>
    fmem__GetSpaceAvailableFor_eq _ _ (hszlt b hb) hf (hmat b hb).2
  -- the block is non-null: the traversal is not empty
  have hblock : block ≠ 0 := by
    cases l with
    | nil => exact absurd hcl (List.not_mem_nil c)
    | cons x l => obtain ⟨rfl, hx, _⟩ := hwalk; exact hx
  have hsearch := fmemPush_search_walk m size l fuel block 0 hwalk hgrow hfuel
  rcases searchFold_spec m size l 0 hnz with ⟨_, hnone, _⟩
      | ⟨pre, a, post, hl, hres, hfa, _, hpre, hpost⟩
  · exact absurd ((hfit_iff c hcl).mpr hcfit) (hnone rfl c hcl)
  · have hal : a ∈ l := by rw [hl]; simp
    have ha0 : a ≠ 0 := hnz a hal
    have hfa' := (hfit_iff a hal).mp hfa
    have hpre' : ∀ b ∈ pre, (m.block b).used + size ≤ (m.block b).size →
        (m.block b).size - (m.block b).used - size
          < (m.block a).size - (m.block a).used - size := by
      intro b hb hf
      have hbl : b ∈ l := by rw [hl]; simp [hb]
      have := hpre b hb ((hfit_iff b hbl).mpr hf)
      rwa [hsc b hbl hf, hsc a hal hfa'] at this
    have hpost' : ∀ b ∈ post, (m.block b).used + size ≤ (m.block b).size →
        (m.block b).size - (m.block b).used - size
          ≤ (m.block a).size - (m.block a).used - size := by
      intro b hb hf
      have hbl : b ∈ l := by rw [hl]; simp [hb]
      have := hpost b hb ((hfit_iff b hbl).mpr hf)
      rwa [hsc b hbl hf, hsc a hal hfa'] at this
    have hmax : ∀ b ∈ l, (m.block b).used + size ≤ (m.block b).size →
        (m.block b).size - (m.block b).used - size
          ≤ (m.block a).size - (m.block a).used - size := by
      intro b hb hf
      rw [hl] at hb
      rcases List.mem_append.mp hb with h | h
      · exact le_of_lt (hpre' b h hf)
      · rcases List.mem_cons.mp h with rfl | h'
        · exact le_refl _
        · exact hpost' b h' hf
    refine ⟨pre, a, post, hl, hfa', hmax, hpre', ?_, ?_⟩
    · unfold fmemPush
      have hg : ¬ (block = 0 ∨ size = 0) := by
        rintro (h | h)
        · exact hblock h
        · omega
      rw [if_neg hg, if_neg (by simpa using hunlocked), hsearch, hres]
      simp only [ha0, ne_eq, not_false_eq_true, if_true]
      rw [modifyBlock_eq, add64_eq _ _ (hnowrap a hal)]
    · intro b c' hbc hfb hfc
      have hbl : b ∈ l := by rw [hbc]; simp
      have hcl' : c' ∈ l := by rw [hbc]; simp
      have h1 := hmax b hbl hfb
      have h2 := hmax c' hcl' hfc
      rw [hbc] at hl
      cases pre with
      | nil =>
        simp only [List.nil_append, List.cons.injEq] at hl
        obtain ⟨rfl, _⟩ := hl
        exact ⟨fun h => by omega, fun _ => rfl⟩
      | cons y pre =>
        cases pre with
        | nil =>
          simp only [List.cons_append, List.nil_append, List.cons.injEq] at hl
          obtain ⟨rfl, rfl, _⟩ := hl
          have h3 := hpre' b (by simp) hfb
          exact ⟨fun _ => rfl, fun h => by omega⟩
        | cons z pre =>
          simp at hl

/-- C3, evaluated at a failing input.  On a zeroed (Growable, not materialized) descriptor,
`fmemPush` of `2^64 - 1` bytes with a heap that serves the request: `fmem__ComputeBlockSize` wraps
around to 0, so `malloc(0)` is called, the push succeeds with the new storage installed in the
head, and the recorded size is 48, less than the requested size. -/
theorem growth_block_size_wraps :
    fmem__ComputeBlockSize 18446744073709551615 = 0
      ∧ (fmemPush 1 emptyMemory (fun _ => 4096) 64 18446744073709551615 fmemPushFlags_None).map
          (fun r => (r.1, r.2.block 64, r.2.mallocs))
        = some (4176, { source := 0, base := 4176, temporary := 0, size := 48,
                        used := 18446744073709551615, type := fmemType.Growable }, [(0, 4096)]) := by
  decide

/-- C4, evaluated at a failing input.  On the fixed arena of 100 bytes, after a push of 10 bytes
(`used = 10`), the push of `2^64 - 5` bytes, more than the capacity of the arena, does not fail: it
returns `base + 10` and sets `used` to 5. -/
theorem fixed_exhaustion_wraps :
    (pushAll 1 fixedArena100
        [(64, fun _ => 0, 10, fmemPushFlags_None),
         (64, fun _ => 0, 18446744073709551611, fmemPushFlags_None)]).map
      (fun r => (r.1, (r.2.block 64).size, (r.2.block 64).used, (r.2.block 64).type))
      = some ([4176, 4186], 100, 5, fmemType.Fixed) := by
  decide

/-- C6, evaluated at a failing input.  The source is the head of a chain of two blocks whose
allocations are next to each other (the 96 bytes at 4096, then the second block with its header
at 4208 and its descriptor at 4232); `fmemGetRemainingSize` of it is 1160.  `fmemBeginTemporary`
succeeds with `T.base = 4176` and `T.size = 1160` (16 bytes free in the head and 1144 in the second
block), so `T` reaches over the header and the descriptor of the second block.  The push of 1160
bytes into `T` with `fmemPushFlags_Clear` succeeds and zeroes `[4176, 5336)`, the header and the
descriptor of the second block included.  After `fmemEndTemporary(T)` the source has `used = 0`
and is unlocked, but `fmemGetRemainingSize` of it is 16, not 1160: the second block is no longer
materialized. -/
theorem temporary_round_trip_broken_by_clear :
    (fmemGetRemainingSize 3 adjacentArena 64, nextOf adjacentArena 64,
        (adjacentArena.block 4232).base, (adjacentArena.block 4232).size)
      = (some 1160, 4232, 4288, 4144)
    ∧ ((fmemBeginTemporary 3 adjacentArena 64 128).bind fun r1 =>
        (fmemPush_flat 1 r1.2 (fun _ => 0) 128 1160 fmemPushFlags_Clear).map fun r2 =>
          ((r1.1, (r1.2.block 128).base, (r1.2.block 128).size), r2.1,
            r2.2.block 4232, r2.2.header 4208))
      = some ((true, 4176, 1160), 4176, zeroBlock, zeroHeader)
    ∧ ((fmemBeginTemporary 3 adjacentArena 64 128).bind fun r1 =>
        (fmemPush_flat 1 r1.2 (fun _ => 0) 128 1160 fmemPushFlags_Clear).bind fun r2 =>
          (fmemGetRemainingSize 3 (fmemEndTemporary r2.2 128) 64).map fun r3 =>
            (((fmemEndTemporary r2.2 128).block 64).used,
              ((fmemEndTemporary r2.2 128).block 64).temporary, r3))
      = some (0, 0, 16) := by
  refine ⟨by decide, by decide, by decide⟩

/-- C7. Effect of a successful `fmemBeginTemporary(source, T)` on `T` (two distinct descriptors):
`T.base` is the write position `source.base + source.used` of the source before the call (pointer
arithmetic), `T.size` is the value `fmemGetRemainingSize(source)` has before the call, `T.used` is
0, `T.type` is Temporary, `T.source` is `source` and `T.temporary` is null. -/
theorem fmemBeginTemporary_effect (fuel : Nat) (m : Memory) (source temporary : Nat)
    (m' : Memory) (hne : source ≠ temporary)
    (hbegin : fmemBeginTemporary fuel m source temporary = some (true, m')) :
    (m'.block temporary).base = add64 (m.block source).base (m.block source).used
      ∧ fmemGetRemainingSize fuel m source = some (m'.block temporary).size
      ∧ (m'.block temporary).used = 0
      ∧ (m'.block temporary).type = fmemType.Temporary
      ∧ (m'.block temporary).source = source
      ∧ (m'.block temporary).temporary = 0 := by
  obtain ⟨_, _, _, r, hr, _, rfl⟩ :=
    fmemBeginTemporary_true fuel m source temporary m' hne hbegin
  simp [setBlock_block_other _ _ _ _ hne.symm, hr]

/-- C8, evaluated at a failing input.  The source is the head of a chain of two blocks with free
space (16 bytes free in the head, 1144 in the second block) and has `used = 0 <= size = 16`.
`fmemBeginTemporary` succeeds and locks the source, and leaves it with `used = 1160` and
`size = 16`: the condition of the assertion at the end of `fmemBeginTemporary` is false, and so is
the `used == size` condition asserted by `fmemEndTemporary`. -/
theorem fmemBeginTemporary_chain_not_full :
    fmemGetRemainingSize 3 twoBlockArena 64 = some 1160
      ∧ (fmemBeginTemporary 3 twoBlockArena 64 128).map (fun r => (r.1, r.2.block 64))
        = some (true, { source := 0, base := 4176, temporary := 128, size := 16, used := 1160,
                        type := fmemType.Growable })
      ∧ (∀ m', fmemBeginTemporary 3 twoBlockArena 64 128 = some (true, m') →
          ¬ fmemBeginTemporary_assert m' 64 ∧ ¬ fmemEndTemporary_asserts m' 128) := by
  refine ⟨by decide, by decide, ?_⟩
  intro m' h
  obtain ⟨_, _, _, r, hr, _, rfl⟩ :=
    fmemBeginTemporary_true 3 twoBlockArena 64 128 m' (by decide) h
  have hr' : fmemGetRemainingSize 3 twoBlockArena 64 = some 1160 := by decide
  rw [hr'] at hr
  obtain rfl : 1160 = r := Option.some.inj hr
  have hb : twoBlockArena.block 64 =
      { source := 0, base := 4176, temporary := 0, size := 16, used := 0,
        type := fmemType.Growable } := by decide
  constructor
  · unfold fmemBeginTemporary_assert
    rw [setBlock_block_same, hb]
    decide
  · unfold fmemEndTemporary_asserts
    rw [setBlock_block_other _ _ _ _ (by decide : (128 : Nat) ≠ 64), setBlock_block_same]
    simp only [setBlock_block_same, hb]
    decide

/-- C9. Zero-size reject: `fmemPush(arena, 0, flags)` returns null for every memory state, every
block pointer and every flags value, whatever the fuel; the memory afterwards is the memory before,
so no field of any block changes and no heap call is recorded. -/
theorem fmemPush_zero_size (fuel : Nat) (m : Memory) (malloc : Nat → Nat) (block flags : Nat) :
    fmemPush fuel m malloc block 0 flags = some (0, m) := by
  simp [fmemPush]

/-- C10. Clear flag: after a successful `fmemPush(arena, size, flags)` with `fmemPushFlags_Clear`
set, every byte of the returned region `[result, result + size)` is zero, whatever it held before,
and every byte outside the returned region is unchanged. -/
theorem fmemPush_clear (fuel : Nat) (m : Memory) (malloc : Nat → Nat)
    (block size flags result : Nat) (m' : Memory)
    (hpush : fmemPush fuel m malloc block size flags = some (result, m'))
    (hresult : result ≠ 0) (hclear : flags &&& fmemPushFlags_Clear ≠ 0) :
    (∀ a, result ≤ a → a < result + size → m'.byte a = 0)
      ∧ (∀ a, ¬ (result ≤ a ∧ a < result + size) → m'.byte a = m.byte a) := by
  have hb := fmemPush_byte fuel m malloc block size flags result m' hpush
  rw [fmemPush_done_byte, if_pos ⟨hresult, hclear⟩] at hb
  constructor
  · intro a h1 h2
    rw [hb]; simp [h1, h2]
  · intro a h
    rw [hb]; simp only [h, if_false]

/-- C11. Ownership on free.  In every call `fmemFree(block)`, each header handed to the heap
deallocator is the header of a non-null materialized block, met by the loop, whose `source` is
null, and the data bytes and the record of heap allocations are unchanged.  When the `source` of `block` is non-null (a sub-block, a temporary,
an arena over caller-owned memory), `fmemFree(block)` returns and hands nothing to the deallocator
and leaves every data byte as it was. -/
theorem fmemFree_ownership (fuel : Nat) (m : Memory) (block : Nat) :
    (∀ m', fmemFree fuel m block = some m' →
        m'.byte = m.byte ∧ m'.mallocs = m.mallocs
          ∧ ∃ freed, m'.frees = m.frees ++ freed
            ∧ ∀ h ∈ freed, ∃ a, a ≠ 0 ∧ Materialized (m.block a) ∧ (m.block a).source = 0
                ∧ h = FMEM__GETHEADER (m.block a))
      ∧ ((m.block block).source ≠ 0 →
          ∃ m', fmemFree (fuel + 1) m block = some m' ∧ m'.frees = m.frees ∧ m'.byte = m.byte
            ∧ m'.mallocs = m.mallocs) := by
  constructor
  · intro m' h
    unfold fmemFree at h
    split at h
    · split at h
      · simp at h
      · rename_i m1 hloop
        obtain rfl := Option.some.inj h
        obtain ⟨_, _, h3, h4, freed, h5, h6⟩ := fmemFree_loop_spec fuel m block m1 hloop
        exact ⟨by simp [h3], by simp [h4], freed, by simp [h5], h6⟩
    · obtain rfl := Option.some.inj h
      exact ⟨rfl, rfl, [], by simp, fun h hh => absurd hh (List.not_mem_nil h)⟩
  · intro hsrc
    unfold fmemFree
    by_cases hc : block ≠ 0 ∧ (m.block block).temporary = 0
    · rw [if_pos hc]
      have hloop : fmemFree_loop (fuel + 1) m block = some m := by
        unfold fmemFree_loop
        simp [hc.1, hsrc]
      rw [hloop]
      exact ⟨_, rfl, rfl, rfl, rfl⟩
    · rw [if_neg hc]
      exact ⟨m, rfl, rfl, rfl, rfl⟩

/-- C12, evaluated at a failing input.  After `fmemInit(&arena, fmemType_Growable, 16)`,
`fmemPush(&arena, 3000, 0)` (which appends a second block with 1144 bytes free) and a successful
`fmemBeginTemporary(&arena, &temp)`, the head block has `used = 1160` and `size = 16`:
`used <= size` does not hold. -/
theorem used_le_size_broken_by_temporary :
    ((fmemPush 2 (fmemInit emptyMemory (fun _ => 4096) 64 fmemType.Growable 16).2
        (fun _ => 8192) 64 3000 fmemPushFlags_None).bind fun r1 =>
      (fmemBeginTemporary 3 r1.2 64 128).map fun r2 =>
        (r1.1, r2.1, (r2.2.block 64).used, (r2.2.block 64).size,
          decide ((r2.2.block 64).used ≤ (r2.2.block 64).size)))
      = some (8272, true, 1160, 16, false) := by
  decide

/-- C13. On a non-null block `fmemInit` returns failure exactly when the type is Fixed and the
size is 0, or the size is positive and the heap returns null for the request; in the first case
the memory (the descriptor included) is unchanged; `fmemInit(block, fmemType_Growable, 0)` returns
true and makes no heap call. -/
theorem fmemInit_failure_iff (m : Memory) (malloc : Nat → Nat) (block : Nat) (type : fmemType)
    (size : Nat) (hb : block ≠ 0) :
    ((fmemInit m malloc block type size).1 = false
        ↔ (type = fmemType.Fixed ∧ size = 0)
          ∨ (0 < size ∧ malloc (add64 size FMEM__OFFSET_TO_DATA) = 0))
      ∧ (type = fmemType.Fixed → size = 0 → fmemInit m malloc block type size = (false, m))
      ∧ (fmemInit m malloc block fmemType.Growable 0).1 = true
      ∧ (fmemInit m malloc block fmemType.Growable 0).2.mallocs = m.mallocs := by
  refine ⟨?_, ?_, ?_, ?_⟩
  · unfold fmemInit
    rw [if_neg hb]
    by_cases h1 : type = fmemType.Fixed ∧ size = 0
    · simp [h1]
    · rw [if_neg h1]
      by_cases hs : size > 0
      · simp only [hs, if_true, fmem__AllocateBlock_fst]
        by_cases hm : malloc (add64 size FMEM__OFFSET_TO_DATA) = 0
        · simp [hm, hs]
        · simp [hm, h1]
      · simp only [hs, if_false]
        simp [h1, hs]
  · intro ht hs
    unfold fmemInit
    simp [hb, ht, hs]
  · unfold fmemInit
    simp [hb]
  · unfold fmemInit
    simp [hb]

/-- C14. For every type and every size > 0, when the heap returns fresh memory `p` for the
request (`p + 80` is an address and the caller's descriptor does not lie in the new memory),
`fmemInit` returns true and leaves the block materialized with `base = p + 80`, the size field
equal to the requested size, `used = 0`, the given type, `source` and `temporary` null, and as
the only block of its chain; one heap call is made, for `size + 80` bytes in `size_t`
arithmetic. -/
theorem fmemInit_allocates (m : Memory) (malloc : Nat → Nat) (block : Nat) (type : fmemType)
    (size p : Nat) (hb : block ≠ 0) (hs : 0 < size)
    (hp : malloc (add64 size FMEM__OFFSET_TO_DATA) = p) (hp0 : p ≠ 0)
    (hpr : p + 80 < 18446744073709551616) (hfresh : block ≠ p + 24) :
    ∃ m', fmemInit m malloc block type size = (true, m')
      ∧ m'.block block =
          { source := 0, base := p + 80, temporary := 0, size := size, used := 0, type := type }
      ∧ Materialized (m'.block block)
      ∧ Chain m' block [block]
      ∧ (∀ a, a ≠ block → a ≠ p + 24 → m'.block a = m.block a)
      ∧ m'.mallocs = m.mallocs ++ [(add64 size FMEM__OFFSET_TO_DATA, p)] := by
  have hmalloc : malloc (add64 size FMEM__OFFSET_TO_DATA) ≠ 0 := by rw [hp]; exact hp0
  have h1 : ¬ (type = fmemType.Fixed ∧ size = 0) := by
    rintro ⟨_, h⟩
    omega
  unfold fmemInit
  rw [if_neg hb, if_neg h1]
  simp only [hs, if_true, fmem__AllocateBlock_ok _ _ _ _ hmalloc, hmalloc, if_false, hp, hp0,
    FMEM__GETBLOCK_eq p (by omega), plus_OFFSET_TO_DATA_eq p hpr]
  have hblk : ∀ M : Memory, M.block block =
      { source := 0, base := p + 80, temporary := 0, size := size, used := 0, type := type } →
      M.header p = zeroHeader → Chain M block [block] := by
    intro M hM hH
    refine ⟨rfl, hb, ?_, ?_⟩
    · rw [hM]; exact ⟨by simp only; omega, by simp only; omega⟩
    · show nextOf M block = 0
      unfold nextOf
      rw [hM]
      have e : FMEM__GETHEADER
          { source := 0, base := p + 80, temporary := 0, size := size, used := 0,
            type := type } = p := by
        unfold FMEM__GETHEADER sub64 FMEM__OFFSET_TO_DATA sizeof_fmemBlockHeader
          sizeof_fmemMemoryBlock FMEM__HEADER_SPACING
        simp only []
        omega
      rw [e, hH]
      rfl
  have hnew : ∀ M : Memory, M.block block =
      { source := 0, base := p + 80, temporary := 0, size := size, used := 0, type := type } →
      Materialized (M.block block) := by
    intro M hM
    rw [hM]; exact ⟨by simp only; omega, by simp only; omega⟩
  refine ⟨_, rfl, ?_, ?_, ?_, ?_, ?_⟩
  · simp [setBlock_block_other _ _ _ _ hfresh, zeroBlock]
  · apply hnew
    simp [setBlock_block_other _ _ _ _ hfresh, zeroBlock]
  · apply hblk
    · simp [setBlock_block_other _ _ _ _ hfresh, zeroBlock]
    · simp
  · intro a ha hap
    simp [modifyBlock_block_other _ _ _ _ ha, setBlock_block_other _ _ _ _ hap,
      setBlock_block_other _ _ _ _ ha]
  · simp

/-- C15. When `fmemInit(block, type, size)` with `size > 0` on a non-null block gets null from
the heap, it returns false and leaves the descriptor with `base`, `size`, `used`, `source` and
`temporary` all zero (and `type` set), every other descriptor and every header unchanged;
`fmemGetTotalSize` and `fmemGetRemainingSize` of the block then return 0. -/
theorem fmemInit_allocation_failure (fuel : Nat) (m : Memory) (malloc : Nat → Nat)
    (block : Nat) (type : fmemType) (size : Nat) (hb : block ≠ 0) (hs : 0 < size)
    (hfail : malloc (add64 size FMEM__OFFSET_TO_DATA) = 0) :
    ∃ m', fmemInit m malloc block type size = (false, m')
      ∧ m'.block block =
          { source := 0, base := 0, temporary := 0, size := 0, used := 0, type := type }
      ∧ (∀ a, a ≠ block → m'.block a = m.block a)
      ∧ m'.header = m.header
      ∧ fmemGetTotalSize (fuel + 1) m' block = some 0
      ∧ fmemGetRemainingSize (fuel + 1) m' block = some 0 := by
  have h1 : ¬ (type = fmemType.Fixed ∧ size = 0) := by
    rintro ⟨_, h⟩
    omega
  unfold fmemInit
  rw [if_neg hb, if_neg h1]
  simp only [hs, if_true, fmem__AllocateBlock_null _ _ _ _ hfail]
  refine ⟨_, rfl, ?_, ?_, ?_, ?_, ?_⟩
  · simp [Memory.modifyBlock, Memory.setBlock, zeroBlock]
  · intro a ha
    simp [Memory.modifyBlock, Memory.setBlock, ha]
  · rfl
  · unfold fmemGetTotalSize fmemGetTotalSize_loop
    simp [hb, Memory.modifyBlock, Memory.setBlock, zeroBlock]
  · unfold fmemGetRemainingSize fmemGetRemainingSize_loop
    simp [hb, Memory.modifyBlock, Memory.setBlock, zeroBlock]

/-- C16. On a non-null block `fmemInitFromSource(block, buffer, n)` returns true exactly when
`buffer` is non-null and `n > 0`; then the descriptor is Fixed with `base = buffer`, `size = n`,
`used = 0`, `source = buffer` and `temporary` null, nothing else changes and no heap call is
made; when it returns false the memory is unchanged. -/
theorem fmemInitFromSource_spec (m : Memory) (block buffer n : Nat) (hb : block ≠ 0) :
    ((fmemInitFromSource m block buffer n).1 = true ↔ buffer ≠ 0 ∧ 0 < n)
      ∧ (buffer ≠ 0 → 0 < n →
          fmemInitFromSource m block buffer n
            = (true, m.setBlock block
                { source := buffer, base := buffer, temporary := 0, size := n, used := 0,
                  type := fmemType.Fixed }))
      ∧ ((fmemInitFromSource m block buffer n).1 = false →
          (fmemInitFromSource m block buffer n).2 = m) := by
  unfold fmemInitFromSource
  by_cases hn : n = 0
  · simp [hn]
  · by_cases hbuf : buffer = 0
    · simp [hb, hn, hbuf]
    · have hpos : 0 < n := Nat.pos_of_ne_zero hn
      simp [hb, hn, hbuf, hpos, modifyBlock_eq, zeroBlock]

/-- C17, evaluated at a failing input.  On the fixed arena of 100 bytes with `used = 10`
(unlocked, materialized), `fmemPush` of `2^64 - 5` bytes returns the non-null pointer
`base + 10` although `used + size <= size` does not hold, and `used` goes from 10 to 5. -/
theorem single_block_push_wraps :
    (fixedArena100Used10.block 64).type = fmemType.Fixed
      ∧ (fixedArena100Used10.block 64).used = 10
      ∧ ¬ ((fixedArena100Used10.block 64).used + 18446744073709551611
            ≤ (fixedArena100Used10.block 64).size)
      ∧ (fmemPush 1 fixedArena100Used10 (fun _ => 0) 64 18446744073709551611
            fmemPushFlags_None).map (fun r => (r.1, (r.2.block 64).used))
          = some (4186, 5) := by
  decide

/-- C18. With a non-null `dst` descriptor, `fmemPushBlock(src, dst, size, flags)` does the call
`fmemPush(src, size, flags)` (or, for a null `src` or a zero size, fails as that call would, and
changes nothing): it returns false with the memory that push leaves when push returns null, and
true when push returns a pointer `r`; then the memory is the one push leaves with only the `dst`
descriptor changed, to `base = r`, `size = size`, `used = 0`, `source = src`, `type = Fixed`
(`temporary` keeps what it held). -/
theorem fmemPushBlock_spec (fuel : Nat) (m : Memory) (malloc : Nat → Nat)
    (src dst size flags : Nat) (hd : dst ≠ 0) :
    (fmemPush fuel m malloc src size flags = none →
        fmemPushBlock fuel m malloc src dst size flags = none)
      ∧ (∀ r m1, fmemPush fuel m malloc src size flags = some (r, m1) →
          (r = 0 → fmemPushBlock fuel m malloc src dst size flags = some (false, m1))
          ∧ (r ≠ 0 → fmemPushBlock fuel m malloc src dst size flags
              = some (true, m1.setBlock dst
                  { source := src, base := r, temporary := (m1.block dst).temporary,
                    size := size, used := 0, type := fmemType.Fixed }))) := by
  by_cases h0 : src = 0 ∨ size = 0
  · have hpush : fmemPush fuel m malloc src size flags = some (0, m) := by
      unfold fmemPush
      rw [if_pos h0]
    have hg : src = 0 ∨ dst = 0 ∨ size = 0 := by
      rcases h0 with h | h
      · exact Or.inl h
      · exact Or.inr (Or.inr h)
    have hblock : fmemPushBlock fuel m malloc src dst size flags = some (false, m) := by
      unfold fmemPushBlock
      rw [if_pos hg]
    rw [hpush, hblock]
    refine ⟨fun h => by simp at h, ?_⟩
    intro r m1 h
    simp only [Option.some.injEq, Prod.mk.injEq] at h
    obtain ⟨rfl, rfl⟩ := h
    exact ⟨fun _ => rfl, fun h => absurd rfl h⟩
  · have hg : ¬ (src = 0 ∨ dst = 0 ∨ size = 0) := by
      rintro (h | h | h)
      · exact h0 (Or.inl h)
      · exact hd h
      · exact h0 (Or.inr h)
    constructor
    · intro hnone
      unfold fmemPushBlock
      rw [if_neg hg, hnone]
    · intro r m1 hpush
      constructor
      · intro hr
        unfold fmemPushBlock
        rw [if_neg hg, hpush]
        simp [hr]
      · intro hr
        unfold fmemPushBlock
        rw [if_neg hg, hpush]
        simp [hr, modifyBlock_eq]

/-- C19, evaluated at a failing input.  The `dst` descriptor holds stale content with a non-null
`temporary` field.  `fmemPushBlock(&arena, &dst, 16, 0)` succeeds and sets `base`, `size`, `used`,
`source` and `type` of `dst`, but leaves `temporary` as it was, so `dst` is locked and
`fmemPush(&dst, 8, 0)` returns null. -/
theorem fmemPushBlock_keeps_temporary :
    ((fmemPushBlock 1 staleDescriptorArena (fun _ => 0) 64 128 16 fmemPushFlags_None).bind
        fun r1 =>
      (fmemPush 1 r1.2 (fun _ => 0) 128 8 fmemPushFlags_None).map fun r2 =>
        (r1.1, r1.2.block 128, r2.1))
      = some (true, { source := 64, base := 4176, temporary := 77, size := 16, used := 0,
                      type := fmemType.Fixed }, 0) := by
  decide

/-- C20. `fmemBeginTemporary(source, T)` returns false when the source is not materialized, and
when `fmemGetRemainingSize(source)` is zero; and whenever it returns false the memory, so the
source and `T`, is unchanged. -/
theorem fmemBeginTemporary_failure (fuel : Nat) (m : Memory) (source temporary : Nat) :
    (¬ Materialized (m.block source) →
        fmemBeginTemporary fuel m source temporary = some (false, m))
      ∧ (fmemGetRemainingSize fuel m source = some 0 →
        fmemBeginTemporary fuel m source temporary = some (false, m))
      ∧ (∀ m', fmemBeginTemporary fuel m source temporary = some (false, m') → m' = m) := by
  refine ⟨?_, ?_, ?_⟩
  · intro hmat
    have hnm : (m.block source).base = 0 ∨ (m.block source).size = 0 := by
      unfold Materialized at hmat
      by_contra hc
      exact hmat ⟨fun h1 => hc (Or.inl h1), fun h2 => hc (Or.inr h2)⟩
    unfold fmemBeginTemporary
    by_cases h0 : source = 0 ∨ temporary = 0
    · rw [if_pos h0]
    · rw [if_neg h0, if_pos hnm]
  · intro hrem
    unfold fmemBeginTemporary
    by_cases h0 : source = 0 ∨ temporary = 0
    · rw [if_pos h0]
    · rw [if_neg h0]
      by_cases hnm : (m.block source).base = 0 ∨ (m.block source).size = 0
      · rw [if_pos hnm]
      · rw [if_neg hnm, hrem]
        simp
  · intro m' h
    unfold fmemBeginTemporary at h
    split at h
    · simp at h; exact h.symm
    · split at h
      · simp at h; exact h.symm
      · split at h
        · simp at h
        · split at h
          · simp at h; exact h.symm
          · simp at h

/-- C21, evaluated at a failing input.  The source is the head of the two-block example chain
(16 bytes free in the head, 1144 in the second block).  A first `fmemBeginTemporary(&arena, &t1)`
succeeds and locks the source (`temporary` is `t1`, at address 128, and `used = 1160`).  A second
`fmemBeginTemporary(&arena, &t2)` on the locked source does not fail: it returns true, makes
`source.temporary` refer to `t2` (address 192) and advances `source.used` to 2304, while `t1` still
names the arena as its source.  The function never reads `source->temporary`. -/
theorem fmemBeginTemporary_on_locked_source :
    ((fmemBeginTemporary 3 twoBlockArena 64 128).bind fun r1 =>
      (fmemBeginTemporary 3 r1.2 64 192).map fun r2 =>
        ((r1.1, (r1.2.block 64).temporary, (r1.2.block 64).used, (r1.2.block 64).size),
          (r2.1, (r2.2.block 64).temporary, (r2.2.block 64).used),
          r2.2.block 192, r2.2.block 128))
      = some ((true, 128, 1160, 16), (true, 192, 2304),
          { source := 64, base := 5336, temporary := 0, size := 1144, used := 0,
            type := fmemType.Temporary },
          { source := 64, base := 4176, temporary := 0, size := 1160, used := 0,
            type := fmemType.Temporary }) := by
  decide

/-- C22. `fmemEndTemporary(T)` does nothing when `T` is not an active temporary: if `T.type` is not
Temporary, or `T.source` is null, or `T.size` is 0, the memory afterwards is the memory before, so
neither `T` nor any other block, header or byte is modified (for a null `T` as well). -/
theorem fmemEndTemporary_inactive (m : Memory) (temporary : Nat)
    (h : (m.block temporary).type ≠ fmemType.Temporary ∨ (m.block temporary).source = 0
      ∨ (m.block temporary).size = 0) :
    fmemEndTemporary m temporary = m := by
  unfold fmemEndTemporary
  by_cases h0 : temporary = 0
  · rw [if_pos h0]
  · rw [if_neg h0, if_pos h]

/-- C23. For a non-null temporary `T` that passes the guards of `fmemEndTemporary` (type Temporary,
non-null source `S`, non-zero size), `S` being another descriptor: after `fmemEndTemporary(T)`
`S.temporary` is null, `S.used` is the old `S.used` minus `T.size` in `size_t` arithmetic, which is
the plain difference when `S.used == S.size` and `T.size <= S.size` (the conditions the function
asserts); `S.base`, `S.size`, `S.type` and `S.source` are unchanged, `T` is all zero, no other
descriptor, no header, no byte and no heap record changes; and the memory afterwards is the same
whatever `T.used` was.  The statement does not need `S.temporary == T`, which the function only
asserts. -/
theorem fmemEndTemporary_effect (m : Memory) (S T : Nat) (hT : T ≠ 0) (hS : S ≠ 0)
    (hne : S ≠ T) (htype : (m.block T).type = fmemType.Temporary)
    (hsrc : (m.block T).source = S) (hsize : (m.block T).size ≠ 0) :
    ((fmemEndTemporary m T).block S).temporary = 0
      ∧ ((fmemEndTemporary m T).block S).used = sub64 (m.block S).used (m.block T).size
      ∧ ((m.block S).used = (m.block S).size → (m.block T).size ≤ (m.block S).size →
          (m.block S).size < 18446744073709551616 →
          ((fmemEndTemporary m T).block S).used = (m.block S).used - (m.block T).size)
      ∧ ((fmemEndTemporary m T).block S).base = (m.block S).base
      ∧ ((fmemEndTemporary m T).block S).size = (m.block S).size
      ∧ ((fmemEndTemporary m T).block S).type = (m.block S).type
      ∧ ((fmemEndTemporary m T).block S).source = (m.block S).source
      ∧ (fmemEndTemporary m T).block T = zeroBlock
      ∧ (∀ a, a ≠ S → a ≠ T → (fmemEndTemporary m T).block a = m.block a)
      ∧ (fmemEndTemporary m T).header = m.header
      ∧ (fmemEndTemporary m T).byte = m.byte
      ∧ (fmemEndTemporary m T).mallocs = m.mallocs
      ∧ (fmemEndTemporary m T).frees = m.frees
      ∧ (∀ u, fmemEndTemporary (m.modifyBlock T fun b => { b with used := u }) T
          = fmemEndTemporary m T) := by
  have hsrc0 : (m.block T).source ≠ 0 := by rw [hsrc]; exact hS
  have hneT : (m.block T).source ≠ T := by rw [hsrc]; exact hne
  have e := fmemEndTemporary_active m T hT htype hsrc0 hsize hneT
  rw [hsrc] at e
  have hu : ((fmemEndTemporary m T).block S).used = sub64 (m.block S).used (m.block T).size := by
    rw [e, setBlock_block_other _ _ _ _ hne, setBlock_block_same]
  refine ⟨?_, hu, ?_, ?_, ?_, ?_, ?_, ?_, ?_, ?_, ?_, ?_, ?_, ?_⟩
  · rw [e, setBlock_block_other _ _ _ _ hne, setBlock_block_same]
  · intro hfull hle hbound
    rw [hu, sub64_eq _ _ (by omega) (by omega)]
  · rw [e, setBlock_block_other _ _ _ _ hne, setBlock_block_same]
  · rw [e, setBlock_block_other _ _ _ _ hne, setBlock_block_same]
  · rw [e, setBlock_block_other _ _ _ _ hne, setBlock_block_same]
  · rw [e, setBlock_block_other _ _ _ _ hne, setBlock_block_same]
  · rw [e, setBlock_block_same]
  · intro a haS haT
    rw [e, setBlock_block_other _ _ _ _ haT, setBlock_block_other _ _ _ _ haS]
  · rw [e]; rfl
  · rw [e]; rfl
  · rw [e]; rfl
  · rw [e]; rfl
  · intro u
    have hTb : ((m.modifyBlock T fun b => { b with used := u }).block T)
        = { m.block T with used := u } := modifyBlock_block_same _ _ _
    have e2 := fmemEndTemporary_active (m.modifyBlock T fun b => { b with used := u }) T hT
      (by rw [hTb]; exact htype) (by rw [hTb]; exact hsrc0) (by rw [hTb]; exact hsize)
      (by rw [hTb]; exact hneT)
    rw [e2, e, hTb]
    simp only [hsrc, modifyBlock_block_other _ _ _ _ hne]
    unfold Memory.modifyBlock Memory.setBlock
    simp only [Memory.mk.injEq, and_true, true_and]
    funext a
    by_cases h1 : a = T
    · simp [h1]
    · by_cases h2 : a = S
      · simp [h1, h2]
      · simp [h1, h2]

/-- C24. When the traversal from `block` along `next` visits the materialized blocks `l` and then
stops (at a null pointer or at the first block with `base == null` or `size == 0`, which is not
counted), `fmemGetRemainingSize(block)` returns the sum of `size - used` over `l`, provided the sum
is below `2^64`; a visited block with `used > size` adds 0 (the difference is cut off at 0, as the
guard in `fmem__GetSpaceAvailableFor` does).  For a null or non-materialized `block` the result is
0.  The function has no store: it returns a number and the memory is not an output of it. -/
theorem fmemGetRemainingSize_spec (fuel : Nat) (m : Memory) (block : Nat) (l : List Nat)
    (hwalk : Walk m block l) (hfuel : l.length < fuel)
    (hsum : (l.map fun a => (m.block a).size - (m.block a).used).sum < 18446744073709551616) :
    fmemGetRemainingSize fuel m block
        = some (l.map fun a => (m.block a).size - (m.block a).used).sum
      ∧ (block = 0 ∨ ¬ Materialized (m.block block) → fmemGetRemainingSize fuel m block = some 0)
      := by
  have h := fmemGetRemainingSize_walk fuel m block l hwalk hfuel
  rw [Nat.mod_eq_of_lt hsum] at h
  refine ⟨h, ?_⟩
  intro hstop
  cases l with
  | nil => rw [h]; rfl
  | cons a l =>
    obtain ⟨hp, ha, hmat, _⟩ := hwalk
    rcases hstop with h0 | hn
    · rw [hp] at h0; exact absurd h0 ha
    · rw [hp] at hn; exact absurd hmat hn

/-- C25. On the same traversal `l`, `fmemGetTotalSize(block)` returns the sum of `size` over `l`,
provided the sum is below `2^64`; and when every visited block has `used <= size`, this total is
the value of `fmemGetRemainingSize(block)` plus the sum of `used` over `l`. -/
theorem fmemGetTotalSize_spec (fuel : Nat) (m : Memory) (block : Nat) (l : List Nat)
    (hwalk : Walk m block l) (hfuel : l.length < fuel)
    (hsum : (l.map fun a => (m.block a).size).sum < 18446744073709551616) :
    fmemGetTotalSize fuel m block = some (l.map fun a => (m.block a).size).sum
      ∧ ((∀ a ∈ l, (m.block a).used ≤ (m.block a).size) →
          ∃ r, fmemGetRemainingSize fuel m block = some r
            ∧ (l.map fun a => (m.block a).size).sum
                = r + (l.map fun a => (m.block a).used).sum) := by
  have h := fmemGetTotalSize_walk fuel m block l hwalk hfuel
  rw [Nat.mod_eq_of_lt hsum] at h
  refine ⟨h, ?_⟩
  intro hinv
  have hsplit : (l.map fun a => (m.block a).size).sum
      = (l.map fun a => (m.block a).size - (m.block a).used).sum
        + (l.map fun a => (m.block a).used).sum :=
    sum_size_eq (fun a => (m.block a).size) (fun a => (m.block a).used) l hinv
  have hr := fmemGetRemainingSize_walk fuel m block l hwalk hfuel
  rw [Nat.mod_eq_of_lt (by omega)] at hr
  exact ⟨_, hr, hsplit⟩

/-- C26. `fmemReset(block)` on a non-null unlocked block sets `used` of this descriptor to 0 and
changes nothing else: its `base`, `size`, `type`, `source` and `temporary` are unchanged, every
other descriptor (so every chained block, its `used` included) is unchanged, the headers, the data
bytes and the record of heap calls are unchanged (nothing is freed).  On a locked block
(`temporary != null`) the memory afterwards is the memory before. -/
theorem fmemReset_spec (m : Memory) (block : Nat) :
    (block ≠ 0 → (m.block block).temporary = 0 →
        ((fmemReset m block).block block).used = 0
          ∧ ((fmemReset m block).block block).base = (m.block block).base
          ∧ ((fmemReset m block).block block).size = (m.block block).size
          ∧ ((fmemReset m block).block block).type = (m.block block).type
          ∧ ((fmemReset m block).block block).source = (m.block block).source
          ∧ ((fmemReset m block).block block).temporary = (m.block block).temporary
          ∧ (∀ a, a ≠ block → (fmemReset m block).block a = m.block a)
          ∧ (fmemReset m block).header = m.header
          ∧ (fmemReset m block).byte = m.byte
          ∧ (fmemReset m block).mallocs = m.mallocs
          ∧ (fmemReset m block).frees = m.frees)
      ∧ ((m.block block).temporary ≠ 0 → fmemReset m block = m) := by
  constructor
  · intro hb hl
    have e : fmemReset m block = m.modifyBlock block fun b => { b with used := 0 } := by
      unfold fmemReset
      rw [if_pos ⟨hb, hl⟩]
    rw [e]
    refine ⟨by simp, by simp, by simp, by simp, by simp, by simp, ?_, rfl, rfl, rfl, rfl⟩
    intro a ha
    exact modifyBlock_block_other _ _ _ _ ha
  · intro hl
    unfold fmemReset
    have hc : ¬ (block ≠ 0 ∧ (m.block block).temporary = 0) := fun hc => hl hc.2
    rw [if_neg hc]

/-- C27. `fmemFree(block)` while a temporary is outstanding (`block.temporary != null`) returns,
whatever the fuel, with the memory unchanged: nothing is handed to the deallocator and no
descriptor changes. -/
theorem fmemFree_locked (fuel : Nat) (m : Memory) (block : Nat)
    (h : (m.block block).temporary ≠ 0) :
    fmemFree fuel m block = some m := by
  unfold fmemFree
  have hc : ¬ (block ≠ 0 ∧ (m.block block).temporary = 0) := fun hc => h hc.2
  rw [if_neg hc]

/-- C28. `fmemFree(block)` on a non-null unlocked block, of any type, whose traversal ends
(visited blocks `l`) returns, and afterwards the head descriptor is all zero (`base`, `size`,
`used`, `source`, `temporary` null or 0 and `type` Growable, the zero value of the enum), so
`fmemGetTotalSize(block)` is 0, and a later `fmemPush(block, size, flags)` with `size > 0`, for
which the heap returns memory `p`, asks the heap for `fmem__ComputeBlockSize(size)` bytes and
installs the new storage in the head: `base = p + 80`, `used = size`, type Growable, result
`p + 80`. -/
theorem fmemFree_clears_head (fuel : Nat) (m : Memory) (block : Nat) (l : List Nat)
    (hb : block ≠ 0) (hl : (m.block block).temporary = 0) (hwalk : Walk m block l)
    (hfuel : l.length < fuel) :
    ∃ m', fmemFree fuel m block = some m'
      ∧ m'.block block = zeroBlock
      ∧ fmemGetTotalSize fuel m' block = some 0
      ∧ ∀ (malloc : Nat → Nat) (size flags p : Nat), size ≠ 0 →
          malloc (fmem__ComputeBlockSize size) = p → p ≠ 0 → p + 80 < 18446744073709551616 →
          ∃ m2, fmemPush fuel m' malloc block size flags
              = some (fmemPush_done m2 (p + 80) size flags)
            ∧ m2.block block =
                { source := 0, base := p + 80, temporary := 0,
                  size := blockSize_minus_OFFSET_TO_DATA (fmem__ComputeBlockSize size),
                  used := size, type := fmemType.Growable }
            ∧ m2.mallocs = m'.mallocs ++ [(fmem__ComputeBlockSize size, p)] := by
  obtain ⟨m1, h1⟩ := fmemFree_loop_returns l fuel m block hwalk hfuel
  obtain ⟨fuel, rfl⟩ := Nat.exists_eq_succ_of_ne_zero (by omega : fuel ≠ 0)
  have hz : (m1.setBlock block zeroBlock).block block = zeroBlock := setBlock_block_same _ _ _
  refine ⟨m1.setBlock block zeroBlock, ?_, hz, ?_, ?_⟩
  · unfold fmemFree
    rw [if_pos ⟨hb, hl⟩, h1]
  · unfold fmemGetTotalSize fmemGetTotalSize_loop
    rw [if_neg hb, if_neg hb, hz]
    simp [zeroBlock]
  · intro malloc size flags p hs hp hp0 hpr
    obtain ⟨m2, e1, e2, _, _, e5, _⟩ :=
      fmemPush_materializes_head fuel (m1.setBlock block zeroBlock) malloc block size flags p hb hs
        (by rw [hz]; rfl) (by rw [hz]; rfl) (by rw [hz]; rfl) hp hp0 hpr
    exact ⟨m2, e1, e2, e5⟩

/-- C29. `fmemFree(head)` on a non-null unlocked head whose traversal visits the materialized
blocks `l`, each with a null `source` (heap-owned), returns, and the headers it hands to the
deallocator are exactly the headers of the blocks of `l`, one call for each block, in the order of
the chain; these headers are pairwise different, so no allocation is freed twice, and nothing else
is freed.  No heap allocation is made. -/
theorem fmemFree_releases_chain (fuel : Nat) (m : Memory) (head : Nat) (l : List Nat)
    (hh : head ≠ 0) (hl : (m.block head).temporary = 0) (hwalk : Walk m head l)
    (hown : ∀ a ∈ l, (m.block a).source = 0) (hfuel : l.length < fuel) :
    ∃ m', fmemFree fuel m head = some m'
      ∧ m'.frees = m.frees ++ l.map (fun a => FMEM__GETHEADER (m.block a))
      ∧ (l.map fun a => FMEM__GETHEADER (m.block a)).Nodup
      ∧ m'.mallocs = m.mallocs := by
  obtain ⟨m1, h1, h2, _, _, _, h6⟩ := fmemFree_loop_walk l fuel m head hwalk hown hfuel
  refine ⟨m1.setBlock head zeroBlock, ?_, ?_, Walk_headers_nodup m l head hwalk, ?_⟩
  · unfold fmemFree
    rw [if_pos ⟨hh, hl⟩, h1]
  · rw [setBlock_frees, h2]
  · rw [setBlock_mallocs, h6]

/-- C30. `fmemPushAligned(block, size, alignment, flags)` returns null for every block, size,
alignment and flags, and the memory afterwards is the memory before: no descriptor is modified and
no heap call is recorded. -/
theorem fmemPushAligned_null (m : Memory) (block size alignment flags : Nat) :
    fmemPushAligned m block size alignment flags = (0, m) := rfl

/-- C31, evaluated at the usage example of the header.  After
`fmemInit(&myMem, fmemType_Growable, FMEM_MEGABYTES(16))` the pushes of 3 MB, 64 MB and 5 MB
return `base`, the base of a second block, and `base + 3 MB`; the chain then has two blocks, with
8388608 bytes free in the first and 4144 bytes free in the second.  The push of 9 MB (9437184
bytes) fits neither: the heap is asked for a third block (9441280 bytes), the chain has three
blocks, and the pointer returned is the base of the third block, not an address in the second
block, whose `used` stays at 64 MB. -/
theorem usage_example_adds_third_block :
    (pushAll 4 usageArena
        [(64, usageHeap, 3145728, fmemPushFlags_None),
         (64, usageHeap, 67108864, fmemPushFlags_None),
         (64, usageHeap, 5242880, fmemPushFlags_None)]).map
        (fun r => (r.1, nextOf r.2 64, nextOf r.2 33554456,
          (r.2.block 64).size - (r.2.block 64).used,
          (r.2.block 33554456).size - (r.2.block 33554456).used))
      = some ([4176, 33554512, 3149904], 33554456, 0, 8388608, 4144)
    ∧ (pushAll 4 usageArena
        [(64, usageHeap, 3145728, fmemPushFlags_None),
         (64, usageHeap, 67108864, fmemPushFlags_None),
         (64, usageHeap, 5242880, fmemPushFlags_None),
         (64, usageHeap, 9437184, fmemPushFlags_None)]).map
        (fun r => (r.1, nextOf r.2 64, nextOf r.2 33554456, nextOf r.2 134217752))
      = some ([4176, 33554512, 3149904, 134217808], 33554456, 134217752, 0)
    ∧ (pushAll 4 usageArena
        [(64, usageHeap, 3145728, fmemPushFlags_None),
         (64, usageHeap, 67108864, fmemPushFlags_None),
         (64, usageHeap, 5242880, fmemPushFlags_None),
         (64, usageHeap, 9437184, fmemPushFlags_None)]).map
        (fun r => (((r.2.block 33554456).base, (r.2.block 33554456).used),
          ((r.2.block 134217752).base, (r.2.block 134217752).used), r.2.mallocs))
      = some ((33554512, 67108864), (134217808, 9437184),
          [(16777296, 4096), (67112960, 33554432), (9441280, 134217728)]) := by
  refine ⟨by decide, by decide, by decide⟩

/-- C32, counterexample to the claim as stated.  After `fmemInit(&arena, fmemType_Growable, 0)`,
`fmemPush(3000000)` and `fmemPush(64000000)` the chain has two blocks, with 2416 and 4144 bytes
free.  `fmemPush(5000000)` is served from neither block 1 nor block 2: a third block is appended
and the pointer returned is its base, so the chain does not have exactly two blocks afterwards. -/
theorem scenario_adds_third_block :
    (pushAll 4 scenarioArena
        [(64, scenarioHeap, 3000000, fmemPushFlags_None),
         (64, scenarioHeap, 64000000, fmemPushFlags_None)]).map
        (fun r => ((r.1, nextOf r.2 64, nextOf r.2 4194328),
          ((r.2.block 64).used, (r.2.block 64).size - (r.2.block 64).used),
          ((r.2.block 4194328).used, (r.2.block 4194328).size - (r.2.block 4194328).used)))
      = some (([4176, 4194384], 4194328, 0), (3000000, 2416), (64000000, 4144))
    ∧ (pushAll 4 scenarioArena
        [(64, scenarioHeap, 3000000, fmemPushFlags_None),
         (64, scenarioHeap, 64000000, fmemPushFlags_None),
         (64, scenarioHeap, 5000000, fmemPushFlags_None)]).map
        (fun r => (r.1, (nextOf r.2 64, nextOf r.2 4194328, nextOf r.2 134217752),
          ((r.2.block 64).used, (r.2.block 4194328).used, (r.2.block 134217752).used)))
      = some ([4176, 4194384, 134217808], (4194328, 134217752, 0),
          (3000000, 64000000, 5000000)) := by
  refine ⟨by decide, by decide⟩

/-- C32, amended.  Whatever fresh memory `p1`, `p2`, `p3` the heap returns for the three block
sizes (non-null, distinct, inside the address space, not holding the arena descriptor in their
descriptor slot): after `fmemInit(&arena, fmemType_Growable, 0)`, `fmemPush(3000000)` materializes
the first block (`used = 3000000`), `fmemPush(64000000)` appends a second block
(`used = 64000000`), and `fmemPush(5000000)`, which fits neither of them (`used + 5000000` exceeds
the size of the block in both), appends a third block and returns its base: the chain has exactly
three blocks afterwards and `used` of the first two is unchanged. -/
theorem scenario_three_blocks (fuel : Nat) (m : Memory) (malloc : Nat → Nat)
    (block f1 f2 f3 p1 p2 p3 : Nat) (hb : block ≠ 0) (hfuel : 2 < fuel)
    (hp1 : malloc (fmem__ComputeBlockSize 3000000) = p1)
    (hp2 : malloc (fmem__ComputeBlockSize 64000000) = p2)
    (hp3 : malloc (fmem__ComputeBlockSize 5000000) = p3)
    (h1 : p1 ≠ 0) (h2 : p2 ≠ 0) (h3 : p3 ≠ 0)
    (hr1 : p1 + 80 < 18446744073709551616) (hr2 : p2 + 80 < 18446744073709551616)
    (hr3 : p3 + 80 < 18446744073709551616)
    (h12 : p1 ≠ p2) (h13 : p1 ≠ p3) (h23 : p2 ≠ p3)
    (hb2 : block ≠ p2 + 24) (hb3 : block ≠ p3 + 24) :
    ∃ m1 m2 m3,
      fmemPush fuel (fmemInit m malloc block fmemType.Growable 0).2 malloc block 3000000 f1
          = some (p1 + 80, m1)
      ∧ fmemPush fuel m1 malloc block 64000000 f2 = some (p2 + 80, m2)
      ∧ fmemPush fuel m2 malloc block 5000000 f3 = some (p3 + 80, m3)
      ∧ Chain m1 block [block]
      ∧ Chain m2 block [block, p2 + 24]
      ∧ ((m2.block block).used = 3000000 ∧ (m2.block (p2 + 24)).used = 64000000
          ∧ ¬ (m2.block block).used + 5000000 ≤ (m2.block block).size
          ∧ ¬ (m2.block (p2 + 24)).used + 5000000 ≤ (m2.block (p2 + 24)).size)
      ∧ Chain m3 block [block, p2 + 24, p3 + 24]
      ∧ ((m3.block block).used = 3000000 ∧ (m3.block (p2 + 24)).used = 64000000
          ∧ (m3.block (p3 + 24)).used = 5000000 ∧ (m3.block (p3 + 24)).base = p3 + 80) := by
  obtain ⟨k, rfl⟩ := Nat.exists_eq_succ_of_ne_zero (by omega : fuel ≠ 0)
  have hinit : (fmemInit m malloc block fmemType.Growable 0).2 = m.setBlock block zeroBlock := by
    rw [fmemInit_growable_zero m malloc block hb]
  have hz : ((fmemInit m malloc block fmemType.Growable 0).2).block block = zeroBlock := by
    rw [hinit, setBlock_block_same]
  have bs1 : blockSize_minus_OFFSET_TO_DATA (fmem__ComputeBlockSize 3000000) = 3002416 := by
    decide
  have bs2 : blockSize_minus_OFFSET_TO_DATA (fmem__ComputeBlockSize 64000000) = 64004144 := by
    decide
  -- first push
  obtain ⟨m1', e1, b1, c1, _, _, _, _⟩ :=
    fmemPush_materializes_head_chain k _ malloc block 3000000 f1 p1 hb (by decide)
      (by rw [hz]; rfl) (by rw [hz]; rfl) (by rw [hz]; rfl) hp1 h1 hr1
  obtain ⟨m1, e1', mb1, mh1, _, _⟩ := fmemPush_done_split _ _ _ _ _ _ _ _ e1
  have B1 : m1.block block =
      { source := 0, base := p1 + 80, temporary := 0, size := 3002416, used := 3000000,
        type := fmemType.Growable } := by
    rw [mb1, b1, bs1]
  have C1 : Chain m1 block [block] := Chain_of_views m1' m1 mb1 mh1 _ _ c1
  have H1 : FMEM__GETHEADER (m1.block block) = p1 :=
    FMEM__GETHEADER_eq _ p1 (by rw [B1]) hr1
  -- second push
  obtain ⟨m2', e2, c2, o2, n2, _, _⟩ :=
    fmemPush_appends_block (k + 1) m1 malloc block 64000000 f2 p2 block [] C1
      (by simp only [List.length_nil]; omega)
      (by intro a ha; simp at ha; rw [ha, B1])
      (by rw [B1]) (by decide)
      (by intro a ha; simp at ha; rw [ha, B1]; simp only; decide)
      hp2 h2 hr2
      (by intro a ha; simp at ha; rw [ha]; exact hb2)
      (by intro a ha; simp at ha; rw [ha, H1]; exact h12)
  obtain ⟨m2, e2', mb2, mh2, _, _⟩ := fmemPush_done_split _ _ _ _ _ _ _ _ e2
  have B2 : m2.block block =
      { source := 0, base := p1 + 80, temporary := 0, size := 3002416, used := 3000000,
        type := fmemType.Growable } := by
    rw [mb2, o2 block hb2, B1]
  have N2 : m2.block (p2 + 24) =
      { source := 0, base := p2 + 80, temporary := 0, size := 64004144, used := 64000000,
        type := fmemType.Growable } := by
    rw [mb2, n2, bs2]
  have C2 : Chain m2 block [block, p2 + 24] :=
    Chain_of_views m2' m2 mb2 mh2 _ _ (by simpa using c2)
  have H2a : FMEM__GETHEADER (m2.block block) = p1 :=
    FMEM__GETHEADER_eq _ p1 (by rw [B2]) hr1
  have H2b : FMEM__GETHEADER (m2.block (p2 + 24)) = p2 :=
    FMEM__GETHEADER_eq _ p2 (by rw [N2]) hr2
  -- third push
  obtain ⟨m3', e3, c3, o3, n3, _, _⟩ :=
    fmemPush_appends_block (k + 1) m2 malloc block 5000000 f3 p3 (p2 + 24) [block]
      (by simpa using C2) (by simp only [List.length_singleton]; omega)
      (by
        intro a ha
        simp at ha
        rcases ha with ha | ha
        · rw [ha, B2]
        · rw [ha, N2])
      (by rw [B2]) (by decide)
      (by
        intro a ha
        simp at ha
        rcases ha with ha | ha
        · rw [ha, B2]; simp only; decide
        · rw [ha, N2]; simp only; decide)
      hp3 h3 hr3
      (by
        intro a ha
        simp at ha
        rcases ha with ha | ha
        · rw [ha]; exact hb3
        · rw [ha]; omega)
      (by
        intro a ha
        simp at ha
        rcases ha with ha | ha
        · rw [ha, H2a]; exact h13
        · rw [ha, H2b]; exact h23)
  obtain ⟨m3, e3', mb3, mh3, _, _⟩ := fmemPush_done_split _ _ _ _ _ _ _ _ e3
  have C3 : Chain m3 block [block, p2 + 24, p3 + 24] :=
    Chain_of_views m3' m3 mb3 mh3 _ _ (by simpa using c3)
  refine ⟨m1, m2, m3, e1', e2', e3', C1, C2, ⟨?_, ?_, ?_, ?_⟩, C3, ⟨?_, ?_, ?_, ?_⟩⟩
  · rw [B2]
  · rw [N2]
  · rw [B2]; simp only; decide
  · rw [N2]; simp only; decide
  · rw [mb3, o3 block hb3, B2]
  · rw [mb3, o3 (p2 + 24) (by omega), N2]
  · rw [mb3, n3]
  · rw [mb3, n3]

/-- C34, evaluated at a failing input.  For the request size 4090 (no overflow),
`fmem__ComputeBlockSize` returns 4096, which is less than `4090 + FMEM__OFFSET_TO_DATA = 4170`:
the block does not hold the request plus the overhead; the least multiple of 4096 that does is
8192. -/
theorem fmem__ComputeBlockSize_omits_overhead :
    fmem__ComputeBlockSize 4090 = 4096
      ∧ 4090 + FMEM__OFFSET_TO_DATA = 4170
      ∧ ¬ (4090 + FMEM__OFFSET_TO_DATA ≤ fmem__ComputeBlockSize 4090)
      ∧ 8192 % FMEM__MIN_BLOCKSIZE = 0 ∧ 4090 + FMEM__OFFSET_TO_DATA ≤ 8192 := by
  decide

/-- C35, evaluated at a failing input.  On the fixed arena of 100 bytes the pushes of 10,
`2^64 - 5` and 5 bytes all succeed and return `base`, `base + 10` and `base + 5`: the third
region `[base + 5, base + 10)` lies inside the first region `[base, base + 10)`, which is handed
out again.  The second push takes `used` from 10 to 5: it does not increase it by the request
size. -/
theorem fmemPush_hands_out_again :
    (pushAll 1 fixedArena100
        [(64, fun _ => 0, 10, fmemPushFlags_None),
         (64, fun _ => 0, 18446744073709551611, fmemPushFlags_None),
         (64, fun _ => 0, 5, fmemPushFlags_None)]).map (fun r => (r.1, (r.2.block 64).used))
      = some ([4176, 4186, 4181], 10)
    ∧ (pushAll 1 fixedArena100
        [(64, fun _ => 0, 10, fmemPushFlags_None),
         (64, fun _ => 0, 18446744073709551611, fmemPushFlags_None)]).map
          (fun r => (r.2.block 64).used)
      = some 5 := by
  refine ⟨by decide, by decide⟩

/-- C36. When an unlocked Growable arena needs a new block for a push of a non-zero size (the
head has no storage, or the arena is a complete chain of Growable blocks none of which passes the
fit test) and the heap returns null for the new block, `fmemPush` returns null and every
descriptor, every header, every data byte and the record of frees are as before the call (the
failed request is the only addition to the record of heap allocations); `fmemPushBlock` from such
an arena returns false with the same memory, so `src` and `dst` are unchanged. -/
theorem fmemPush_allocation_failure (fuel : Nat) (m : Memory) (malloc : Nat → Nat)
    (block size flags t : Nat) (l : List Nat)
    (hb : block ≠ 0) (hs : size ≠ 0) (hl : (m.block block).temporary = 0)
    (hty : (m.block block).type = fmemType.Growable)
    (hneed : (m.block block).base = 0
      ∨ (Chain m block (l ++ [t]) ∧ (∀ a ∈ l ++ [t], (m.block a).type = fmemType.Growable)
          ∧ ∀ a ∈ l ++ [t], ¬ add64 (m.block a).used size ≤ (m.block a).size))
    (hfuel : l.length + 1 < fuel)
    (hheap : malloc (fmem__ComputeBlockSize size) = 0) :
    ∃ m', fmemPush fuel m malloc block size flags = some (0, m')
      ∧ m'.block = m.block ∧ m'.header = m.header ∧ m'.byte = m.byte
      ∧ m'.frees = m.frees
      ∧ m'.mallocs = m.mallocs ++ [(fmem__ComputeBlockSize size, 0)]
      ∧ ∀ dst, fmemPushBlock fuel m malloc block dst size flags
          = some (false, if dst = 0 then m else m') := by
  have hpush : fmemPush fuel m malloc block size flags
      = some (0, { m with mallocs := m.mallocs ++ [(fmem__ComputeBlockSize size, 0)] }) := by
    rcases hneed with hbase | ⟨hchain, hgrow, hnofit⟩
    · obtain ⟨fuel, rfl⟩ := Nat.exists_eq_succ_of_ne_zero (by omega : fuel ≠ 0)
      refine fmemPush_alloc_fail_path _ m malloc block size flags hb hs hl hty ?_
        (fun h => absurd hbase h) hheap
      unfold fmemPush_search
      simp [hb, hbase]
    · have hwalk := Chain_walk m _ block hchain
      have hnz := Walk_ne_zero m _ block hwalk
      refine fmemPush_alloc_fail_path _ m malloc block size flags hb hs hl hty ?_
        (fun _ => ⟨t, fmemPush_tail_chain m l t fuel block hchain (by omega)⟩) hheap
      rw [fmemPush_search_walk m size _ fuel block 0 hwalk hgrow (by simpa using hfuel),
        searchFold_none m size _ hnz hnofit]
  refine ⟨_, hpush, rfl, rfl, rfl, rfl, rfl, ?_⟩
  intro dst
  unfold fmemPushBlock
  by_cases hdst : dst = 0
  · rw [if_pos (Or.inr (Or.inl hdst)), if_pos hdst]
  · have hg : ¬ (block = 0 ∨ dst = 0 ∨ size = 0) := by
      rintro (h | h | h)
      · exact hb h
      · exact hdst h
      · exact hs h
    rw [if_neg hg, hpush, if_neg hdst]
    simp

/-- C37, evaluated at a failing input.  `A` is a single-block fixed arena of 100 bytes of which 88
are used, and the caller has stored the address of another arena `B` (50 bytes free) in the memory
it got from `A`.  `fmemBeginTemporary(&A, &T1)` succeeds (`T1.base = 4264`, `T1.size = 12`) and a
push of 4 bytes into `T1` leaves it 8 bytes free.  `fmemBeginTemporary(&T1, &T2)` then returns
true with `T2.size = 58`, not `T1.size - T1.used = 8`: `fmemGetRemainingSize(&T1)` follows
`FMEM__GETHEADER(&T1)->next`, which is read at `T1.base - 80`, inside the bytes of `A` that belong
to the caller, and adds the 50 bytes of `B`.  `T1.used` becomes 62 with `T1.size = 12`, so the
assertion at the end of `fmemBeginTemporary` does not hold. -/
theorem nested_temporary_reads_caller_data :
    ((nestedArena.block 64).base, (nestedArena.block 64).size, (nestedArena.block 64).used)
        = (4176, 100, 88)
    ∧ ((fmemBeginTemporary 2 nestedArena 64 128).bind fun r1 =>
        (fmemPush 1 r1.2 (fun _ => 0) 128 4 fmemPushFlags_None).map fun r2 =>
          ((r1.1, r2.1), FMEM__GETHEADER (r2.2.block 128),
            ((r2.2.block 128).base, (r2.2.block 128).size, (r2.2.block 128).used)))
        = some ((true, 4264), 4184, (4264, 12, 4))
    ∧ ((fmemBeginTemporary 2 nestedArena 64 128).bind fun r1 =>
        (fmemPush 1 r1.2 (fun _ => 0) 128 4 fmemPushFlags_None).bind fun r2 =>
        (fmemBeginTemporary 3 r2.2 128 192).map fun r3 =>
          (r3.1, ((r3.2.block 192).base, (r3.2.block 192).size),
            ((r3.2.block 128).used, (r3.2.block 128).size),
            decide (fmemBeginTemporary_assert r3.2 128)))
        = some (true, (4268, 58), (62, 12), false) := by
  refine ⟨by decide, by decide, by decide⟩

/-- C38, evaluated at a failing input.  A push of 10 bytes on a zeroed descriptor asks the heap
for 4096 bytes and records `size = 4144` for the block, with `base` 80 bytes after the start of
the allocation: `FMEM__OFFSET_TO_DATA + size = 4224` exceeds the 4096 bytes requested.  The same
holds for a block appended to a chain (push of 3000 bytes on the growable example arena). -/
theorem growth_block_exceeds_allocation :
    (fmemPush 1 emptyMemory (fun _ => 4096) 64 10 fmemPushFlags_None).map
        (fun r => (r.1, r.2.mallocs, (r.2.block 64).base, (r.2.block 64).size,
          decide (FMEM__OFFSET_TO_DATA + (r.2.block 64).size ≤ 4096)))
      = some (4176, [(4096, 4096)], 4176, 4144, false)
    ∧ (fmemPush 2 growableArena16 (fun _ => 8192) 64 3000 fmemPushFlags_None).map
        (fun r => (r.1, r.2.mallocs, (r.2.block 8216).base, (r.2.block 8216).size,
          decide (FMEM__OFFSET_TO_DATA + (r.2.block 8216).size ≤ 4096)))
      = some (8272, [(96, 4096), (4096, 8192)], 8272, 4144, false) := by
  refine ⟨by decide, by decide⟩

/-- C39, evaluated at a failing input.  The source is the head of the two-block example chain
with `used = 0 <= size = 16`.  `fmemBeginTemporary` succeeds and gives `T.base = source.base` and
`T.size = 1160`, which is more than `source.size - source.used = 16`: the temporary reaches past
the source block. -/
theorem temporary_reaches_past_source :
    (twoBlockArena.block 64).used ≤ (twoBlockArena.block 64).size
    ∧ (fmemBeginTemporary 3 twoBlockArena 64 128).map
        (fun r => ((r.1, (r.2.block 128).base, (r.2.block 128).size),
          ((twoBlockArena.block 64).base, (twoBlockArena.block 64).size,
            (twoBlockArena.block 64).used),
          decide ((r.2.block 128).size
            ≤ (twoBlockArena.block 64).size - (twoBlockArena.block 64).used)))
      = some ((true, 4176, 1160), (4176, 16, 0), false) := by
  refine ⟨by decide, by decide⟩

/-- C40, evaluated at a failing input.  On the fixed arena of 100 bytes with `used = 10 <= size`
(90 bytes remaining), `fmemPush` of `2^64 - 10` bytes is served from the block: it returns
`base + 10`, and `used` is 0 afterwards, not `10 + size`.  The request is far more than the
remaining capacity. -/
theorem served_request_exceeds_remaining :
    (fixedArena100Used10.block 64).used ≤ (fixedArena100Used10.block 64).size
    ∧ (fixedArena100Used10.block 64).size - (fixedArena100Used10.block 64).used = 90
    ∧ (fmemPush 1 fixedArena100Used10 (fun _ => 0) 64 18446744073709551606
          fmemPushFlags_None).map
        (fun r => (r.1, (r.2.block 64).base, (r.2.block 64).size, (r.2.block 64).used))
      = some (4186, 4176, 100, 0) := by
  refine ⟨by decide, by decide, by decide⟩

/-! ## Witnesses -/

/-- The two-block example chain is a traversal of two blocks. -/
theorem twoBlockArena_walk : Walk twoBlockArena 64 [64, 8216] :=
  ⟨rfl, by decide, by decide, by decide, by decide, by decide, Or.inl (by decide)⟩

/-- The fixed example arena is a traversal of one block. -/
theorem fixedArena100_walk : Walk fixedArena100 64 [64] :=
  ⟨rfl, by decide, by decide, Or.inl (by decide)⟩

/-- Witness of C2: in the two-block example (remaining capacities 16 and 1144) a request of 10
bytes fits both blocks. -/
theorem fmemPush_best_fit_witness :
    (twoBlockArena.block 64).used + 10 ≤ (twoBlockArena.block 64).size
    ∧ (twoBlockArena.block 8216).used + 10 ≤ (twoBlockArena.block 8216).size
    ∧ ∃ pre a post, [64, 8216] = pre ++ a :: post
      ∧ (twoBlockArena.block a).used + 10 ≤ (twoBlockArena.block a).size
      ∧ (∀ b ∈ [64, 8216], (twoBlockArena.block b).used + 10 ≤ (twoBlockArena.block b).size →
          (twoBlockArena.block b).size - (twoBlockArena.block b).used - 10
            ≤ (twoBlockArena.block a).size - (twoBlockArena.block a).used - 10)
      ∧ (∀ b ∈ pre, (twoBlockArena.block b).used + 10 ≤ (twoBlockArena.block b).size →
          (twoBlockArena.block b).size - (twoBlockArena.block b).used - 10
            < (twoBlockArena.block a).size - (twoBlockArena.block a).used - 10)
      ∧ fmemPush 3 twoBlockArena (fun _ => 0) 64 10 fmemPushFlags_None =
          some (fmemPush_done
            (twoBlockArena.setBlock a
              { twoBlockArena.block a with used := (twoBlockArena.block a).used + 10 })
            (add64 (twoBlockArena.block a).base (twoBlockArena.block a).used) 10
            fmemPushFlags_None)
      ∧ (∀ b c, [64, 8216] = [b, c] →
          (twoBlockArena.block b).used + 10 ≤ (twoBlockArena.block b).size →
          (twoBlockArena.block c).used + 10 ≤ (twoBlockArena.block c).size →
          ((twoBlockArena.block b).size - (twoBlockArena.block b).used
              < (twoBlockArena.block c).size - (twoBlockArena.block c).used → a = c)
          ∧ ((twoBlockArena.block c).size - (twoBlockArena.block c).used
              < (twoBlockArena.block b).size - (twoBlockArena.block b).used → a = b)) :=
  ⟨by decide, by decide,
    fmemPush_best_fit 3 twoBlockArena (fun _ => 0) 64 10 fmemPushFlags_None [64, 8216]
      twoBlockArena_walk (by decide) (by decide) (by decide) (by decide) (by decide) (by decide)
      ⟨64, by decide, by decide⟩⟩

/-- Witness of C7: the fixed example arena and a temporary at address 128. -/
theorem fmemBeginTemporary_effect_witness :
    fmemBeginTemporary 2 fixedArena100 64 128 = some (true, temporaryArena100)
    ∧ (temporaryArena100.block 128).base
        = add64 (fixedArena100.block 64).base (fixedArena100.block 64).used
    ∧ fmemGetRemainingSize 2 fixedArena100 64 = some (temporaryArena100.block 128).size
    ∧ (temporaryArena100.block 128).used = 0
    ∧ (temporaryArena100.block 128).type = fmemType.Temporary
    ∧ (temporaryArena100.block 128).source = 64
    ∧ (temporaryArena100.block 128).temporary = 0 :=
  ⟨rfl, fmemBeginTemporary_effect 2 fixedArena100 64 128 temporaryArena100 (by decide) rfl⟩

/-- Witness of C10: a clearing push of 10 bytes on the fixed example arena whose bytes all hold
255. -/
theorem fmemPush_clear_witness :
    fmemPush 1 dirtyArena100 (fun _ => 0) 64 10 fmemPushFlags_Clear = some (4176, clearedArena100)
    ∧ dirtyArena100.byte 4180 = 255
    ∧ (∀ a, 4176 ≤ a → a < 4176 + 10 → clearedArena100.byte a = 0)
    ∧ (∀ a, ¬ (4176 ≤ a ∧ a < 4176 + 10) → clearedArena100.byte a = dirtyArena100.byte a) :=
  ⟨rfl, rfl, fmemPush_clear 1 dirtyArena100 (fun _ => 0) 64 10 fmemPushFlags_Clear 4176
      clearedArena100 rfl (by decide) (by decide)⟩

/-- Witness of C11: `fmemFree` on the arena over caller-owned memory. -/
theorem fmemFree_ownership_witness :
    (externalArena256.block 64).source ≠ 0
    ∧ ∃ m', fmemFree (0 + 1) externalArena256 64 = some m' ∧ m'.frees = externalArena256.frees
        ∧ m'.byte = externalArena256.byte ∧ m'.mallocs = externalArena256.mallocs :=
  ⟨by decide, (fmemFree_ownership 0 externalArena256 64).2 (by decide)⟩

/-- Witness of C13: a non-null descriptor address. -/
theorem fmemInit_failure_iff_witness :
    (64 : Nat) ≠ 0
    ∧ ((fmemInit emptyMemory (fun _ => 0) 64 fmemType.Fixed 100).1 = false
        ↔ (fmemType.Fixed = fmemType.Fixed ∧ 100 = 0)
          ∨ (0 < 100 ∧ (fun _ => 0) (add64 100 FMEM__OFFSET_TO_DATA) = 0))
      ∧ (fmemType.Fixed = fmemType.Fixed → 100 = 0 →
          fmemInit emptyMemory (fun _ => 0) 64 fmemType.Fixed 100 = (false, emptyMemory))
      ∧ (fmemInit emptyMemory (fun _ => 0) 64 fmemType.Growable 0).1 = true
      ∧ (fmemInit emptyMemory (fun _ => 0) 64 fmemType.Growable 0).2.mallocs
          = emptyMemory.mallocs :=
  ⟨by decide, fmemInit_failure_iff emptyMemory (fun _ => 0) 64 fmemType.Fixed 100 (by decide)⟩

/-- Witness of C14: `fmemInit(&arena, fmemType_Fixed, 100)` with the heap returning address
4096. -/
theorem fmemInit_allocates_witness :
    ∃ m', fmemInit emptyMemory (fun _ => 4096) 64 fmemType.Fixed 100 = (true, m')
      ∧ m'.block 64 =
          { source := 0, base := 4096 + 80, temporary := 0, size := 100, used := 0,
            type := fmemType.Fixed }
      ∧ Materialized (m'.block 64)
      ∧ Chain m' 64 [64]
      ∧ (∀ a, a ≠ 64 → a ≠ 4096 + 24 → m'.block a = emptyMemory.block a)
      ∧ m'.mallocs = emptyMemory.mallocs ++ [(add64 100 FMEM__OFFSET_TO_DATA, 4096)] :=
  fmemInit_allocates emptyMemory (fun _ => 4096) 64 fmemType.Fixed 100 4096 (by decide)
    (by decide) rfl (by decide) (by decide) (by decide)

/-- Witness of C15: `fmemInit(&arena, fmemType_Fixed, 100)` with a heap that returns null. -/
theorem fmemInit_allocation_failure_witness :
    ∃ m', fmemInit emptyMemory (fun _ => 0) 64 fmemType.Fixed 100 = (false, m')
      ∧ m'.block 64 =
          { source := 0, base := 0, temporary := 0, size := 0, used := 0,
            type := fmemType.Fixed }
      ∧ (∀ a, a ≠ 64 → m'.block a = emptyMemory.block a)
      ∧ m'.header = emptyMemory.header
      ∧ fmemGetTotalSize (0 + 1) m' 64 = some 0
      ∧ fmemGetRemainingSize (0 + 1) m' 64 = some 0 :=
  fmemInit_allocation_failure 0 emptyMemory (fun _ => 0) 64 fmemType.Fixed 100 (by decide)
    (by decide) rfl

/-- Witness of C16: the arena over a caller-owned buffer of 256 bytes at address 20000. -/
theorem fmemInitFromSource_spec_witness :
    (64 : Nat) ≠ 0
    ∧ ((fmemInitFromSource emptyMemory 64 20000 256).1 = true ↔ 20000 ≠ 0 ∧ 0 < 256)
    ∧ (20000 ≠ 0 → 0 < 256 →
        fmemInitFromSource emptyMemory 64 20000 256
          = (true, emptyMemory.setBlock 64
              { source := 20000, base := 20000, temporary := 0, size := 256, used := 0,
                type := fmemType.Fixed }))
    ∧ ((fmemInitFromSource emptyMemory 64 20000 256).1 = false →
        (fmemInitFromSource emptyMemory 64 20000 256).2 = emptyMemory) :=
  ⟨by decide, fmemInitFromSource_spec emptyMemory 64 20000 256 (by decide)⟩

/-- Witness of C18: a sub-block of 16 bytes pushed from the fixed example arena into the
descriptor at address 128. -/
theorem fmemPushBlock_spec_witness :
    (128 : Nat) ≠ 0
    ∧ (fmemPush 1 fixedArena100 (fun _ => 0) 64 16 fmemPushFlags_None = none →
        fmemPushBlock 1 fixedArena100 (fun _ => 0) 64 128 16 fmemPushFlags_None = none)
    ∧ (∀ r m1, fmemPush 1 fixedArena100 (fun _ => 0) 64 16 fmemPushFlags_None = some (r, m1) →
        (r = 0 →
          fmemPushBlock 1 fixedArena100 (fun _ => 0) 64 128 16 fmemPushFlags_None
            = some (false, m1))
        ∧ (r ≠ 0 → fmemPushBlock 1 fixedArena100 (fun _ => 0) 64 128 16 fmemPushFlags_None
            = some (true, m1.setBlock 128
                { source := 64, base := r, temporary := (m1.block 128).temporary,
                  size := 16, used := 0, type := fmemType.Fixed }))) :=
  ⟨by decide, fmemPushBlock_spec 1 fixedArena100 (fun _ => 0) 64 128 16 fmemPushFlags_None
    (by decide)⟩

/-- Witness of C20: a source without storage, and a full source. -/
theorem fmemBeginTemporary_failure_witness :
    ¬ Materialized (emptyMemory.block 64)
    ∧ fmemBeginTemporary 2 emptyMemory 64 128 = some (false, emptyMemory)
    ∧ fmemGetRemainingSize 2 temporaryArena100 64 = some 0
    ∧ fmemBeginTemporary 2 temporaryArena100 64 256 = some (false, temporaryArena100) :=
  ⟨by decide, (fmemBeginTemporary_failure 2 emptyMemory 64 128).1 (by decide), by decide,
    (fmemBeginTemporary_failure 2 temporaryArena100 64 256).2.1 (by decide)⟩

/-- Witness of C22: the fixed example arena is not a temporary. -/
theorem fmemEndTemporary_inactive_witness :
    ((fixedArena100.block 64).type ≠ fmemType.Temporary ∨ (fixedArena100.block 64).source = 0
      ∨ (fixedArena100.block 64).size = 0)
    ∧ fmemEndTemporary fixedArena100 64 = fixedArena100 :=
  ⟨by decide, fmemEndTemporary_inactive fixedArena100 64 (by decide)⟩

/-- Witness of C23: the temporary at address 128 of the fixed example arena. -/
theorem fmemEndTemporary_effect_witness :
    (temporaryArena100.block 128).type = fmemType.Temporary
    ∧ (temporaryArena100.block 128).source = 64
    ∧ (temporaryArena100.block 128).size = 100
    ∧ (temporaryArena100.block 64).temporary = 128
    ∧ (temporaryArena100.block 64).used = (temporaryArena100.block 64).size
    ∧ ((fmemEndTemporary temporaryArena100 128).block 64).temporary = 0
    ∧ ((fmemEndTemporary temporaryArena100 128).block 64).used
        = (temporaryArena100.block 64).used - (temporaryArena100.block 128).size
    ∧ (fmemEndTemporary temporaryArena100 128).block 128 = zeroBlock :=
  ⟨by decide, by decide, by decide, by decide, by decide,
    (fmemEndTemporary_effect temporaryArena100 64 128 (by decide) (by decide) (by decide)
      (by decide) (by decide) (by decide)).1,
    (fmemEndTemporary_effect temporaryArena100 64 128 (by decide) (by decide) (by decide)
      (by decide) (by decide) (by decide)).2.2.1 (by decide) (by decide) (by decide),
    (fmemEndTemporary_effect temporaryArena100 64 128 (by decide) (by decide) (by decide)
      (by decide) (by decide) (by decide)).2.2.2.2.2.2.2.1⟩

/-- A descriptor without storage stops the traversal at once. -/
theorem emptyMemory_walk : Walk emptyMemory 64 [] := Or.inr (by decide)

/-- Witness of C24: the two-block example chain (16 and 1144 bytes free), and a descriptor
without storage. -/
theorem fmemGetRemainingSize_spec_witness :
    ([64, 8216].map fun a => (twoBlockArena.block a).size - (twoBlockArena.block a).used).sum
        = 1160
    ∧ fmemGetRemainingSize 3 twoBlockArena 64
        = some ([64, 8216].map fun a =>
            (twoBlockArena.block a).size - (twoBlockArena.block a).used).sum
    ∧ ¬ Materialized (emptyMemory.block 64)
    ∧ fmemGetRemainingSize 1 emptyMemory 64 = some 0 :=
  ⟨by decide,
    (fmemGetRemainingSize_spec 3 twoBlockArena 64 [64, 8216] twoBlockArena_walk (by decide)
      (by decide)).1,
    by decide,
    (fmemGetRemainingSize_spec 1 emptyMemory 64 [] emptyMemory_walk (by decide) (by decide)).2
      (Or.inr (by decide))⟩

/-- Witness of C25: the two-block example chain (sizes 16 and 4144, 0 and 3000 bytes used). -/
theorem fmemGetTotalSize_spec_witness :
    ([64, 8216].map fun a => (twoBlockArena.block a).size).sum = 4160
    ∧ (∀ a ∈ [64, 8216], (twoBlockArena.block a).used ≤ (twoBlockArena.block a).size)
    ∧ fmemGetTotalSize 3 twoBlockArena 64
        = some ([64, 8216].map fun a => (twoBlockArena.block a).size).sum
    ∧ ∃ r, fmemGetRemainingSize 3 twoBlockArena 64 = some r
        ∧ ([64, 8216].map fun a => (twoBlockArena.block a).size).sum
            = r + ([64, 8216].map fun a => (twoBlockArena.block a).used).sum :=
  ⟨by decide, by decide,
    (fmemGetTotalSize_spec 3 twoBlockArena 64 [64, 8216] twoBlockArena_walk (by decide)
      (by decide)).1,
    (fmemGetTotalSize_spec 3 twoBlockArena 64 [64, 8216] twoBlockArena_walk (by decide)
      (by decide)).2 (by decide)⟩

/-- Witness of C26: the fixed example arena with 10 bytes used, and the locked example arena. -/
theorem fmemReset_spec_witness :
    (fixedArena100Used10.block 64).used = 10
    ∧ (fixedArena100Used10.block 64).temporary = 0
    ∧ ((fmemReset fixedArena100Used10 64).block 64).used = 0
    ∧ ((fmemReset fixedArena100Used10 64).block 64).size = (fixedArena100Used10.block 64).size
    ∧ (temporaryArena100.block 64).temporary ≠ 0
    ∧ fmemReset temporaryArena100 64 = temporaryArena100 :=
  ⟨by decide, by decide,
    ((fmemReset_spec fixedArena100Used10 64).1 (by decide) (by decide)).1,
    ((fmemReset_spec fixedArena100Used10 64).1 (by decide) (by decide)).2.2.1,
    by decide,
    (fmemReset_spec temporaryArena100 64).2 (by decide)⟩

/-- Witness of C27: the locked example arena. -/
theorem fmemFree_locked_witness :
    (temporaryArena100.block 64).temporary ≠ 0
    ∧ fmemFree 2 temporaryArena100 64 = some temporaryArena100 :=
  ⟨by decide, fmemFree_locked 2 temporaryArena100 64 (by decide)⟩

/-- Witness of C28: release of the fixed example arena, then a push of 10 bytes for which the
heap returns address 8192. -/
theorem fmemFree_clears_head_witness :
    (fixedArena100.block 64).type = fmemType.Fixed
    ∧ ∃ m', fmemFree 2 fixedArena100 64 = some m'
      ∧ m'.block 64 = zeroBlock
      ∧ fmemGetTotalSize 2 m' 64 = some 0
      ∧ ∃ m2, fmemPush 2 m' (fun _ => 8192) 64 10 fmemPushFlags_None
            = some (fmemPush_done m2 (8192 + 80) 10 fmemPushFlags_None)
          ∧ m2.block 64 =
              { source := 0, base := 8192 + 80, temporary := 0,
                size := blockSize_minus_OFFSET_TO_DATA (fmem__ComputeBlockSize 10),
                used := 10, type := fmemType.Growable }
          ∧ m2.mallocs = m'.mallocs ++ [(fmem__ComputeBlockSize 10, 8192)] := by
  obtain ⟨m', h1, h2, h3, h4⟩ :=
    fmemFree_clears_head 2 fixedArena100 64 [64] (by decide) (by decide) fixedArena100_walk
      (by decide)
  exact ⟨by decide, m', h1, h2, h3,
    h4 (fun _ => 8192) 10 fmemPushFlags_None 8192 (by decide) rfl (by decide) (by decide)⟩

/-- Witness of C29: release of the two-block example chain, whose allocations are at addresses
4096 and 8192. -/
theorem fmemFree_releases_chain_witness :
    twoBlockArena.mallocs.map (fun c => c.2) = [4096, 8192]
    ∧ ([64, 8216].map fun a => FMEM__GETHEADER (twoBlockArena.block a)) = [4096, 8192]
    ∧ ∃ m', fmemFree 3 twoBlockArena 64 = some m'
      ∧ m'.frees = twoBlockArena.frees
          ++ [64, 8216].map (fun a => FMEM__GETHEADER (twoBlockArena.block a))
      ∧ ([64, 8216].map fun a => FMEM__GETHEADER (twoBlockArena.block a)).Nodup
      ∧ m'.mallocs = twoBlockArena.mallocs :=
  ⟨by decide, by decide,
    fmemFree_releases_chain 3 twoBlockArena 64 [64, 8216] (by decide) (by decide)
      twoBlockArena_walk (by decide) (by decide)⟩

/-- The growable example arena is a complete chain of one block. -/
theorem growableArena16_chain : Chain growableArena16 64 ([] ++ [64]) :=
  ⟨rfl, by decide, by decide, (by decide : nextOf growableArena16 64 = 0)⟩

/-- Witness of C32: the scenario on the example heap, with the descriptor at address 64. -/
theorem scenario_three_blocks_witness :
    ∃ m1 m2 m3,
      fmemPush 4 (fmemInit emptyMemory scenarioHeap 64 fmemType.Growable 0).2 scenarioHeap 64
          3000000 fmemPushFlags_None = some (4096 + 80, m1)
      ∧ fmemPush 4 m1 scenarioHeap 64 64000000 fmemPushFlags_None = some (4194304 + 80, m2)
      ∧ fmemPush 4 m2 scenarioHeap 64 5000000 fmemPushFlags_None = some (134217728 + 80, m3)
      ∧ Chain m1 64 [64]
      ∧ Chain m2 64 [64, 4194304 + 24]
      ∧ ((m2.block 64).used = 3000000 ∧ (m2.block (4194304 + 24)).used = 64000000
          ∧ ¬ (m2.block 64).used + 5000000 ≤ (m2.block 64).size
          ∧ ¬ (m2.block (4194304 + 24)).used + 5000000 ≤ (m2.block (4194304 + 24)).size)
      ∧ Chain m3 64 [64, 4194304 + 24, 134217728 + 24]
      ∧ ((m3.block 64).used = 3000000 ∧ (m3.block (4194304 + 24)).used = 64000000
          ∧ (m3.block (134217728 + 24)).used = 5000000
          ∧ (m3.block (134217728 + 24)).base = 134217728 + 80) :=
  scenario_three_blocks 4 emptyMemory scenarioHeap 64 fmemPushFlags_None fmemPushFlags_None
    fmemPushFlags_None 4096 4194304 134217728 (by decide) (by decide) (by decide) (by decide)
    (by decide) (by decide) (by decide) (by decide) (by decide) (by decide) (by decide)
    (by decide) (by decide) (by decide) (by decide) (by decide)

/-- Witness of C36: a push of 3000 bytes on the growable example arena (one block of 16 bytes) and
a heap that returns null, and the same through `fmemPushBlock` with `dst` at address 128. -/
theorem fmemPush_allocation_failure_witness :
    ¬ add64 (growableArena16.block 64).used 3000 ≤ (growableArena16.block 64).size
    ∧ ∃ m', fmemPush 2 growableArena16 (fun _ => 0) 64 3000 fmemPushFlags_None = some (0, m')
      ∧ m'.block = growableArena16.block ∧ m'.header = growableArena16.header
      ∧ m'.byte = growableArena16.byte
      ∧ m'.frees = growableArena16.frees
      ∧ m'.mallocs = growableArena16.mallocs ++ [(fmem__ComputeBlockSize 3000, 0)]
      ∧ ∀ dst, fmemPushBlock 2 growableArena16 (fun _ => 0) 64 dst 3000 fmemPushFlags_None
          = some (false, if dst = 0 then growableArena16 else m') :=
  ⟨by decide,
    fmemPush_allocation_failure 2 growableArena16 (fun _ => 0) 64 3000 fmemPushFlags_None 64 []
      (by decide) (by decide) (by decide) (by decide)
      (Or.inr ⟨growableArena16_chain, by decide, by decide⟩) (by decide) rfl⟩

/-- Example of nested temporaries on a fresh arena: in the fixed example arena nothing is used, so
the temporary at address 128 begins at the base of the arena and what the library reads as its
header is the header of the arena, whose `next` is null. -/
theorem nested_temporaries_fresh_arena :
    ∃ m2 m3, pushAll 2 temporaryArena100 [(128, fun _ => 0, 30, fmemPushFlags_None)]
        = some ([4176], m2)
      ∧ fmemBeginTemporary 2 m2 128 192 = some (true, m3)
      ∧ (m3.block 192).base = add64 (m2.block 128).base (m2.block 128).used
      ∧ (m3.block 192).size = (m2.block 128).size - (m2.block 128).used
      ∧ ((fmemEndTemporary m3 192).block 128).used = (m2.block 128).used
      ∧ ((fmemEndTemporary (fmemEndTemporary m3 192) 128).block 64).used
          = (fixedArena100.block 64).used := by
  have hrun : pushAll 2 temporaryArena100 [(128, fun _ => 0, 30, fmemPushFlags_None)]
      = some ([4176], ((pushAll 2 temporaryArena100
          [(128, fun _ => 0, 30, fmemPushFlags_None)]).getD ([], temporaryArena100)).2) := rfl
  obtain ⟨m3, h1, h2, h3, _, _, h6, _, h8, _⟩ :=
    nested_temporaries_single 2 fixedArena100 temporaryArena100 _ 64 128 192
      [(128, fun _ => 0, 30, fmemPushFlags_None)] [4176] (by decide) (by decide) (by decide)
      (by decide) fixedArena100_walk (by decide) (by decide) (by decide) rfl (by decide) hrun
      (by decide) ⟨rfl, by decide, by decide, Or.inl (by decide)⟩
  exact ⟨_, m3, hrun, h1, h2, h3, h6, h8⟩

end FinalMemory
